import Mathlib

/-!
Shasta: Graphviz rendering of the local marker graph.

A shallow embedding of `src/LocalMarkerGraph-Write.cpp` (the `Writer` function
objects that render one vertex or one edge of a local marker graph) and of
`src/MarkerInterval.hpp`, followed by theorems about them.

Conventions of the embedding.

* The output stream is a `String`; every `s << x` appends to it.
* A render returns a `Result`: the stream contents reached, and the fault that
  stopped the render, if any.  `CZI_ASSERT` failing is `Fault.assertion`; an
  unchecked `operator[]` past the end of an input vector is `Fault.outOfRange`.
* Unsigned machine integers are natural numbers; no arithmetic on them can
  overflow in this file (they are only compared and printed).
* Collaborators whose code is not part of these two files (the consensus
  caller, the coverage records, the marker table, the k-mer accessor, the
  stream's floating-point formatting) are fields of the structures below.
-/

namespace Shasta

/-! ## Bases -/

/-- Modelled from the spec: `Base.hpp` is not among the sources; a base is one
of the four letters `A`, `C`, `G`, `T`. -/
inductive Base
  | A | C | G | T
  deriving DecidableEq, Repr

/-- Modelled from the spec: the letter written for a base (`Base::character`). -/
def Base.character : Base → Char
  | .A => 'A'
  | .C => 'C'
  | .G => 'G'
  | .T => 'T'

/-- Modelled from the spec: `AlignedBase` is not among the sources; an aligned
base is one of the four bases or the gap symbol, with integer values 0 to 4. -/
inductive AlignedBase
  | A | C | G | T | gap
  deriving DecidableEq, Repr

/-- Modelled from the spec: the conversion `AlignedBase(Base)`. -/
def AlignedBase.ofBase : Base → AlignedBase
  | .A => .A
  | .C => .C
  | .G => .G
  | .T => .T

/-- Modelled from the spec: `AlignedBase::isGap`. -/
def AlignedBase.isGap : AlignedBase → Bool
  | .gap => true
  | _ => false

/-- Modelled from the spec: the character written by `s << base`; the gap is
rendered as `-`. -/
def AlignedBase.character : AlignedBase → Char
  | .A => 'A'
  | .C => 'C'
  | .G => 'G'
  | .T => 'T'
  | .gap => '-'

/-- Modelled from the spec: `AlignedBase::fromInteger`, over the five possible
base values (the gap symbol included). -/
def AlignedBase.fromInteger : Nat → AlignedBase
  | 0 => .A
  | 1 => .C
  | 2 => .G
  | 3 => .T
  | _ => .gap

/-! ## Reads and marker intervals -/

/-- Modelled from the spec: `ReadId.hpp` is not among the sources; an oriented
read id identifies a sequencing read plus a strand (0 or 1). -/
structure OrientedReadId where
  readId : Nat
  strand : Fin 2
  deriving DecidableEq, Repr

/-- Modelled from the spec: the accessor `OrientedReadId::getReadId`. -/
def OrientedReadId.getReadId (o : OrientedReadId) : Nat := o.readId

/-- Modelled from the spec: the accessor `OrientedReadId::getStrand`, 0 or 1. -/
def OrientedReadId.getStrand (o : OrientedReadId) : Nat := o.strand.val

/-- The class `MarkerInterval` of `MarkerInterval.hpp`: an oriented read and
the ordinals of two markers on it (`array<uint32_t, 2> ordinals`). -/
structure MarkerInterval where
  orientedReadId : OrientedReadId
  ordinals : Nat × Nat
  deriving DecidableEq, Repr

/-- The constructor `MarkerInterval(orientedReadId, ordinal0, ordinal1)`. -/
def MarkerInterval.make (orientedReadId : OrientedReadId) (ordinal0 ordinal1 : Nat) :
    MarkerInterval :=
  { orientedReadId := orientedReadId, ordinals := (ordinal0, ordinal1) }

/-- The comparison `MarkerInterval::operator<`: `std::tie(...) < std::tie(...)`
on three components, which the standard library defines from the components'
`<` alone.  The order of `OrientedReadId` is the parameter `ltId`. -/
def MarkerInterval.lt (ltId : OrientedReadId → OrientedReadId → Bool)
    (a that : MarkerInterval) : Bool :=
  if ltId a.orientedReadId that.orientedReadId then true
  else if ltId that.orientedReadId a.orientedReadId then false
  else if a.ordinals.1 < that.ordinals.1 then true
  else if that.ordinals.1 < a.ordinals.1 then false
  else decide (a.ordinals.2 < that.ordinals.2)

/-- The class `MarkerIntervalWithRepeatCounts`: a marker interval with a vector
of repeat counts (`vector<uint8_t>`). -/
structure MarkerIntervalWithRepeatCounts extends MarkerInterval where
  repeatCounts : List Nat
  deriving Repr

/-- The constructor of `MarkerIntervalWithRepeatCounts`, which does not fill in
the repeat counts. -/
def MarkerIntervalWithRepeatCounts.ofInterval (markerInterval : MarkerInterval) :
    MarkerIntervalWithRepeatCounts :=
  { toMarkerInterval := markerInterval, repeatCounts := [] }

/-! ## Consensus and coverage -/

/-- The result of the consensus caller: a base and a repeat count. -/
structure Consensus where
  base : AlignedBase
  repeatCount : Nat
  deriving DecidableEq, Repr

instance : Inhabited Consensus := ⟨⟨AlignedBase.gap, 0⟩⟩

/-- The coverage record of one sequence position.  Its code is not among the
sources; the renderer only asks it for a coverage glyph, for a base
(`coverageCharacter(base)`) or for a base and a repeat count
(`coverageCharacter(base, repeatCount)`). -/
structure Coverage where
  coverageCharacter : AlignedBase → Char
  coverageCharacterAt : AlignedBase → Nat → Char

/-! ## The local marker graph -/

/-- One supporting marker of a vertex. -/
structure MarkerInfo where
  markerId : Nat
  orientedReadId : OrientedReadId
  ordinal : Nat
  deriving DecidableEq, Repr

/-- A vertex of the local marker graph.  Its coverage is the number of
`markerInfos`. -/
structure LocalMarkerGraphVertex where
  vertexId : Nat
  distance : Int
  rank : Nat
  markerInfos : List MarkerInfo
  coverages : List Coverage

/-- A sequence observed on an edge: the bases between the two markers, or the
number of overlapping bases when there are none. -/
structure Sequence where
  overlappingBaseCount : Nat
  sequence : List Base
  deriving DecidableEq, Repr

/-- One aligned read of an edge whose alignment was computed. -/
structure AlignmentInfo where
  orientedReadId : OrientedReadId
  ordinals : Nat × Nat
  repeatCounts : List Nat
  deriving DecidableEq, Repr

/-- An edge of the local marker graph.  `coverage` and `consensus` stand for
the member functions `coverage()` and `consensus()`; a row of `seqanAlignment`
is the aligned read, gaps included. -/
structure LocalMarkerGraphEdge where
  coverage : Nat
  consensus : Nat
  isSpanningTreeEdge : Bool
  isSpanningTreeBestPathEdge : Bool
  isDagEdge : Bool
  edgeId : Nat
  assemblyEdgeId : Nat
  positionInAssemblyEdge : Nat
  infos : List (Sequence × List MarkerIntervalWithRepeatCounts)
  seqanAlignmentWasComputed : Bool
  alignmentInfos : List AlignmentInfo
  seqanAlignment : List (List AlignedBase)
  coverages : List Coverage

/-- The local marker graph as the writer uses it: the marker length `k` and the
collaborators reached through the graph. -/
structure LocalMarkerGraph where
  k : Nat
  /-- The base at a position of `Kmer(getKmerId(v), k)`. -/
  getKmer : LocalMarkerGraphVertex → Nat → Base
  /-- The field `position` of `markers.begin()[markerId]`. -/
  markerPosition : Nat → Nat
  getRepeatCounts : MarkerInfo → List Nat
  consensusCaller : Coverage → Consensus
  /-- The repeat counts with support, in the increasing order of `std::set`. -/
  findRepeatCounts : List Coverage → List Nat
  /-- The text written by `s << orientedReadId`. -/
  showOrientedReadId : OrientedReadId → String
  /-- The constant `MarkerGraph::invalidEdgeId`. -/
  invalidEdgeId : Nat
  /-- The constant `std::numeric_limits<AssemblyGraph::VertexId>::max()`. -/
  invalidAssemblyEdgeId : Nat

/-- The text the stream writes for a `double` at precision 4.  Floating point is
outside the embedding: the two values the writer prints are named by what they
are computed from. -/
structure FloatText where
  /-- The text of `0.05 * sqrt(double(coverage))`. -/
  vertexWidth : Nat → String
  /-- The text of a `double` holding the given thickness. -/
  ofThickness : ℚ → String

/-- The class `LocalMarkerGraph::Writer`. -/
structure Writer where
  graph : LocalMarkerGraph
  minCoverage : Nat
  maxDistance : Int
  detailed : Bool
  showVertexId : Bool
  floats : FloatText

/-! ## The output stream -/

/-- What stops a render. -/
inductive Fault
  | assertion
  | outOfRange
  deriving DecidableEq, Repr

/-- The state of a render: the stream contents and the fault raised, if any. -/
structure Result where
  out : String
  fault : Option Fault
  deriving DecidableEq, Repr

/-- The statement `s << t`. -/
def put (t : String) (s : String) : Result := ⟨s ++ t, none⟩

/-- Raising a fault: nothing is written. -/
def raise (f : Fault) (s : String) : Result := ⟨s, some f⟩

/-- Sequencing: the next statement runs only if no fault was raised. -/
def Result.andThen (r : Result) (next : String → Result) : Result :=
  match r.fault with
  | none => next r.out
  | some _ => r

/-- A range-based `for` loop over a container. -/
def forEach {α : Type} (body : α → String → Result) : List α → String → Result
  | [], s => ⟨s, none⟩
  | x :: rest, s => (body x s).andThen (forEach body rest)

/-- The loop `for(size_t i=0; i<n; i++)`. -/
def forRange (n : Nat) (body : Nat → String → Result) (s : String) : Result :=
  forEach body (List.range n) s

/-- A loop that only writes: the text of `for(size_t i=0; i<n; i++) s << f(i)`. -/
def concatRange (n : Nat) (f : Nat → String) : String :=
  (List.range n).foldl (fun acc i => acc ++ f i) ""

/-- A range-based loop that only writes. -/
def concatEach {α : Type} (xs : List α) (f : α → String) : String :=
  xs.foldl (fun acc x => acc ++ f x) ""

/-- One repeat count as the tables show it: the decimal digit below 10, a star
otherwise. -/
def repeatCountText (repeatCount : Nat) : String :=
  if repeatCount < 10 then toString repeatCount else "*"

/-! ## The vertex writer -/

/-- The colour of a vertex (lines 120-130 and 146-156); `supported` is the
colour of a vertex with enough coverage, `black` in compact output and `green`
in detailed output. -/
def vertexColor (w : Writer) (supported : String) (vertex : LocalMarkerGraphVertex) : String :=
  let coverage := vertex.markerInfos.length
  if vertex.distance = w.maxDistance then "cyan"
  else if vertex.distance = 0 then "#90ee90"
  else if coverage ≥ w.minCoverage then supported
  else "red"

/-- The beginning of a vertex tooltip, up to the coverage. -/
def vertexTooltipStart (w : Writer) (vertex : LocalMarkerGraphVertex) : String :=
  if w.showVertexId then "Vertex " ++ toString vertex.vertexId ++ ", coverage "
  else "Coverage "

/-- The compact output of a vertex (lines 97-134). -/
def writeVertexCompact (w : Writer) (vertex : LocalMarkerGraphVertex) (s : String) : Result :=
  let coverage := vertex.markerInfos.length
  let color := vertexColor w "black" vertex
  put ("["
    ++ "id=vertex" ++ toString vertex.vertexId
    ++ " tooltip=\""
    ++ vertexTooltipStart w vertex
    ++ toString coverage ++ ", distance " ++ toString vertex.distance
    ++ ", rank " ++ toString vertex.rank
    ++ ", click to recenter graph here, right click for detail\""
    ++ " width=\""
    ++ w.floats.vertexWidth coverage
    ++ "\""
    ++ " fillcolor=\"" ++ color ++ "\" color=\"" ++ color ++ "\""
    ++ "]") s

/-- The text of `kmer.write(s, k)`: the `k` letters of the k-mer. -/
def kmerText (kmer : Nat → Base) (k : Nat) : String :=
  concatRange k (fun i => (kmer i).character.toString)

/-- The detailed output of a vertex from the opening bracket to the column
headers of the table (lines 143-208). -/
def vertexDetailedHead (w : Writer) (vertex : LocalMarkerGraphVertex) : String :=
  let coverage := vertex.markerInfos.length
  let k := w.graph.k
  let kmer := w.graph.getKmer vertex
  let color := vertexColor w "green" vertex
  let columnCount : Nat := 4
  "["
    ++ " style=filled"
    ++ " fillcolor=\"" ++ color ++ "\""
    ++ " id=vertex" ++ toString vertex.vertexId
    ++ " tooltip=\""
    ++ vertexTooltipStart w vertex
    ++ toString coverage ++ ", distance " ++ toString vertex.distance
    ++ ", rank " ++ toString vertex.rank ++ "\""
    ++ " label=<<font><table border=\"0\">"
    ++ (if w.showVertexId then
          "<tr><td colspan=\"" ++ toString columnCount ++ "\"><b>"
            ++ "Vertex " ++ toString vertex.vertexId
            ++ "</b></td></tr>"
        else "")
    ++ "<tr><td colspan=\"" ++ toString columnCount ++ "\"><b>"
    ++ kmerText kmer k
    ++ "</b></td></tr>"
    ++ "<tr><td colspan=\"" ++ toString columnCount ++ "\"><b>"
    ++ "Coverage " ++ toString coverage
    ++ "</b></td></tr>"
    ++ "<tr><td colspan=\"" ++ toString columnCount ++ "\" "
    ++ " href=\"\""
    ++ " id=\"vertexDistance" ++ toString vertex.vertexId
    ++ "\" tooltip=\"Click to recenter graph here\">"
    ++ "<font color=\"blue\"><b><u>Distance " ++ toString vertex.distance
    ++ "</u></b></font></td></tr>"
    ++ "<tr><td colspan=\"" ++ toString columnCount ++ "\">"
    ++ "<b>Rank " ++ toString vertex.rank
    ++ "</b></td></tr>"
    ++ "<tr><td><b>Read</b></td><td><b>Ord</b></td><td><b>Pos</b></td>"
    ++ "<td><b>Repeat</b></td>"
    ++ "</tr>"

/-- The value of the `href` attribute of the read cell of a vertex row
(lines 216-217). -/
def vertexReadHref (markerInfo : MarkerInfo) : String :=
  "exploreRead?readId&amp;" ++ toString markerInfo.orientedReadId.getReadId
    ++ "&amp;strand=" ++ toString markerInfo.orientedReadId.getStrand

/-- The value of the `href` attribute of the ordinal cell of a vertex row
(lines 222-224). -/
def vertexOrdinalHref (markerInfo : MarkerInfo) : String :=
  "exploreRead?readId=" ++ toString markerInfo.orientedReadId.getReadId
    ++ "&amp;strand=" ++ toString markerInfo.orientedReadId.getStrand
    ++ "&amp;highlightMarker=" ++ toString markerInfo.ordinal

/-- The row of one marker of a vertex, up to the opening of the repeat count
cell (lines 214-233). -/
def markerRowHead (w : Writer) (markerInfo : MarkerInfo) : String :=
  "<tr><td align=\"right\""
    ++ " href=\"" ++ vertexReadHref markerInfo ++ "\""
    ++ "><font color=\"blue\"><b><u>"
    ++ w.graph.showOrientedReadId markerInfo.orientedReadId
    ++ "</u></b></font></td>"
    ++ "<td align=\"right\""
    ++ " href=\"" ++ vertexOrdinalHref markerInfo
    ++ "\""
    ++ "><font color=\"blue\"><b><u>" ++ toString markerInfo.ordinal
    ++ "</u></b></font></td>"
    ++ "<td align=\"right\"><b>" ++ toString (w.graph.markerPosition markerInfo.markerId)
    ++ "</b></td>"
    ++ "<td><b>"

/-- The loop over the `k` repeat counts of one marker (lines 234-240);
`counts[i]` is an unchecked vector access. -/
def writeMarkerRepeatCounts (k : Nat) (counts : List Nat) (s : String) : Result :=
  forRange k (fun i s =>
    match counts[i]? with
    | none => raise Fault.outOfRange s
    | some c => put (repeatCountText c) s) s

/-- The row of one marker of a vertex (the body of the loop of lines 211-244). -/
def writeMarkerRow (w : Writer) (markerInfo : MarkerInfo) (s : String) : Result :=
  let counts := w.graph.getRepeatCounts markerInfo
  (put (markerRowHead w markerInfo) s).andThen fun s =>
  (writeMarkerRepeatCounts w.graph.k counts s).andThen fun s =>
  put ("</b></td>" ++ "</tr>") s

/-- The consensus loop of a vertex (lines 253-257), over the positions still to
visit: each position is assigned the consensus of its coverage record, and the
consensus base is asserted to be the base of the k-mer.  Nothing is written. -/
def vertexConsensusLoop (w : Writer) (vertex : LocalMarkerGraphVertex) :
    List Nat → List Consensus → Except Fault (List Consensus)
  | [], consensus => Except.ok consensus
  | position :: rest, consensus =>
    match vertex.coverages[position]? with
    | none => Except.error Fault.outOfRange
    | some coverage =>
      let c := w.graph.consensusCaller coverage
      if c.base = AlignedBase.ofBase (w.graph.getKmer vertex position) then
        vertexConsensusLoop w vertex rest (consensus.set position c)
      else Except.error Fault.assertion

/-- The consensus of a vertex: `vector<Consensus> consensus(k)` filled by the
consensus loop. -/
def vertexConsensus (w : Writer) (vertex : LocalMarkerGraphVertex) :
    Except Fault (List Consensus) :=
  vertexConsensusLoop w vertex (List.range w.graph.k) (List.replicate w.graph.k default)

/-- The element `consensus[position]` of the consensus vector. -/
def consensusAt (consensus : List Consensus) (position : Nat) : Consensus :=
  consensus.getD position default

/-- The cell of the `Repeat consensus` row (lines 261-268). -/
def repeatConsensusCell (k : Nat) (consensus : List Consensus) : String :=
  concatRange k (fun position => repeatCountText (consensusAt consensus position).repeatCount)

/-- The cell of the `Raw consensus` row (lines 299-305): at each position the
base is written once for each unit of its consensus repeat count. -/
def rawConsensusCell (k : Nat) (kmer : Nat → Base) (consensus : List Consensus) : String :=
  concatRange k (fun position =>
    let base := AlignedBase.ofBase (kmer position)
    let repeatCount := (consensusAt consensus position).repeatCount
    concatRange repeatCount (fun _ => base.character.toString))

/-- A row of coverage glyphs of a vertex (lines 279-282 and 289-293): at each
position the glyph of the k-mer base and the repeat count given by
`repeatCountAt`.  `vertex.coverages[position]` is an unchecked access. -/
def writeVertexCoverageCells (w : Writer) (vertex : LocalMarkerGraphVertex)
    (repeatCountAt : Nat → Nat) (s : String) : Result :=
  forRange w.graph.k (fun position s =>
    let base := AlignedBase.ofBase (w.graph.getKmer vertex position)
    match vertex.coverages[position]? with
    | none => raise Fault.outOfRange s
    | some coverage =>
      put (coverage.coverageCharacterAt base (repeatCountAt position)).toString s) s

/-- The rows `Coverage for repeat n` of a vertex (lines 272-284). -/
def writeVertexRepeatCountRows (w : Writer) (vertex : LocalMarkerGraphVertex)
    (s : String) : Result :=
  forEach (fun repeatCount s =>
    (put ("<tr>"
      ++ "<td colspan=\"3\" align=\"left\"><b>Coverage for repeat "
      ++ toString repeatCount ++ "</b></td>"
      ++ "<td><b>") s).andThen fun s =>
    (writeVertexCoverageCells w vertex (fun _ => repeatCount) s).andThen fun s =>
    put "</b></td></tr>" s) (w.graph.findRepeatCounts vertex.coverages) s

/-- The detailed output of a vertex (lines 138-314). -/
def writeVertexDetailed (w : Writer) (vertex : LocalMarkerGraphVertex) (s : String) : Result :=
  let k := w.graph.k
  let kmer := w.graph.getKmer vertex
  (put (vertexDetailedHead w vertex) s).andThen fun s =>
  (forEach (writeMarkerRow w) vertex.markerInfos s).andThen fun s =>
  match vertexConsensus w vertex with
  | Except.error f => raise f s
  | Except.ok consensus =>
    (put ("<tr><td colspan=\"3\" align=\"left\"><b>Repeat consensus</b></td>"
      ++ "<td><b>"
      ++ repeatConsensusCell k consensus
      ++ "</b></td></tr>") s).andThen fun s =>
    (writeVertexRepeatCountRows w vertex s).andThen fun s =>
    (put ("<tr><td colspan=\"3\" align=\"left\"><b>Coverage for repeat consensus</b></td>"
      ++ "<td><b>") s).andThen fun s =>
    (writeVertexCoverageCells w vertex
      (fun position => (consensusAt consensus position).repeatCount) s).andThen fun s =>
    put ("</b></td></tr>"
      ++ "<tr><td colspan=\"3\" align=\"left\"><b>Raw consensus</b></td>"
      ++ "<td align=\"left\"><b>"
      ++ rawConsensusCell k kmer consensus
      ++ "</b></td></tr>"
      ++ "</table></font>>"
      ++ "]") s

/-- The vertex writer `Writer::operator()(std::ostream&, vertex_descriptor)`
(lines 82-316). -/
def writeVertex (w : Writer) (vertex : LocalMarkerGraphVertex) (s : String) : Result :=
  let coverage := vertex.markerInfos.length
  if ¬ (coverage > 0) then raise Fault.assertion s
  else if ¬ w.detailed then writeVertexCompact w vertex s
  else writeVertexDetailed w vertex s

/-! ## The edge writer -/

/-- The colour of an edge (lines 338-346 and 392-400). -/
def edgeColor (w : Writer) (edge : LocalMarkerGraphEdge) : String :=
  let coverage := edge.coverage
  if edge.isSpanningTreeEdge then "violet"
  else if coverage ≥ w.minCoverage then "black"
  else "red"

/-- The background colour of the label of a detailed edge (lines 404-410). -/
def edgeLabelColor (color : String) : String :=
  if color = "black" then "green" else color

/-- The thickness of an edge (lines 351 and 381) for a scale factor:
`scale * double(coverage==0 ? 1 : coverage)`, as the exact rational product
that the `double` of the source approximates.  It names the value handed to the
stream; the text the stream writes for it is `FloatText.ofThickness`, and no
property of the rounded or printed value follows from this definition. -/
def edgeThickness (scale : ℚ) (coverage : Nat) : ℚ :=
  scale * ((if coverage = 0 then 1 else coverage : Nat) : ℚ)

/-- The scale factor of the thickness in compact output, `0.2`. -/
def compactThicknessScale : ℚ := 2 / 10

/-- The scale factor of the thickness in detailed output, `0.5`. -/
def detailedThicknessScale : ℚ := 5 / 10

/-- The style attribute of an edge (lines 357-360 and 387-390). -/
def edgeStyleText (edge : LocalMarkerGraphEdge) : String :=
  if edge.isSpanningTreeEdge && !edge.isSpanningTreeBestPathEdge then " style=dashed" else ""

/-- The compact output of an edge (lines 330-366). -/
def writeEdgeCompact (w : Writer) (edge : LocalMarkerGraphEdge) (s : String) : Result :=
  let coverage := edge.coverage
  let consensus := edge.consensus
  let color := edgeColor w edge
  let thickness := edgeThickness compactThicknessScale coverage
  put ("["
    ++ "tooltip=\"Coverage " ++ toString coverage ++ ", consensus " ++ toString consensus ++ "\""
    ++ " fillcolor=\"" ++ color ++ "\""
    ++ " color=\"" ++ color ++ "\""
    ++ " penwidth="
    ++ w.floats.ofThickness thickness
    ++ edgeStyleText edge
    ++ " weight=" ++ toString coverage
    ++ "]") s

/-- The detailed output of an edge from the opening bracket to the header row
of the table (lines 372-456). -/
def edgeDetailedHead (w : Writer) (edge : LocalMarkerGraphEdge) : String :=
  let coverage := edge.coverage
  let consensus := edge.consensus
  let tooltipText := "Coverage " ++ toString coverage ++ ", consensus " ++ toString consensus
  let thickness := edgeThickness detailedThicknessScale coverage
  let color := edgeColor w edge
  let labelColor := edgeLabelColor color
  let columnCount : Nat := 5
  "["
    ++ " tooltip=\"" ++ tooltipText ++ "\""
    ++ " labeltooltip=\"" ++ tooltipText ++ "\""
    ++ " penwidth="
    ++ w.floats.ofThickness thickness
    ++ edgeStyleText edge
    ++ " fillcolor=\"" ++ color ++ "\""
    ++ " color=\"" ++ color ++ "\""
    ++ " weight=" ++ toString coverage
    ++ (if !edge.isDagEdge then " constraint=false" else "")
    ++ " label=<<font color=\"black\">"
    ++ "<table"
    ++ " color=\"black\""
    ++ " bgcolor=\"" ++ labelColor ++ "\""
    ++ " border=\"0\""
    ++ " cellborder=\"1\""
    ++ " cellspacing=\"1\""
    ++ ">"
    ++ (if w.showVertexId && (edge.edgeId != w.graph.invalidEdgeId) then
          "<tr><td colspan=\"" ++ toString columnCount ++ "\"><b>Edge "
            ++ toString edge.edgeId ++ "</b></td></tr>"
        else "")
    ++ (if w.showVertexId && (edge.assemblyEdgeId != w.graph.invalidAssemblyEdgeId) then
          "<tr><td colspan=\"" ++ toString columnCount ++ "\"><b>Position "
            ++ toString edge.positionInAssemblyEdge
            ++ " in assembly graph edge " ++ toString edge.assemblyEdgeId ++ "</b></td></tr>"
        else "")
    ++ "<tr><td colspan=\"" ++ toString columnCount ++ "\"><b>Coverage "
    ++ toString coverage ++ "</b></td></tr>"
    ++ "<tr><td colspan=\"" ++ toString columnCount ++ "\"><b>Consensus "
    ++ toString consensus ++ "</b></td></tr>"
    ++ "<tr>"
    ++ "<td align=\"center\"><b>Read</b></td>"
    ++ "<td align=\"center\"><b>Ord0</b></td>"
    ++ "<td align=\"center\"><b>Ord1</b></td>"
    ++ "<td align=\"center\"><b>Seq</b></td>"
    ++ "<td align=\"center\"><b>Repeat</b></td>"
    ++ "</tr>"

/-- The string representing an observed sequence (lines 463-471): the number of
overlapping bases when there are no bases, the letters of the bases
otherwise. -/
def sequenceString (sequence : Sequence) : String :=
  if sequence.sequence.isEmpty then toString sequence.overlappingBaseCount
  else concatEach sequence.sequence (fun base => base.character.toString)

/-- The value of the `href` attribute of the read cell of an edge row
(lines 478-479 and 546-547). -/
def edgeReadHref (orientedReadId : OrientedReadId) : String :=
  "exploreRead?readId&amp;" ++ toString orientedReadId.getReadId
    ++ "&amp;strand=" ++ toString orientedReadId.getStrand

/-- The value of the `href` attribute of the two ordinal cells of an edge row
(lines 483-486, 491-494, 551-554 and 559-562). -/
def edgeOrdinalHref (orientedReadId : OrientedReadId) (ordinals : Nat × Nat) : String :=
  "exploreRead?readId&amp;" ++ toString orientedReadId.getReadId
    ++ "&amp;strand=" ++ toString orientedReadId.getStrand
    ++ "&amp;highlightMarker=" ++ toString ordinals.1
    ++ "&amp;highlightMarker=" ++ toString ordinals.2

/-- The three link cells of an edge row, without the opening `<tr>`: the read
and the two ordinals (lines 477-496 and 545-564). -/
def edgeLinkCells (w : Writer) (orientedReadId : OrientedReadId) (ordinals : Nat × Nat) :
    String :=
  "<td align=\"right\""
    ++ " href=\"" ++ edgeReadHref orientedReadId ++ "\""
    ++ "><font color=\"blue\"><b><u>" ++ w.graph.showOrientedReadId orientedReadId
    ++ "</u></b></font></td>"
    ++ "<td align=\"right\""
    ++ " href=\"" ++ edgeOrdinalHref orientedReadId ordinals
    ++ "\""
    ++ "><font color=\"blue\"><b><u>" ++ toString ordinals.1 ++ "</u></b></font></td>"
    ++ "<td align=\"right\""
    ++ " href=\"" ++ edgeOrdinalHref orientedReadId ordinals
    ++ "\""
    ++ "><font color=\"blue\"><b><u>" ++ toString ordinals.2 ++ "</u></b></font></td>"

/-- The content of the `Seq` cell of a row (lines 499-507); `isFirst` is the
test `it == infos.begin()`. -/
def seqCellText (sequenceString : String) (isFirst : Bool) : String :=
  if isFirst then
    if sequenceString.length > 100 then "Too long" else sequenceString
  else "="

/-- The `Repeat` cell of a row, written only when repeat counts were recorded
(lines 510-525). -/
def intervalRepeatCell (sequenceString : String) (repeatCounts : List Nat) : String :=
  if !repeatCounts.isEmpty then
    "<td align=\"center\"><b>"
      ++ (if sequenceString.length > 100 then "Too long"
          else concatEach repeatCounts repeatCountText)
      ++ "</b></td>"
  else ""

/-- The row of one supporting interval (the body of the loop of lines
475-528). -/
def intervalRowText (w : Writer) (sequenceString : String) (isFirst : Bool)
    (info : MarkerIntervalWithRepeatCounts) : String :=
  "<tr>" ++ edgeLinkCells w info.orientedReadId info.ordinals
    ++ "<td align=\"center\"><b>"
    ++ seqCellText sequenceString isFirst
    ++ "</b></td>"
    ++ intervalRepeatCell sequenceString info.repeatCounts
    ++ "</tr>"

/-- The loop over the supporting intervals of one sequence (lines 475-528);
`isFirst` tells whether the iterator is at `infos.begin()`. -/
def intervalRowsText (w : Writer) (sequenceString : String) :
    Bool → List MarkerIntervalWithRepeatCounts → String
  | _, [] => ""
  | isFirst, info :: rest =>
    intervalRowText w sequenceString isFirst info
      ++ intervalRowsText w sequenceString false rest

/-- The rows of one entry of the `infos` table (the body of the loop of lines
459-529). -/
def variantRowsText (w : Writer) (p : Sequence × List MarkerIntervalWithRepeatCounts) :
    String :=
  let sequence := p.1
  let infos := p.2
  intervalRowsText w (sequenceString sequence) true infos

/-- The text written for an aligned read (`s << alignmentRow`): the letters of
the row, gaps included. -/
def alignmentRowText (alignmentRow : List AlignedBase) : String :=
  concatEach alignmentRow (fun base => base.character.toString)

/-- The loop over the columns of an alignment row (lines 574-586), over the
columns still to visit; `position` counts the columns that were not gaps, and
`repeatCounts[position++]` is an unchecked access. -/
def writeAlignmentRepeatCounts (repeatCounts : List Nat) :
    List AlignedBase → Nat → String → Result
  | [], _, s => ⟨s, none⟩
  | base :: rest, position, s =>
    if base.isGap then
      (put "-" s).andThen (writeAlignmentRepeatCounts repeatCounts rest position)
    else
      match repeatCounts[position]? with
      | none => raise Fault.outOfRange s
      | some repeatCount =>
        (put (repeatCountText repeatCount) s).andThen
          (writeAlignmentRepeatCounts repeatCounts rest (position + 1))

/-- The row of one aligned read (the body of the loop of lines 538-591);
`seqan::row(edge.seqanAlignment, i)` is an unchecked access. -/
def writeAlignmentRow (w : Writer) (edge : LocalMarkerGraphEdge) (i : Nat) (s : String) :
    Result :=
  match edge.alignmentInfos[i]? with
  | none => raise Fault.outOfRange s
  | some alignmentInfo =>
    (put ("<tr>" ++ edgeLinkCells w alignmentInfo.orientedReadId alignmentInfo.ordinals) s).andThen
    fun s =>
    match edge.seqanAlignment[i]? with
    | none => raise Fault.outOfRange s
    | some alignmentRow =>
      (put ("<td><b>" ++ alignmentRowText alignmentRow ++ "</b></td>"
        ++ "<td><b>") s).andThen fun s =>
      (writeAlignmentRepeatCounts alignmentInfo.repeatCounts alignmentRow 0 s).andThen fun s =>
      put ("</b></td>" ++ "</tr>") s

/-- The consensus of an edge (lines 595-598): a vector of the size of
`edge.coverages`, each position assigned the consensus of its coverage
record. -/
def edgeConsensus (w : Writer) (edge : LocalMarkerGraphEdge) : List Consensus :=
  (List.range edge.coverages.length).foldl
    (fun consensus position =>
      match edge.coverages[position]? with
      | none => consensus
      | some coverage => consensus.set position (w.graph.consensusCaller coverage))
    (List.replicate edge.coverages.length default)

/-- The glyph of `edge.coverages[position]` chosen by `glyph`, over the
positions of the consensus (the loops of lines 641-644, 660-668, 674-683); a
position past the end of `edge.coverages` writes nothing, and there is none
since the consensus has the size of `edge.coverages`. -/
def edgeCoverageCells (edge : LocalMarkerGraphEdge) (consensus : List Consensus)
    (glyph : Coverage → Consensus → String) : String :=
  concatRange consensus.length (fun position =>
    match edge.coverages[position]? with
    | none => ""
    | some coverage => glyph coverage (consensusAt consensus position))

/-- The rows written after the alignment rows of an edge (lines 600-717). -/
def edgeConsensusRowsText (w : Writer) (edge : LocalMarkerGraphEdge)
    (consensus : List Consensus) : String :=
  "<tr><td colspan=\"3\" align=\"left\"><b>Consensus base, repeat count</b></td>"
    ++ "<td><b>"
    ++ concatEach consensus (fun c => c.base.character.toString)
    ++ "</b></td>"
    ++ "<td><b>"
    ++ concatEach consensus (fun c =>
        if c.base.isGap then "-" else repeatCountText c.repeatCount)
    ++ "</b></td>"
    ++ "</tr>"
    ++ concatRange 5 (fun b =>
        let base := AlignedBase.fromInteger b
        "<tr><td colspan=\"3\" align=\"left\"><b>Coverage for " ++ base.character.toString
          ++ "</b></td>"
          ++ "<td><b>"
          ++ concatEach edge.coverages (fun coverage =>
              (coverage.coverageCharacter base).toString)
          ++ "</b></td>"
          ++ "</tr>")
    ++ "<tr><td colspan=\"3\" align=\"left\"><b>Coverage for consensus base</b></td>"
    ++ "<td><b>"
    ++ edgeCoverageCells edge consensus (fun coverage c =>
        (coverage.coverageCharacter c.base).toString)
    ++ "</b></td>"
    ++ "</tr>"
    ++ concatEach (w.graph.findRepeatCounts edge.coverages) (fun repeatCount =>
        "<tr><td colspan=\"4\" align=\"left\"><b>Coverage for consensus base, repeat count "
          ++ toString repeatCount ++ "</b></td>"
          ++ "<td><b>"
          ++ edgeCoverageCells edge consensus (fun coverage c =>
              if c.base.isGap then "-"
              else (coverage.coverageCharacterAt c.base repeatCount).toString)
          ++ "</b></td>"
          ++ "</tr>")
    ++ "<tr><td colspan=\"4\" align=\"left\"><b>Coverage for consensus base and repeat count</b></td>"
    ++ "<td><b>"
    ++ edgeCoverageCells edge consensus (fun coverage c =>
        if c.base.isGap then "-"
        else (coverage.coverageCharacterAt c.base c.repeatCount).toString)
    ++ "</b></td>"
    ++ "</tr>"
    ++ "<tr><td colspan=\"3\" align=\"left\"><b>Consensus (raw)</b></td>"
    ++ "<td colspan=\"2\"><b>"
    ++ concatRange consensus.length (fun position =>
        let base := (consensusAt consensus position).base
        if !base.isGap then
          let repeatCount := (consensusAt consensus position).repeatCount
          concatRange repeatCount (fun _ => base.character.toString)
        else "")
    ++ "</b></td>"
    ++ "</tr>"
    ++ "<tr><td colspan=\"3\" align=\"left\"><b>Consensus (raw) coverage</b></td>"
    ++ "<td colspan=\"2\"><b>"
    ++ edgeCoverageCells edge consensus (fun coverage c =>
        if !c.base.isGap then
          let coverageCharacter := coverage.coverageCharacterAt c.base c.repeatCount
          concatRange c.repeatCount (fun _ => coverageCharacter.toString)
        else "")
    ++ "</b></td>"
    ++ "</tr>"

/-- The alignment part of the table of a detailed edge (lines 534-718). -/
def writeEdgeAlignment (w : Writer) (edge : LocalMarkerGraphEdge) (s : String) : Result :=
  let columnCount : Nat := 5
  if edge.seqanAlignmentWasComputed then
    (put ("<tr><td colspan=\"" ++ toString columnCount
      ++ "\"><b>SeqAn alignment</b></td></tr>") s).andThen fun s =>
    (forRange edge.alignmentInfos.length (writeAlignmentRow w edge) s).andThen fun s =>
    put (edgeConsensusRowsText w edge (edgeConsensus w edge)) s
  else ⟨s, none⟩

/-- The detailed output of an edge (lines 370-726). -/
def writeEdgeDetailed (w : Writer) (edge : LocalMarkerGraphEdge) (s : String) : Result :=
  (put (edgeDetailedHead w edge) s).andThen fun s =>
  (put (concatEach edge.infos (variantRowsText w)) s).andThen fun s =>
  (writeEdgeAlignment w edge s).andThen fun s =>
  put ("</table></font>> decorate=true" ++ "]") s

/-- The edge writer `Writer::operator()(std::ostream&, edge_descriptor)`
(lines 320-729). -/
def writeEdge (w : Writer) (edge : LocalMarkerGraphEdge) (s : String) : Result :=
  let coverage := edge.coverage
  if ¬ (coverage > 0) then raise Fault.assertion s
  else if ¬ w.detailed then writeEdgeCompact w edge s
  else writeEdgeDetailed w edge s

/-! ## Reading the output back

Definitions that follow the words of the specification rather than the code:
how a reader of the rendered text decodes a repeat count row, and the form of a
navigation link. -/

/-- The consensus repeat count of a position of a vertex: the repeat count the
consensus caller returns for the coverage record of that position. -/
def vertexRepeatCount (w : Writer) (vertex : LocalMarkerGraphVertex) (position : Nat) : Nat :=
  match vertex.coverages[position]? with
  | some coverage => (w.graph.consensusCaller coverage).repeatCount
  | none => 0

/-- Run-length expansion: the concatenation over the positions `0..k-1` of the
base of the position repeated its repeat count times, with no separators. -/
def runLengthExpand (k : Nat) (bases : Nat → Base) (repeatCounts : Nat → Nat) : String :=
  String.mk ((List.range k).flatMap
    (fun i => List.replicate (repeatCounts i) (bases i).character))

/-- The value of a decimal digit character (the spec's reading of one
character of a repeat count row as a repeat count). -/
def digitValue (c : Char) : Nat := c.toNat - '0'.toNat

/-- Run-length decoding of the characters of a count row against a base
sequence, from position `i` on: the base of each position is repeated the
number of times its character is read as. -/
def runLengthDecodeFrom (readCount : Char → Nat) (bases : Nat → Base) :
    Nat → List Char → List Char
  | _, [] => []
  | i, c :: rest =>
    List.replicate (readCount c) (bases i).character
      ++ runLengthDecodeFrom readCount bases (i + 1) rest

/-- Run-length decoding of a count row against a base sequence. -/
def runLengthDecode (readCount : Char → Nat) (countRow : String) (bases : Nat → Base) :
    String :=
  String.mk (runLengthDecodeFrom readCount bases 0 countRow.data)

/-- Reading the HTML escape `&amp;` as `&`, on a list of characters. -/
def unescapeAmpChars : List Char → List Char
  | '&' :: 'a' :: 'm' :: 'p' :: ';' :: rest => '&' :: unescapeAmpChars rest
  | c :: rest => c :: unescapeAmpChars rest
  | [] => []

/-- Reading the HTML escape `&amp;` as `&`. -/
def unescapeAmp (text : String) : String := String.mk (unescapeAmpChars text.data)

/-- The form of a read navigation link that the external tooling parses:
`exploreRead?readId=<id>&strand=<0|1>` followed by one `&highlightMarker=`
parameter for each ordinal. -/
def exploreReadLink (readId strand : Nat) (ordinals : List Nat) : String :=
  "exploreRead?readId=" ++ toString readId ++ "&strand=" ++ toString strand
    ++ concatEach ordinals (fun ordinal => "&highlightMarker=" ++ toString ordinal)

/-- The character that stands for a repeat count in the tables, in the words
of the specification: its decimal digit when the count is below 10, a star
otherwise. -/
def repeatCountChar (repeatCount : Nat) : Char :=
  if repeatCount < 10 then Char.ofNat (48 + repeatCount) else '*'

/-- Run-length expansion of alignment columns, in the words of the
specification: a column whose consensus base is not a gap contributes its
glyph repeated its consensus repeat count times, a gap column contributes
nothing. -/
def expandColumns (columns : List (Consensus × Char)) : String :=
  String.mk (columns.flatMap (fun column =>
    if column.1.base.isGap then [] else List.replicate column.1.repeatCount column.2))

/-- The number of columns that are not gaps among the first `j` columns of an
alignment row. -/
def nonGapsBefore (alignmentRow : List AlignedBase) (j : Nat) : Nat :=
  ((alignmentRow.take j).filter (fun base => !base.isGap)).length

/-- The repeat count cell of an aligned read, in the words of the
specification: one character per column of the row, `-` for a gap, and for the
m-th column that is not a gap the character of `repeatCounts[m]`. -/
def alignmentCountCell (repeatCounts : List Nat) (alignmentRow : List AlignedBase) : String :=
  String.mk ((List.range alignmentRow.length).map (fun j =>
    if (alignmentRow.getD j AlignedBase.gap).isGap then '-'
    else repeatCountChar (repeatCounts.getD (nonGapsBefore alignmentRow j) 0)))

/-! ## Sample data

A small graph on which the theorems are instantiated.  A sample coverage record
supports one base with one repeat count; the sample consensus caller returns
the supported base and repeat count. -/

/-- A coverage record that supports `base` with `repeatCount`. -/
def sampleCoverage (base : AlignedBase) (repeatCount : Nat) : Coverage :=
  { coverageCharacter := fun b => if b = base then '1' else '.'
    coverageCharacterAt := fun b n => if b = base ∧ n = repeatCount then '1' else '.' }

/-- A consensus caller: the first supported base and its first supported repeat
count below 32. -/
def sampleCaller (coverage : Coverage) : Consensus :=
  let base := ([AlignedBase.A, AlignedBase.C, AlignedBase.G, AlignedBase.T].find?
    (fun b => coverage.coverageCharacter b != '.')).getD AlignedBase.gap
  let repeatCount := ((List.range 32).find?
    (fun n => coverage.coverageCharacterAt base n != '.')).getD 0
  ⟨base, repeatCount⟩

/-- The k-mer `ACGT`, repeated. -/
def sampleKmer (position : Nat) : Base :=
  match position % 4 with
  | 0 => Base.A
  | 1 => Base.C
  | 2 => Base.G
  | _ => Base.T

/-- A graph with `k = 4` in which every vertex has the k-mer `ACGT`. -/
def sampleGraph : LocalMarkerGraph :=
  { k := 4
    getKmer := fun _ => sampleKmer
    markerPosition := fun markerId => 10 * markerId
    getRepeatCounts := fun markerInfo => [2, 1, 3, markerInfo.ordinal]
    consensusCaller := sampleCaller
    findRepeatCounts := fun _ => [1, 2, 3]
    showOrientedReadId := fun o => toString o.readId ++ "-" ++ toString o.strand.val
    invalidEdgeId := 2 ^ 64 - 1
    invalidAssemblyEdgeId := 2 ^ 64 - 1 }

/-- A stand-in for the floating-point text of the stream. -/
def sampleFloats : FloatText :=
  { vertexWidth := fun coverage => "0.05*sqrt(" ++ toString coverage ++ ")"
    ofThickness := fun _ => "(thickness)" }

/-- A writer over the sample graph with `minCoverage = 3`, `maxDistance = 10`. -/
def sampleWriter (detailed : Bool) : Writer :=
  { graph := sampleGraph
    minCoverage := 3
    maxDistance := 10
    detailed := detailed
    showVertexId := true
    floats := sampleFloats }

/-- A vertex with two markers whose consensus repeat counts are the given
ones. -/
def sampleVertex (repeatCounts : List Nat) : LocalMarkerGraphVertex :=
  { vertexId := 17
    distance := 2
    rank := 4
    markerInfos := [⟨3, ⟨5, 0⟩, 7⟩, ⟨8, ⟨6, 1⟩, 12⟩]
    coverages := List.zipWith sampleCoverage
      [AlignedBase.A, AlignedBase.C, AlignedBase.G, AlignedBase.T] repeatCounts }

/-- A vertex whose coverage record at position 1 supports `A`, where the k-mer
has `C`. -/
def mismatchVertex : LocalMarkerGraphVertex :=
  { vertexId := 18
    distance := 3
    rank := 5
    markerInfos := [⟨3, ⟨5, 0⟩, 7⟩]
    coverages := [sampleCoverage AlignedBase.A 2, sampleCoverage AlignedBase.A 1,
      sampleCoverage AlignedBase.G 3, sampleCoverage AlignedBase.T 1] }

/-- A vertex without markers. -/
def emptyVertex : LocalMarkerGraphVertex :=
  { vertexId := 1, distance := 0, rank := 0, markerInfos := [], coverages := [] }

/-- An edge with the given coverage, one observed sequence supported by two
intervals, and no alignment. -/
def sampleEdge (coverage : Nat) : LocalMarkerGraphEdge :=
  { coverage := coverage
    consensus := 2
    isSpanningTreeEdge := false
    isSpanningTreeBestPathEdge := false
    isDagEdge := true
    edgeId := 40
    assemblyEdgeId := 2 ^ 64 - 1
    positionInAssemblyEdge := 0
    infos := [(⟨0, [Base.A, Base.C]⟩,
      [{ orientedReadId := ⟨5, 0⟩, ordinals := (7, 8), repeatCounts := [1, 12] },
       { orientedReadId := ⟨6, 1⟩, ordinals := (12, 13), repeatCounts := [] }])]
    seqanAlignmentWasComputed := false
    alignmentInfos := []
    seqanAlignment := []
    coverages := [] }

/-- An edge whose only observed sequence is `n` times the base `A`, supported
by two intervals without repeat counts. -/
def longSequenceEdge (n : Nat) : LocalMarkerGraphEdge :=
  { sampleEdge 2 with
    infos := [(⟨0, List.replicate n Base.A⟩,
      [{ orientedReadId := ⟨5, 0⟩, ordinals := (7, 8), repeatCounts := [] },
       { orientedReadId := ⟨6, 1⟩, ordinals := (12, 13), repeatCounts := [] }])] }

/-- An order on oriented read ids: by read id, then by strand. -/
def sampleLtId (a b : OrientedReadId) : Bool :=
  decide (2 * a.readId + a.strand.val < 2 * b.readId + b.strand.val)

/-- The centre of the sample graph: a vertex at distance 0 with one marker. -/
def centreVertex : LocalMarkerGraphVertex :=
  { vertexId := 19
    distance := 0
    rank := 0
    markerInfos := [⟨3, ⟨5, 0⟩, 7⟩]
    coverages := [sampleCoverage AlignedBase.A 2, sampleCoverage AlignedBase.C 1,
      sampleCoverage AlignedBase.G 3, sampleCoverage AlignedBase.T 1] }

/-- The writer `w` with other thresholds `minCoverage` and `maxDistance`, and
the same graph, mode and `showVertexId`. -/
def Writer.withThresholds (w : Writer) (minCoverage : Nat) (maxDistance : Int) : Writer :=
  { w with minCoverage := minCoverage, maxDistance := maxDistance }

/-- A piece of a writer writes a fixed text when, whatever the stream holds, it
appends the same text and ends with the same fault or success. -/
def WritesFixedText (f : String → Result) : Prop :=
  ∃ text fault, ∀ s, f s = ⟨s ++ text, fault⟩

/-- An edge with a computed alignment of two reads over three columns; the
consensus of the middle column is a gap. -/
def alignedEdge : LocalMarkerGraphEdge :=
  { sampleEdge 2 with
    seqanAlignmentWasComputed := true
    alignmentInfos := [⟨⟨5, 0⟩, (7, 8), [2, 3]⟩, ⟨⟨6, 1⟩, (12, 13), [2, 1, 12]⟩]
    seqanAlignment := [[AlignedBase.A, AlignedBase.gap, AlignedBase.C],
      [AlignedBase.A, AlignedBase.G, AlignedBase.C]]
    coverages := [sampleCoverage AlignedBase.A 2, sampleCoverage AlignedBase.gap 0,
      sampleCoverage AlignedBase.C 3] }

end Shasta

/-! ## Lemmas on the output stream -/

set_option maxRecDepth 100000

namespace Shasta

theorem andThen_put (t s : String) (next : String → Result) :
    (put t s).andThen next = next (s ++ t) := rfl

theorem andThen_raise (f : Fault) (s : String) (next : String → Result) :
    (raise f s).andThen next = raise f s := rfl

theorem andThen_ok (s : String) (next : String → Result) :
    (Result.mk s none).andThen next = next s := rfl

theorem andThen_of_fault_none (r : Result) (next : String → Result) (h : r.fault = none) :
    r.andThen next = next r.out := by
  cases r with
  | mk out fault => cases h; rfl

theorem andThen_fault_none (r : Result) (next : String → Result)
    (h : (r.andThen next).fault = none) :
    r.fault = none ∧ (next r.out).fault = none := by
  cases r with
  | mk out fault =>
    cases fault with
    | none => exact ⟨rfl, h⟩
    | some f => simp [Result.andThen] at h

/-- The stream only grows: `r` continues `s` when its contents are `s` followed
by more text. -/
theorem andThen_continues (r : Result) (next : String → Result) (s : String)
    (hr : ∃ t, r.out = s ++ t) (hnext : ∀ s1, ∃ t, (next s1).out = s1 ++ t) :
    ∃ t, (r.andThen next).out = s ++ t := by
  cases r with
  | mk out fault =>
    obtain ⟨t, ht⟩ := hr
    cases fault with
    | some f => exact ⟨t, ht⟩
    | none =>
      obtain ⟨u, hu⟩ := hnext out
      refine ⟨t ++ u, ?_⟩
      simp only [Result.andThen]
      rw [hu]
      simp only at ht
      rw [ht, String.append_assoc]

theorem put_continues (t s : String) : ∃ u, (put t s).out = s ++ u := ⟨t, rfl⟩

theorem raise_continues (f : Fault) (s : String) : ∃ u, (raise f s).out = s ++ u :=
  ⟨"", (String.append_empty s).symm⟩

theorem forEach_continues {α : Type} (body : α → String → Result)
    (hbody : ∀ x s, ∃ t, (body x s).out = s ++ t) (xs : List α) (s : String) :
    ∃ t, (forEach body xs s).out = s ++ t := by
  induction xs generalizing s with
  | nil => exact ⟨"", (String.append_empty s).symm⟩
  | cons x rest ih =>
    exact andThen_continues _ _ s (hbody x s) ih

theorem foldl_append_start {α : Type} (f : α → String) (xs : List α) (a : String) :
    xs.foldl (fun acc x => acc ++ f x) a = a ++ xs.foldl (fun acc x => acc ++ f x) "" := by
  induction xs generalizing a with
  | nil => simp
  | cons x rest ih =>
    simp only [List.foldl_cons]
    rw [ih (a ++ f x), ih ("" ++ f x), String.empty_append, String.append_assoc]

theorem concatEach_nil {α : Type} (f : α → String) : concatEach [] f = "" := rfl

theorem concatEach_cons {α : Type} (f : α → String) (x : α) (xs : List α) :
    concatEach (x :: xs) f = f x ++ concatEach xs f := by
  unfold concatEach
  simp only [List.foldl_cons]
  rw [foldl_append_start, String.empty_append]

theorem concatEach_append {α : Type} (f : α → String) (xs ys : List α) :
    concatEach (xs ++ ys) f = concatEach xs f ++ concatEach ys f := by
  induction xs with
  | nil => simp [concatEach_nil]
  | cons x rest ih => simp only [List.cons_append, concatEach_cons, ih, String.append_assoc]

theorem concatRange_eq (n : Nat) (f : Nat → String) :
    concatRange n f = concatEach (List.range n) f := rfl

theorem concatRange_zero (f : Nat → String) : concatRange 0 f = "" := rfl

theorem concatRange_succ (n : Nat) (f : Nat → String) :
    concatRange (n + 1) f = concatRange n f ++ f n := by
  rw [concatRange_eq, concatRange_eq, List.range_succ, concatEach_append, concatEach_cons,
    concatEach_nil, String.append_empty]

theorem concatEach_data {α : Type} (f : α → String) (xs : List α) :
    (concatEach xs f).data = xs.flatMap (fun x => (f x).data) := by
  induction xs with
  | nil => rfl
  | cons x rest ih => rw [concatEach_cons, String.data_append, ih, List.flatMap_cons]

theorem concatEach_congr {α : Type} (f g : α → String) (xs : List α)
    (h : ∀ x ∈ xs, f x = g x) : concatEach xs f = concatEach xs g := by
  induction xs with
  | nil => rfl
  | cons x rest ih =>
    rw [concatEach_cons, concatEach_cons, h x (List.mem_cons_self x rest),
      ih (fun y hy => h y (List.mem_cons_of_mem x hy))]

/-- A loop whose body only writes is one write of the concatenated text. -/
theorem forEach_put {α : Type} (body : α → String → Result) (text : α → String)
    (xs : List α) (h : ∀ x ∈ xs, ∀ s, body x s = put (text x) s) (s : String) :
    forEach body xs s = put (concatEach xs text) s := by
  induction xs generalizing s with
  | nil => simp [forEach, put, concatEach_nil]
  | cons x rest ih =>
    simp only [forEach]
    rw [h x (List.mem_cons_self x rest) s, andThen_put,
      ih (fun y hy => h y (List.mem_cons_of_mem x hy)), concatEach_cons]
    simp [put, String.append_assoc]

end Shasta

/-! ## The writers only append -/

namespace Shasta

theorem forRange_continues (n : Nat) (body : Nat → String → Result)
    (hbody : ∀ i s, ∃ t, (body i s).out = s ++ t) (s : String) :
    ∃ t, (forRange n body s).out = s ++ t :=
  forEach_continues body hbody (List.range n) s

theorem writeMarkerRepeatCounts_continues (k : Nat) (counts : List Nat) (s : String) :
    ∃ t, (writeMarkerRepeatCounts k counts s).out = s ++ t := by
  apply forRange_continues
  intro i s1
  cases h : counts[i]? with
  | none => simpa [h] using raise_continues Fault.outOfRange s1
  | some c => simpa [h] using put_continues (repeatCountText c) s1

theorem writeMarkerRow_continues (w : Writer) (markerInfo : MarkerInfo) (s : String) :
    ∃ t, (writeMarkerRow w markerInfo s).out = s ++ t := by
  unfold writeMarkerRow
  refine andThen_continues _ _ s (put_continues _ s) (fun s1 => ?_)
  refine andThen_continues _ _ s1 (writeMarkerRepeatCounts_continues _ _ s1) (fun s2 => ?_)
  exact put_continues _ s2

theorem writeVertexCoverageCells_continues (w : Writer) (vertex : LocalMarkerGraphVertex)
    (repeatCountAt : Nat → Nat) (s : String) :
    ∃ t, (writeVertexCoverageCells w vertex repeatCountAt s).out = s ++ t := by
  apply forRange_continues
  intro i s1
  cases h : vertex.coverages[i]? with
  | none => simpa [h] using raise_continues Fault.outOfRange s1
  | some c => simpa [h] using put_continues _ s1

theorem writeVertexRepeatCountRows_continues (w : Writer) (vertex : LocalMarkerGraphVertex)
    (s : String) : ∃ t, (writeVertexRepeatCountRows w vertex s).out = s ++ t := by
  apply forEach_continues
  intro repeatCount s1
  refine andThen_continues _ _ s1 (put_continues _ s1) (fun s2 => ?_)
  refine andThen_continues _ _ s2 (writeVertexCoverageCells_continues _ _ _ s2) (fun s3 => ?_)
  exact put_continues _ s3

/-- The detailed vertex writer, whether it succeeds or stops on a fault, has
written the head of the attribute block. -/
theorem writeVertexDetailed_head (w : Writer) (vertex : LocalMarkerGraphVertex) (s : String) :
    ∃ t, (writeVertexDetailed w vertex s).out = s ++ vertexDetailedHead w vertex ++ t := by
  unfold writeVertexDetailed
  rw [andThen_put]
  refine andThen_continues _ _ _ (forEach_continues _ (writeMarkerRow_continues w) _ _)
    (fun s1 => ?_)
  cases vertexConsensus w vertex with
  | error f => exact raise_continues f s1
  | ok consensus =>
    refine andThen_continues _ _ s1 (put_continues _ s1) (fun s2 => ?_)
    refine andThen_continues _ _ s2 (writeVertexRepeatCountRows_continues _ _ s2) (fun s3 => ?_)
    refine andThen_continues _ _ s3 (put_continues _ s3) (fun s4 => ?_)
    refine andThen_continues _ _ s4 (writeVertexCoverageCells_continues _ _ _ s4) (fun s5 => ?_)
    exact put_continues _ s5

/-- C1. For a vertex with coverage at least 1, the colour is chosen by the
priority rule cyan (distance equal to maxDistance), else `#90ee90` (distance 0),
else the well-supported colour (coverage at least minCoverage), else red; the
well-supported colour is black in compact output and green in detailed output;
compact output writes the colour as fillcolor and color, detailed output as
fillcolor. -/
theorem vertex_colour_priority (w : Writer) (vertex : LocalMarkerGraphVertex) (s : String)
    (hcoverage : vertex.markerInfos.length ≥ 1) :
    ∃ colour : String → String,
      (∀ supported : String,
        (vertex.distance = w.maxDistance → colour supported = "cyan") ∧
        (vertex.distance ≠ w.maxDistance → vertex.distance = 0 →
          colour supported = "#90ee90") ∧
        (vertex.distance ≠ w.maxDistance → vertex.distance ≠ 0 →
          vertex.markerInfos.length ≥ w.minCoverage → colour supported = supported) ∧
        (vertex.distance ≠ w.maxDistance → vertex.distance ≠ 0 →
          vertex.markerInfos.length < w.minCoverage → colour supported = "red")) ∧
      (w.detailed = false →
        writeVertex w vertex s =
          ⟨s ++ ("[" ++ "id=vertex" ++ toString vertex.vertexId
            ++ " tooltip=\"" ++ vertexTooltipStart w vertex
            ++ toString vertex.markerInfos.length ++ ", distance " ++ toString vertex.distance
            ++ ", rank " ++ toString vertex.rank
            ++ ", click to recenter graph here, right click for detail\""
            ++ " width=\"" ++ w.floats.vertexWidth vertex.markerInfos.length ++ "\""
            ++ " fillcolor=\"" ++ colour "black" ++ "\" color=\"" ++ colour "black" ++ "\""
            ++ "]"), none⟩) ∧
      (w.detailed = true →
        ∃ rest, (writeVertex w vertex s).out =
          s ++ ("[" ++ " style=filled" ++ " fillcolor=\"" ++ colour "green" ++ "\"" ++ rest)) := by
  have hpos : vertex.markerInfos.length > 0 := hcoverage
  refine ⟨fun supported => vertexColor w supported vertex, ?_, ?_, ?_⟩
  · intro supported
    simp only [vertexColor]
    refine ⟨fun h => by rw [if_pos h], fun h1 h2 => by rw [if_neg h1, if_pos h2],
      fun h1 h2 h3 => by rw [if_neg h1, if_neg h2, if_pos h3],
      fun h1 h2 h3 => by rw [if_neg h1, if_neg h2, if_neg (Nat.not_le.mpr h3)]⟩
  · intro hmode
    simp [writeVertex, hpos, hmode, writeVertexCompact, put]
  · intro hmode
    obtain ⟨t, ht⟩ := writeVertexDetailed_head w vertex s
    simp only [writeVertex, hpos, hmode, not_true_eq_false, if_false]
    rw [ht]
    simp only [vertexDetailedHead, String.append_assoc]
    exact ⟨_, rfl⟩

end Shasta

namespace Shasta

theorem vertex_colour_priority_witness :
    (sampleVertex [2, 1, 3, 1]).markerInfos.length ≥ 1 ∧
    writeVertex (sampleWriter false) (sampleVertex [2, 1, 3, 1]) "" =
      ⟨"[id=vertex17 tooltip=\"Vertex 17, coverage 2, distance 2, rank 4, click to recenter graph here, right click for detail\" width=\"0.05*sqrt(2)\" fillcolor=\"red\" color=\"red\"]",
        none⟩ := by
  refine ⟨by decide, ?_⟩
  obtain ⟨colour, hrule, hcompact, _⟩ :=
    vertex_colour_priority (sampleWriter false) (sampleVertex [2, 1, 3, 1]) "" (by decide)
  have hred : colour "black" = "red" :=
    (hrule "black").2.2.2 (by decide) (by decide) (by decide)
  rw [hcompact rfl, hred]
  decide

theorem writeAlignmentRepeatCounts_continues (repeatCounts : List Nat)
    (alignmentRow : List AlignedBase) (position : Nat) (s : String) :
    ∃ t, (writeAlignmentRepeatCounts repeatCounts alignmentRow position s).out = s ++ t := by
  induction alignmentRow generalizing position s with
  | nil => exact ⟨"", (String.append_empty s).symm⟩
  | cons base rest ih =>
    unfold writeAlignmentRepeatCounts
    split
    · exact andThen_continues _ _ s (put_continues _ s) (ih position)
    · split
      · exact raise_continues _ s
      · exact andThen_continues _ _ s (put_continues _ s) (ih (position + 1))

theorem writeAlignmentRow_continues (w : Writer) (edge : LocalMarkerGraphEdge) (i : Nat)
    (s : String) : ∃ t, (writeAlignmentRow w edge i s).out = s ++ t := by
  unfold writeAlignmentRow
  split
  · exact raise_continues _ s
  · refine andThen_continues _ _ s (put_continues _ s) (fun s1 => ?_)
    split
    · exact raise_continues _ s1
    · refine andThen_continues _ _ s1 (put_continues _ s1) (fun s2 => ?_)
      refine andThen_continues _ _ s2 (writeAlignmentRepeatCounts_continues _ _ _ s2)
        (fun s3 => ?_)
      exact put_continues _ s3

theorem writeEdgeAlignment_continues (w : Writer) (edge : LocalMarkerGraphEdge) (s : String) :
    ∃ t, (writeEdgeAlignment w edge s).out = s ++ t := by
  unfold writeEdgeAlignment
  split
  · refine andThen_continues _ _ s (put_continues _ s) (fun s1 => ?_)
    refine andThen_continues _ _ s1
      (forRange_continues _ _ (writeAlignmentRow_continues w edge) s1) (fun s2 => ?_)
    exact put_continues _ s2
  · exact ⟨"", (String.append_empty s).symm⟩

/-- The detailed edge writer, whether it succeeds or stops on a fault, has
written the head of the attribute block and the rows of the `infos` table. -/
theorem writeEdgeDetailed_head (w : Writer) (edge : LocalMarkerGraphEdge) (s : String) :
    ∃ t, (writeEdgeDetailed w edge s).out =
      s ++ edgeDetailedHead w edge ++ concatEach edge.infos (variantRowsText w) ++ t := by
  unfold writeEdgeDetailed
  rw [andThen_put, andThen_put]
  refine andThen_continues _ _ _ (writeEdgeAlignment_continues w edge _) (fun s1 => ?_)
  exact put_continues _ s1

/-- C2. For an edge with coverage at least 1, in both modes, the colour written
as fillcolor and color is violet for a spanning-tree edge, else black when the
coverage is at least minCoverage, else red; it does not depend on
isSpanningTreeBestPathEdge or isDagEdge. -/
theorem edge_colour_priority (w : Writer) (edge : LocalMarkerGraphEdge) (s : String)
    (hcoverage : edge.coverage ≥ 1) :
    (edge.isSpanningTreeEdge = true → edgeColor w edge = "violet") ∧
    (edge.isSpanningTreeEdge = false → edge.coverage ≥ w.minCoverage →
      edgeColor w edge = "black") ∧
    (edge.isSpanningTreeEdge = false → edge.coverage < w.minCoverage →
      edgeColor w edge = "red") ∧
    (∀ bestPath dag : Bool,
      edgeColor w { edge with isSpanningTreeBestPathEdge := bestPath, isDagEdge := dag } =
        edgeColor w edge) ∧
    (w.detailed = false →
      writeEdge w edge s =
        ⟨s ++ ("["
          ++ "tooltip=\"Coverage " ++ toString edge.coverage
          ++ ", consensus " ++ toString edge.consensus ++ "\""
          ++ " fillcolor=\"" ++ edgeColor w edge ++ "\""
          ++ " color=\"" ++ edgeColor w edge ++ "\""
          ++ " penwidth="
          ++ w.floats.ofThickness (edgeThickness compactThicknessScale edge.coverage)
          ++ edgeStyleText edge
          ++ " weight=" ++ toString edge.coverage
          ++ "]"), none⟩) ∧
    (w.detailed = true →
      ∃ rest, (writeEdge w edge s).out =
        s ++ ("["
          ++ " tooltip=\"" ++ ("Coverage " ++ toString edge.coverage
            ++ ", consensus " ++ toString edge.consensus) ++ "\""
          ++ " labeltooltip=\"" ++ ("Coverage " ++ toString edge.coverage
            ++ ", consensus " ++ toString edge.consensus) ++ "\""
          ++ " penwidth="
          ++ w.floats.ofThickness (edgeThickness detailedThicknessScale edge.coverage)
          ++ edgeStyleText edge
          ++ " fillcolor=\"" ++ edgeColor w edge ++ "\""
          ++ " color=\"" ++ edgeColor w edge ++ "\""
          ++ rest)) := by
  have hpos : edge.coverage > 0 := hcoverage
  refine ⟨?_, ?_, ?_, fun _ _ => rfl, ?_, ?_⟩
  · intro h
    simp only [edgeColor]
    rw [if_pos h]
  · intro h1 h2
    simp only [edgeColor]
    rw [if_neg (by simp [h1]), if_pos h2]
  · intro h1 h2
    simp only [edgeColor]
    rw [if_neg (by simp [h1]), if_neg (Nat.not_le.mpr h2)]
  · intro hmode
    simp [writeEdge, hpos, hmode, writeEdgeCompact, put]
  · intro hmode
    obtain ⟨t, ht⟩ := writeEdgeDetailed_head w edge s
    simp only [writeEdge, hpos, hmode, not_true_eq_false, if_false]
    rw [ht]
    simp only [edgeDetailedHead, String.append_assoc]
    exact ⟨_, rfl⟩

theorem edge_colour_priority_witness :
    (sampleEdge 2).coverage ≥ 1 ∧
    writeEdge (sampleWriter false) (sampleEdge 2) "" =
      ⟨"[tooltip=\"Coverage 2, consensus 2\" fillcolor=\"red\" color=\"red\" penwidth=(thickness) weight=2]",
        none⟩ := by
  refine ⟨by decide, ?_⟩
  obtain ⟨_, _, hred, _, hcompact, _⟩ :=
    edge_colour_priority (sampleWriter false) (sampleEdge 2) "" (by decide)
  rw [hcompact rfl, hred rfl (by decide)]
  decide

/-- C3. Rendering a vertex without markers, or an edge with coverage 0, fails
with an invariant violation in both modes and for every value of the other
options, and the output stream is left unchanged. -/
theorem zero_coverage_fails (w : Writer) (vertex : LocalMarkerGraphVertex)
    (edge : LocalMarkerGraphEdge) (s : String)
    (hvertex : vertex.markerInfos.length = 0) (hedge : edge.coverage = 0) :
    writeVertex w vertex s = ⟨s, some Fault.assertion⟩ ∧
    writeEdge w edge s = ⟨s, some Fault.assertion⟩ := by
  constructor
  · simp [writeVertex, hvertex, raise]
  · simp [writeEdge, hedge, raise]

theorem zero_coverage_fails_witness :
    emptyVertex.markerInfos.length = 0 ∧ (sampleEdge 0).coverage = 0 ∧
    writeVertex (sampleWriter true) emptyVertex "1" =
      ⟨"1", some Fault.assertion⟩ ∧
    writeEdge (sampleWriter false) (sampleEdge 0) "1->2" =
      ⟨"1->2", some Fault.assertion⟩ :=
  ⟨rfl, rfl, zero_coverage_fails (sampleWriter true) emptyVertex (sampleEdge 0) "1"
      rfl rfl |>.1,
    zero_coverage_fails (sampleWriter false) emptyVertex (sampleEdge 0) "1->2"
      rfl rfl |>.2⟩

end Shasta

/-! ## The consensus of a vertex -/

namespace Shasta

theorem vertexConsensusLoop_ok (w : Writer) (vertex : LocalMarkerGraphVertex)
    (positions : List Nat) (acc consensus : List Consensus)
    (h : vertexConsensusLoop w vertex positions acc = Except.ok consensus) :
    consensus.length = acc.length ∧
    (∀ p ∈ positions, ∃ coverage, vertex.coverages[p]? = some coverage ∧
      (w.graph.consensusCaller coverage).base = AlignedBase.ofBase (w.graph.getKmer vertex p)) ∧
    (∀ j, consensus[j]? =
      if j ∈ positions ∧ j < acc.length then
        (vertex.coverages[j]?).map w.graph.consensusCaller
      else acc[j]?) := by
  induction positions generalizing acc with
  | nil =>
    simp only [vertexConsensusLoop, Except.ok.injEq] at h
    subst h
    simp
  | cons p rest ih =>
    unfold vertexConsensusLoop at h
    cases hcov : vertex.coverages[p]? with
    | none => simp [hcov] at h
    | some coverage =>
      simp only [hcov] at h
      by_cases hbase : (w.graph.consensusCaller coverage).base
          = AlignedBase.ofBase (w.graph.getKmer vertex p)
      · rw [if_pos hbase] at h
        obtain ⟨hlen, hall, hget⟩ := ih _ h
        rw [List.length_set] at hlen hget
        refine ⟨hlen, ?_, ?_⟩
        · intro q hq
          rcases List.mem_cons.mp hq with rfl | hq
          · exact ⟨coverage, hcov, hbase⟩
          · exact hall q hq
        · intro j
          rw [hget j, List.getElem?_set]
          by_cases hjr : j ∈ rest ∧ j < acc.length
          · rw [if_pos hjr, if_pos ⟨List.mem_cons_of_mem _ hjr.1, hjr.2⟩]
          · rw [if_neg hjr]
            by_cases hpj : p = j
            · subst hpj
              rw [if_pos rfl]
              by_cases hlt : p < acc.length
              · rw [if_pos hlt, if_pos ⟨List.mem_cons_self _ _, hlt⟩, hcov]
                rfl
              · rw [if_neg hlt, if_neg (fun hh => hlt hh.2)]
                exact (List.getElem?_eq_none (Nat.le_of_not_lt hlt)).symm
            · rw [if_neg hpj]
              have hnot : ¬ (j ∈ p :: rest ∧ j < acc.length) := by
                rintro ⟨hmem, hlt⟩
                rcases List.mem_cons.mp hmem with rfl | hmem
                · exact hpj rfl
                · exact hjr ⟨hmem, hlt⟩
              rw [if_neg hnot]
      · rw [if_neg hbase] at h
        cases h

/-- When the consensus loop of a vertex succeeds, every position below `k` has
a coverage record, the consensus of a position is the consensus caller's answer
for that record, and its base is the base of the k-mer. -/
theorem vertexConsensus_ok (w : Writer) (vertex : LocalMarkerGraphVertex)
    (consensus : List Consensus) (h : vertexConsensus w vertex = Except.ok consensus) :
    ∀ p, p < w.graph.k → ∃ coverage, vertex.coverages[p]? = some coverage ∧
      consensusAt consensus p = w.graph.consensusCaller coverage ∧
      (w.graph.consensusCaller coverage).base
        = AlignedBase.ofBase (w.graph.getKmer vertex p) := by
  intro p hp
  obtain ⟨_, hall, hget⟩ := vertexConsensusLoop_ok w vertex _ _ _ h
  obtain ⟨coverage, hcov, hbase⟩ := hall p (List.mem_range.mpr hp)
  refine ⟨coverage, hcov, ?_, hbase⟩
  have := hget p
  rw [if_pos ⟨List.mem_range.mpr hp, by simpa using hp⟩, hcov] at this
  simp [consensusAt, List.getD_eq_getElem?_getD, this]

theorem vertexConsensus_repeatCount (w : Writer) (vertex : LocalMarkerGraphVertex)
    (consensus : List Consensus) (h : vertexConsensus w vertex = Except.ok consensus)
    (p : Nat) (hp : p < w.graph.k) :
    (consensusAt consensus p).repeatCount = vertexRepeatCount w vertex p := by
  obtain ⟨coverage, hcov, hat, _⟩ := vertexConsensus_ok w vertex consensus h p hp
  simp [vertexRepeatCount, hcov, hat]

end Shasta

/-! ## A successful detailed vertex render -/

namespace Shasta

theorem andThen_success (r : Result) (next : String → Result)
    (h : (r.andThen next).fault = none) :
    r.fault = none ∧ r.andThen next = next r.out :=
  ⟨(andThen_fault_none r next h).1,
    andThen_of_fault_none r next (andThen_fault_none r next h).1⟩

/-- The text of a successful detailed vertex render: the head, the marker rows,
the `Repeat consensus` row, the coverage rows and the `Raw consensus` row, for
the consensus computed by the consensus loop. -/
theorem writeVertexDetailed_success (w : Writer) (vertex : LocalMarkerGraphVertex)
    (s : String) (h : (writeVertexDetailed w vertex s).fault = none) :
    ∃ consensus markerRows repeatRows consensusCells,
      vertexConsensus w vertex = Except.ok consensus ∧
      forEach (writeMarkerRow w) vertex.markerInfos (s ++ vertexDetailedHead w vertex)
        = ⟨s ++ vertexDetailedHead w vertex ++ markerRows, none⟩ ∧
      (writeVertexDetailed w vertex s).out =
        s ++ vertexDetailedHead w vertex ++ markerRows
          ++ ("<tr><td colspan=\"3\" align=\"left\"><b>Repeat consensus</b></td>"
            ++ "<td><b>"
            ++ repeatConsensusCell w.graph.k consensus
            ++ "</b></td></tr>")
          ++ repeatRows
          ++ ("<tr><td colspan=\"3\" align=\"left\"><b>Coverage for repeat consensus</b></td>"
            ++ "<td><b>")
          ++ consensusCells
          ++ ("</b></td></tr>"
            ++ "<tr><td colspan=\"3\" align=\"left\"><b>Raw consensus</b></td>"
            ++ "<td align=\"left\"><b>"
            ++ rawConsensusCell w.graph.k (w.graph.getKmer vertex) consensus
            ++ "</b></td></tr>"
            ++ "</table></font>>"
            ++ "]") := by
  unfold writeVertexDetailed at h ⊢
  rw [andThen_put] at h ⊢
  obtain ⟨h1, e1⟩ := andThen_success _ _ h
  rw [e1] at h ⊢
  obtain ⟨markerRows, hrows⟩ :=
    forEach_continues _ (writeMarkerRow_continues w) vertex.markerInfos
      (s ++ vertexDetailedHead w vertex)
  cases hcons : vertexConsensus w vertex with
  | error f => simp [hcons, raise] at h
  | ok consensus =>
    simp only [hcons] at h ⊢
    rw [andThen_put] at h ⊢
    obtain ⟨h2, e2⟩ := andThen_success _ _ h
    rw [e2] at h ⊢
    obtain ⟨repeatRows, hrepeat⟩ := writeVertexRepeatCountRows_continues w vertex
      (((forEach (writeMarkerRow w) vertex.markerInfos (s ++ vertexDetailedHead w vertex)).out)
        ++ ("<tr><td colspan=\"3\" align=\"left\"><b>Repeat consensus</b></td>"
          ++ "<td><b>"
          ++ repeatConsensusCell w.graph.k consensus
          ++ "</b></td></tr>"))
    rw [andThen_put] at h ⊢
    obtain ⟨h3, e3⟩ := andThen_success _ _ h
    rw [e3] at h ⊢
    obtain ⟨consensusCells, hcells⟩ := writeVertexCoverageCells_continues w vertex
      (fun position => (consensusAt consensus position).repeatCount)
      ((writeVertexRepeatCountRows w vertex
        (((forEach (writeMarkerRow w) vertex.markerInfos
            (s ++ vertexDetailedHead w vertex)).out)
          ++ ("<tr><td colspan=\"3\" align=\"left\"><b>Repeat consensus</b></td>"
            ++ "<td><b>"
            ++ repeatConsensusCell w.graph.k consensus
            ++ "</b></td></tr>"))).out
        ++ ("<tr><td colspan=\"3\" align=\"left\"><b>Coverage for repeat consensus</b></td>"
          ++ "<td><b>"))
    refine ⟨consensus, markerRows, repeatRows, consensusCells, rfl, ?_, ?_⟩
    · rw [← hrows]
      cases hr : forEach (writeMarkerRow w) vertex.markerInfos
          (s ++ vertexDetailedHead w vertex) with
      | mk out fault =>
        rw [hr] at h1
        simp only at h1
        rw [h1]
    · simp only [put]
      rw [hcells, hrepeat, hrows]

end Shasta

/-! ## The consensus rows of a vertex -/

namespace Shasta

theorem concatRange_const_data (n : Nat) (c : Char) :
    (concatRange n (fun _ => c.toString)).data = List.replicate n c := by
  induction n with
  | zero => rfl
  | succ n ih =>
    rw [concatRange_succ, String.data_append, ih, List.replicate_succ']
    rfl

theorem ofBase_character (base : Base) :
    (AlignedBase.ofBase base).character = base.character := by
  cases base <;> rfl

theorem rawConsensusCell_data (k : Nat) (kmer : Nat → Base) (consensus : List Consensus) :
    (rawConsensusCell k kmer consensus).data =
      (List.range k).flatMap (fun position =>
        List.replicate (consensusAt consensus position).repeatCount (kmer position).character) := by
  unfold rawConsensusCell
  rw [concatRange_eq, concatEach_data]
  apply List.flatMap_congr
  intro position _
  simp only [concatRange_const_data, ofBase_character]

/-- The `Raw consensus` cell of a vertex whose consensus loop succeeded is the
run-length expansion of the k-mer by the consensus repeat counts. -/
theorem rawConsensusCell_eq_runLengthExpand (w : Writer) (vertex : LocalMarkerGraphVertex)
    (consensus : List Consensus) (h : vertexConsensus w vertex = Except.ok consensus) :
    rawConsensusCell w.graph.k (w.graph.getKmer vertex) consensus =
      runLengthExpand w.graph.k (w.graph.getKmer vertex) (vertexRepeatCount w vertex) := by
  apply String.ext
  rw [rawConsensusCell_data]
  unfold runLengthExpand
  apply List.flatMap_congr
  intro position hposition
  rw [vertexConsensus_repeatCount w vertex consensus h position (List.mem_range.mp hposition)]

theorem runLengthExpand_length (k : Nat) (bases : Nat → Base) (repeatCounts : Nat → Nat) :
    (runLengthExpand k bases repeatCounts).length = ((List.range k).map repeatCounts).sum := by
  unfold runLengthExpand
  show ((List.range k).flatMap _).length = _
  rw [List.length_flatMap]
  congr 1
  apply List.map_congr_left
  intro i _
  simp

/-- C4. For a vertex rendered successfully in detailed mode, the render ends
with the `Raw consensus` row, whose cell is the concatenation over the positions
`0..k-1` of the k-mer base repeated the consensus repeat count of the position
times, with no separators; its length is the sum of the consensus repeat
counts, and a position with repeat count 0 contributes nothing. -/
theorem raw_consensus_is_run_length_expansion (w : Writer) (vertex : LocalMarkerGraphVertex)
    (s : String) (hmode : w.detailed = true)
    (hok : (writeVertex w vertex s).fault = none) :
    (∃ before, (writeVertex w vertex s).out =
      s ++ before
        ++ ("<tr><td colspan=\"3\" align=\"left\"><b>Raw consensus</b></td>"
          ++ "<td align=\"left\"><b>"
          ++ String.mk ((List.range w.graph.k).flatMap (fun i =>
              List.replicate (vertexRepeatCount w vertex i)
                (w.graph.getKmer vertex i).character))
          ++ "</b></td></tr>"
          ++ "</table></font>>"
          ++ "]")) ∧
    (String.mk ((List.range w.graph.k).flatMap (fun i =>
        List.replicate (vertexRepeatCount w vertex i)
          (w.graph.getKmer vertex i).character))).length
      = ((List.range w.graph.k).map (vertexRepeatCount w vertex)).sum ∧
    (∀ i, vertexRepeatCount w vertex i = 0 →
      List.replicate (vertexRepeatCount w vertex i) (w.graph.getKmer vertex i).character = []) := by
  refine ⟨?_, runLengthExpand_length _ _ _, fun i hi => by rw [hi]; rfl⟩
  have hdetailed : writeVertex w vertex s = writeVertexDetailed w vertex s := by
    unfold writeVertex at hok ⊢
    by_cases hpos : vertex.markerInfos.length > 0
    · simp [hpos, hmode]
    · simp [hpos, raise] at hok
  rw [hdetailed] at hok ⊢
  obtain ⟨consensus, markerRows, repeatRows, consensusCells, hcons, _, hout⟩ :=
    writeVertexDetailed_success w vertex s hok
  rw [hout, rawConsensusCell_eq_runLengthExpand w vertex consensus hcons]
  refine ⟨vertexDetailedHead w vertex ++ markerRows
    ++ ("<tr><td colspan=\"3\" align=\"left\"><b>Repeat consensus</b></td>"
      ++ "<td><b>"
      ++ repeatConsensusCell w.graph.k consensus
      ++ "</b></td></tr>")
    ++ repeatRows
    ++ ("<tr><td colspan=\"3\" align=\"left\"><b>Coverage for repeat consensus</b></td>"
      ++ "<td><b>")
    ++ consensusCells ++ "</b></td></tr>", ?_⟩
  simp only [runLengthExpand, String.append_assoc]

theorem raw_consensus_is_run_length_expansion_witness :
    (sampleWriter true).detailed = true ∧
    (writeVertex (sampleWriter true) (sampleVertex [2, 1, 3, 1]) "").fault = none ∧
    ∃ before, (writeVertex (sampleWriter true) (sampleVertex [2, 1, 3, 1]) "").out =
      "" ++ before
        ++ ("<tr><td colspan=\"3\" align=\"left\"><b>Raw consensus</b></td>"
          ++ "<td align=\"left\"><b>"
          ++ "AACGGGT"
          ++ "</b></td></tr>"
          ++ "</table></font>>"
          ++ "]") := by
  refine ⟨rfl, by decide, ?_⟩
  have h := (raw_consensus_is_run_length_expansion (sampleWriter true)
    (sampleVertex [2, 1, 3, 1]) "" rfl (by decide)).1
  have hcell : String.mk ((List.range (sampleWriter true).graph.k).flatMap (fun i =>
      List.replicate (vertexRepeatCount (sampleWriter true) (sampleVertex [2, 1, 3, 1]) i)
        ((sampleWriter true).graph.getKmer (sampleVertex [2, 1, 3, 1]) i).character))
      = "AACGGGT" := by decide
  rw [hcell] at h
  exact h

end Shasta

namespace Shasta

/-- A successful detailed vertex render contains the `Repeat consensus` row and
ends with the `Raw consensus` row, both for the consensus computed by the
consensus loop. -/
theorem writeVertex_detailed_rows (w : Writer) (vertex : LocalMarkerGraphVertex)
    (s : String) (hmode : w.detailed = true)
    (hok : (writeVertex w vertex s).fault = none) :
    ∃ consensus before between,
      vertexConsensus w vertex = Except.ok consensus ∧
      (writeVertex w vertex s).out =
        s ++ before
          ++ ("<tr><td colspan=\"3\" align=\"left\"><b>Repeat consensus</b></td>"
            ++ "<td><b>"
            ++ repeatConsensusCell w.graph.k consensus
            ++ "</b></td></tr>")
          ++ between
          ++ ("<tr><td colspan=\"3\" align=\"left\"><b>Raw consensus</b></td>"
            ++ "<td align=\"left\"><b>"
            ++ rawConsensusCell w.graph.k (w.graph.getKmer vertex) consensus
            ++ "</b></td></tr>"
            ++ "</table></font>>"
            ++ "]") := by
  have hdetailed : writeVertex w vertex s = writeVertexDetailed w vertex s := by
    unfold writeVertex at hok ⊢
    by_cases hpos : vertex.markerInfos.length > 0
    · simp [hpos, hmode]
    · simp [hpos, raise] at hok
  rw [hdetailed] at hok ⊢
  obtain ⟨consensus, markerRows, repeatRows, consensusCells, hcons, _, hout⟩ :=
    writeVertexDetailed_success w vertex s hok
  refine ⟨consensus, vertexDetailedHead w vertex ++ markerRows,
    repeatRows
      ++ ("<tr><td colspan=\"3\" align=\"left\"><b>Coverage for repeat consensus</b></td>"
        ++ "<td><b>")
      ++ consensusCells ++ "</b></td></tr>", hcons, ?_⟩
  rw [hout]
  simp only [String.append_assoc]

theorem digit_text (n : Nat) (h : n < 10) :
    (toString n).data = [Char.ofNat (48 + n)] ∧ digitValue (Char.ofNat (48 + n)) = n := by
  revert n
  decide

theorem runLengthDecodeFrom_map (readCount : Char → Nat) (bases : Nat → Base)
    (glyph : Nat → Char) (start n : Nat) :
    runLengthDecodeFrom readCount bases start ((List.range' start n).map glyph) =
      (List.range' start n).flatMap (fun i =>
        List.replicate (readCount (glyph i)) (bases i).character) := by
  induction n generalizing start with
  | zero => rfl
  | succ n ih =>
    rw [List.range'_succ, List.map_cons, List.flatMap_cons]
    simp only [runLengthDecodeFrom]
    rw [ih (start + 1)]

theorem repeatConsensusCell_data (k : Nat) (consensus : List Consensus) :
    (repeatConsensusCell k consensus).data =
      (List.range k).flatMap (fun position =>
        (repeatCountText (consensusAt consensus position).repeatCount).data) := by
  unfold repeatConsensusCell
  rw [concatRange_eq, concatEach_data]

/-- Below 10 every repeat count is written as its digit, so the
`Repeat consensus` cell has one digit per position. -/
theorem repeatConsensusCell_digits (w : Writer) (vertex : LocalMarkerGraphVertex)
    (consensus : List Consensus) (h : vertexConsensus w vertex = Except.ok consensus)
    (hsmall : ∀ i, i < w.graph.k → vertexRepeatCount w vertex i < 10) :
    (repeatConsensusCell w.graph.k consensus).data =
      (List.range w.graph.k).map (fun i => Char.ofNat (48 + vertexRepeatCount w vertex i)) := by
  rw [repeatConsensusCell_data]
  have hstep : ∀ position ∈ List.range w.graph.k,
      (repeatCountText (consensusAt consensus position).repeatCount).data
        = [Char.ofNat (48 + vertexRepeatCount w vertex position)] := by
    intro position hposition
    have hp := List.mem_range.mp hposition
    rw [vertexConsensus_repeatCount w vertex consensus h position hp]
    unfold repeatCountText
    rw [if_pos (hsmall position hp)]
    exact (digit_text _ (hsmall position hp)).1
  rw [List.flatMap_congr hstep]
  induction List.range w.graph.k with
  | nil => rfl
  | cons x rest ih => rw [List.flatMap_cons, List.map_cons, ih]; rfl

end Shasta

/-! ## The round trip between the consensus rows -/

namespace Shasta

/-- C5, counterexample. Two vertices with the k-mer `ACGT` and consensus repeat
counts 10,1,3,1 and 11,1,3,1 both render successfully with the
`Repeat consensus` row `*131`, and their `Raw consensus` rows differ: decoding
the star as a digit does not reproduce the raw consensus, and no reading of
the characters as repeat counts can reproduce both. -/
theorem round_trip_counterexample :
    (writeVertex (sampleWriter true) (sampleVertex [10, 1, 3, 1]) "").fault = none ∧
    (writeVertex (sampleWriter true) (sampleVertex [11, 1, 3, 1]) "").fault = none ∧
    (∃ before between, (writeVertex (sampleWriter true) (sampleVertex [10, 1, 3, 1]) "").out =
      "" ++ before
        ++ ("<tr><td colspan=\"3\" align=\"left\"><b>Repeat consensus</b></td>"
          ++ "<td><b>" ++ "*131" ++ "</b></td></tr>")
        ++ between
        ++ ("<tr><td colspan=\"3\" align=\"left\"><b>Raw consensus</b></td>"
          ++ "<td align=\"left\"><b>" ++ "AAAAAAAAAACGGGT" ++ "</b></td></tr>"
          ++ "</table></font>>" ++ "]")) ∧
    (∃ before between, (writeVertex (sampleWriter true) (sampleVertex [11, 1, 3, 1]) "").out =
      "" ++ before
        ++ ("<tr><td colspan=\"3\" align=\"left\"><b>Repeat consensus</b></td>"
          ++ "<td><b>" ++ "*131" ++ "</b></td></tr>")
        ++ between
        ++ ("<tr><td colspan=\"3\" align=\"left\"><b>Raw consensus</b></td>"
          ++ "<td align=\"left\"><b>" ++ "AAAAAAAAAAACGGGT" ++ "</b></td></tr>"
          ++ "</table></font>>" ++ "]")) ∧
    runLengthDecode digitValue "*131" sampleKmer ≠ "AAAAAAAAAACGGGT" ∧
    ¬ ∃ readCount : Char → Nat,
      runLengthDecode readCount "*131" sampleKmer = "AAAAAAAAAACGGGT" ∧
      runLengthDecode readCount "*131" sampleKmer = "AAAAAAAAAAACGGGT" := by
  refine ⟨by decide, by decide, ?_, ?_, by decide, ?_⟩
  · obtain ⟨consensus, before, between, hcons, hout⟩ :=
      writeVertex_detailed_rows (sampleWriter true) (sampleVertex [10, 1, 3, 1]) "" rfl
        (by decide)
    have hvalue : vertexConsensus (sampleWriter true) (sampleVertex [10, 1, 3, 1])
        = Except.ok [⟨AlignedBase.A, 10⟩, ⟨AlignedBase.C, 1⟩, ⟨AlignedBase.G, 3⟩,
          ⟨AlignedBase.T, 1⟩] := rfl
    rw [hvalue] at hcons
    cases hcons
    exact ⟨before, between, hout⟩
  · obtain ⟨consensus, before, between, hcons, hout⟩ :=
      writeVertex_detailed_rows (sampleWriter true) (sampleVertex [11, 1, 3, 1]) "" rfl
        (by decide)
    have hvalue : vertexConsensus (sampleWriter true) (sampleVertex [11, 1, 3, 1])
        = Except.ok [⟨AlignedBase.A, 11⟩, ⟨AlignedBase.C, 1⟩, ⟨AlignedBase.G, 3⟩,
          ⟨AlignedBase.T, 1⟩] := rfl
    rw [hvalue] at hcons
    cases hcons
    exact ⟨before, between, hout⟩
  · rintro ⟨readCount, h10, h11⟩
    exact absurd (h10.symm.trans h11) (by decide)

/-- C5, as amended. For a vertex rendered successfully in detailed mode all of
whose consensus repeat counts are below 10, the `Repeat consensus` row has one
decimal digit per position, and run-length decoding it (each digit read as a
repeat count) against the k-mer reproduces the `Raw consensus` row exactly. -/
theorem round_trip_below_ten (w : Writer) (vertex : LocalMarkerGraphVertex) (s : String)
    (hmode : w.detailed = true) (hok : (writeVertex w vertex s).fault = none)
    (hsmall : ∀ i, i < w.graph.k → vertexRepeatCount w vertex i < 10) :
    ∃ before between digitRow raw,
      (writeVertex w vertex s).out =
        s ++ before
          ++ ("<tr><td colspan=\"3\" align=\"left\"><b>Repeat consensus</b></td>"
            ++ "<td><b>" ++ digitRow ++ "</b></td></tr>")
          ++ between
          ++ ("<tr><td colspan=\"3\" align=\"left\"><b>Raw consensus</b></td>"
            ++ "<td align=\"left\"><b>" ++ raw ++ "</b></td></tr>"
            ++ "</table></font>>" ++ "]") ∧
      digitRow.data =
        (List.range w.graph.k).map (fun i => Char.ofNat (48 + vertexRepeatCount w vertex i)) ∧
      raw = runLengthExpand w.graph.k (w.graph.getKmer vertex) (vertexRepeatCount w vertex) ∧
      runLengthDecode digitValue digitRow (w.graph.getKmer vertex) = raw := by
  obtain ⟨consensus, before, between, hcons, hout⟩ :=
    writeVertex_detailed_rows w vertex s hmode hok
  have hdigits := repeatConsensusCell_digits w vertex consensus hcons hsmall
  have hraw := rawConsensusCell_eq_runLengthExpand w vertex consensus hcons
  refine ⟨before, between, repeatConsensusCell w.graph.k consensus,
    rawConsensusCell w.graph.k (w.graph.getKmer vertex) consensus, hout, hdigits, hraw, ?_⟩
  rw [hraw]
  unfold runLengthDecode runLengthExpand
  rw [hdigits, List.range_eq_range', runLengthDecodeFrom_map]
  congr 1
  apply List.flatMap_congr
  intro i hi
  have hi2 : i < w.graph.k := by
    rw [← List.range_eq_range'] at hi
    exact List.mem_range.mp hi
  rw [(digit_text _ (hsmall i hi2)).2]

theorem round_trip_below_ten_witness :
    (sampleWriter true).detailed = true ∧
    (writeVertex (sampleWriter true) (sampleVertex [2, 1, 3, 1]) "").fault = none ∧
    (∀ i, i < (sampleWriter true).graph.k →
      vertexRepeatCount (sampleWriter true) (sampleVertex [2, 1, 3, 1]) i < 10) ∧
    ∃ before between digitRow raw,
      (writeVertex (sampleWriter true) (sampleVertex [2, 1, 3, 1]) "").out =
        "" ++ before
          ++ ("<tr><td colspan=\"3\" align=\"left\"><b>Repeat consensus</b></td>"
            ++ "<td><b>" ++ digitRow ++ "</b></td></tr>")
          ++ between
          ++ ("<tr><td colspan=\"3\" align=\"left\"><b>Raw consensus</b></td>"
            ++ "<td align=\"left\"><b>" ++ raw ++ "</b></td></tr>"
            ++ "</table></font>>" ++ "]") ∧
      digitRow.data = ['2', '1', '3', '1'] ∧
      raw = "AACGGGT" ∧
      runLengthDecode digitValue digitRow sampleKmer = raw := by
  have hsmall : ∀ i, i < (sampleWriter true).graph.k →
      vertexRepeatCount (sampleWriter true) (sampleVertex [2, 1, 3, 1]) i < 10 := by
    decide
  refine ⟨rfl, by decide, hsmall, ?_⟩
  obtain ⟨before, between, digitRow, raw, hout, hdigits, hraw, hdecode⟩ :=
    round_trip_below_ten (sampleWriter true) (sampleVertex [2, 1, 3, 1]) "" rfl
      (by decide) hsmall
  refine ⟨before, between, digitRow, raw, hout, ?_, ?_, hdecode⟩
  · rw [hdigits]; decide
  · rw [hraw]; decide

end Shasta

/-! ## When the detailed vertex render fails -/

namespace Shasta

theorem forRange_put (n : Nat) (body : Nat → String → Result) (text : Nat → String)
    (h : ∀ i, i < n → ∀ s, body i s = put (text i) s) (s : String) :
    forRange n body s = put (concatRange n text) s :=
  forEach_put body text (List.range n) (fun i hi => h i (List.mem_range.mp hi)) s

theorem writeMarkerRepeatCounts_ok (k : Nat) (counts : List Nat) (hk : k ≤ counts.length)
    (s : String) :
    writeMarkerRepeatCounts k counts s =
      put (concatRange k (fun i => repeatCountText (counts.getD i 0))) s := by
  unfold writeMarkerRepeatCounts
  apply forRange_put
  intro i hi s1
  have hlt : i < counts.length := Nat.lt_of_lt_of_le hi hk
  simp [List.getElem?_eq_getElem hlt, List.getD_eq_getElem?_getD]

theorem writeMarkerRow_ok (w : Writer) (markerInfo : MarkerInfo)
    (hk : w.graph.k ≤ (w.graph.getRepeatCounts markerInfo).length) (s : String) :
    writeMarkerRow w markerInfo s =
      put (markerRowHead w markerInfo
        ++ concatRange w.graph.k (fun i =>
            repeatCountText ((w.graph.getRepeatCounts markerInfo).getD i 0))
        ++ ("</b></td>" ++ "</tr>")) s := by
  unfold writeMarkerRow
  simp only [andThen_put, writeMarkerRepeatCounts_ok _ _ hk]
  simp [put, String.append_assoc]

theorem writeVertexCoverageCells_ok (w : Writer) (vertex : LocalMarkerGraphVertex)
    (hk : w.graph.k ≤ vertex.coverages.length) (repeatCountAt : Nat → Nat) (s : String) :
    (writeVertexCoverageCells w vertex repeatCountAt s).fault = none := by
  have hput : writeVertexCoverageCells w vertex repeatCountAt s =
      put (concatRange w.graph.k (fun position =>
        match vertex.coverages[position]? with
        | none => ""
        | some coverage =>
          (coverage.coverageCharacterAt (AlignedBase.ofBase (w.graph.getKmer vertex position))
            (repeatCountAt position)).toString)) s := by
    unfold writeVertexCoverageCells
    apply forRange_put
    intro i hi s1
    have hlt : i < vertex.coverages.length := Nat.lt_of_lt_of_le hi hk
    simp [List.getElem?_eq_getElem hlt]
  rw [hput]
  rfl

theorem forEach_fault_none {α : Type} (body : α → String → Result) (xs : List α)
    (h : ∀ x ∈ xs, ∀ s, (body x s).fault = none) (s : String) :
    (forEach body xs s).fault = none := by
  induction xs generalizing s with
  | nil => rfl
  | cons x rest ih =>
    simp only [forEach]
    rw [andThen_of_fault_none _ _ (h x (List.mem_cons_self x rest) s)]
    exact ih (fun y hy => h y (List.mem_cons_of_mem x hy)) _

theorem writeVertexRepeatCountRows_ok (w : Writer) (vertex : LocalMarkerGraphVertex)
    (hk : w.graph.k ≤ vertex.coverages.length) (s : String) :
    (writeVertexRepeatCountRows w vertex s).fault = none := by
  unfold writeVertexRepeatCountRows
  apply forEach_fault_none
  intro repeatCount _ s1
  rw [andThen_put, andThen_of_fault_none _ _ (writeVertexCoverageCells_ok w vertex hk _ _)]
  rfl

/-- With a coverage record at every position visited, the consensus loop either
finds every consensus base equal to the k-mer base and returns the consensus,
or finds a position where they differ and fails its assertion. -/
theorem vertexConsensusLoop_cases (w : Writer) (vertex : LocalMarkerGraphVertex)
    (positions : List Nat) (acc : List Consensus)
    (hbound : ∀ p ∈ positions, p < vertex.coverages.length) :
    ((∀ p ∈ positions, ∀ coverage, vertex.coverages[p]? = some coverage →
        (w.graph.consensusCaller coverage).base
          = AlignedBase.ofBase (w.graph.getKmer vertex p)) ∧
      ∃ consensus, vertexConsensusLoop w vertex positions acc = Except.ok consensus) ∨
    ((∃ p ∈ positions, ∃ coverage, vertex.coverages[p]? = some coverage ∧
        (w.graph.consensusCaller coverage).base
          ≠ AlignedBase.ofBase (w.graph.getKmer vertex p)) ∧
      vertexConsensusLoop w vertex positions acc = Except.error Fault.assertion) := by
  induction positions generalizing acc with
  | nil =>
    left
    exact ⟨fun p hp => absurd hp (List.not_mem_nil p), acc, rfl⟩
  | cons p rest ih =>
    have hp : p < vertex.coverages.length := hbound p (List.mem_cons_self p rest)
    have hcov : vertex.coverages[p]? = some vertex.coverages[p] := List.getElem?_eq_getElem hp
    unfold vertexConsensusLoop
    simp only [hcov]
    by_cases hbase : (w.graph.consensusCaller vertex.coverages[p]).base
        = AlignedBase.ofBase (w.graph.getKmer vertex p)
    · rw [if_pos hbase]
      rcases ih (acc.set p (w.graph.consensusCaller vertex.coverages[p]))
          (fun q hq => hbound q (List.mem_cons_of_mem p hq)) with ⟨hall, hok⟩ | ⟨hex, herr⟩
      · left
        refine ⟨?_, hok⟩
        intro q hq coverage hq2
        rcases List.mem_cons.mp hq with rfl | hq
        · rw [hcov] at hq2
          cases hq2
          exact hbase
        · exact hall q hq coverage hq2
      · right
        obtain ⟨q, hq, coverage, hq2, hne⟩ := hex
        exact ⟨⟨q, List.mem_cons_of_mem p hq, coverage, hq2, hne⟩, herr⟩
    · rw [if_neg hbase]
      right
      exact ⟨⟨p, List.mem_cons_self p rest, _, hcov, hbase⟩, rfl⟩

/-- C6. In detailed mode, for a vertex with coverage at least 1 whose per-read
repeat count vectors and per-position coverage records have at least `k`
entries, the render fails with an invariant violation if and only if at some
position below `k` the base of the consensus returned by the consensus caller
differs from the base of the k-mer; when all `k` bases match, the render
succeeds. -/
theorem consensus_assertion_iff (w : Writer) (vertex : LocalMarkerGraphVertex) (s : String)
    (hmode : w.detailed = true) (hcoverage : vertex.markerInfos.length ≥ 1)
    (hcounts : ∀ markerInfo ∈ vertex.markerInfos,
      w.graph.k ≤ (w.graph.getRepeatCounts markerInfo).length)
    (hcoverages : w.graph.k ≤ vertex.coverages.length) :
    ((writeVertex w vertex s).fault = some Fault.assertion ↔
      ∃ p, p < w.graph.k ∧ ∃ coverage, vertex.coverages[p]? = some coverage ∧
        (w.graph.consensusCaller coverage).base
          ≠ AlignedBase.ofBase (w.graph.getKmer vertex p)) ∧
    ((∀ p, p < w.graph.k → ∀ coverage, vertex.coverages[p]? = some coverage →
        (w.graph.consensusCaller coverage).base
          = AlignedBase.ofBase (w.graph.getKmer vertex p)) →
      (writeVertex w vertex s).fault = none) := by
  have hpos : vertex.markerInfos.length > 0 := hcoverage
  have hdetailed : writeVertex w vertex s = writeVertexDetailed w vertex s := by
    simp [writeVertex, hpos, hmode]
  have hrows : ∀ s1, (forEach (writeMarkerRow w) vertex.markerInfos s1).fault = none := by
    intro s1
    apply forEach_fault_none
    intro markerInfo hmem s2
    rw [writeMarkerRow_ok w markerInfo (hcounts markerInfo hmem)]
    rfl
  have hshape : (writeVertex w vertex s).fault =
      match vertexConsensus w vertex with
      | Except.error f => some f
      | Except.ok _ => none := by
    rw [hdetailed]
    unfold writeVertexDetailed
    rw [andThen_put, andThen_of_fault_none _ _ (hrows _)]
    cases vertexConsensus w vertex with
    | error f => rfl
    | ok consensus =>
      simp only []
      rw [andThen_put,
        andThen_of_fault_none _ _ (writeVertexRepeatCountRows_ok w vertex hcoverages _),
        andThen_put,
        andThen_of_fault_none _ _ (writeVertexCoverageCells_ok w vertex hcoverages _ _)]
      rfl
  have hcases := vertexConsensusLoop_cases w vertex (List.range w.graph.k)
    (List.replicate w.graph.k default)
    (fun p hp => Nat.lt_of_lt_of_le (List.mem_range.mp hp) hcoverages)
  rw [hshape]
  unfold vertexConsensus
  rcases hcases with ⟨hall, consensus, hok⟩ | ⟨⟨p, hp, coverage, hcov, hne⟩, herr⟩
  · rw [hok]
    refine ⟨⟨(fun h => by cases h), ?_⟩, fun _ => rfl⟩
    rintro ⟨p, hp, coverage, hcov, hne⟩
    exact absurd (hall p (List.mem_range.mpr hp) coverage hcov) hne
  · rw [herr]
    refine ⟨⟨fun _ => ⟨p, List.mem_range.mp hp, coverage, hcov, hne⟩, fun _ => rfl⟩, ?_⟩
    intro hall
    exact absurd (hall p (List.mem_range.mp hp) coverage hcov) hne

end Shasta

namespace Shasta

theorem consensus_assertion_iff_witness :
    (sampleWriter true).detailed = true ∧
    mismatchVertex.markerInfos.length ≥ 1 ∧
    (∀ markerInfo ∈ mismatchVertex.markerInfos,
      (sampleWriter true).graph.k
        ≤ ((sampleWriter true).graph.getRepeatCounts markerInfo).length) ∧
    (sampleWriter true).graph.k ≤ mismatchVertex.coverages.length ∧
    (writeVertex (sampleWriter true) mismatchVertex "").fault = some Fault.assertion ∧
    (writeVertex (sampleWriter true) (sampleVertex [2, 1, 3, 1]) "").fault = none := by
  have hcounts : ∀ vertex : LocalMarkerGraphVertex, ∀ markerInfo ∈ vertex.markerInfos,
      (sampleWriter true).graph.k
        ≤ ((sampleWriter true).graph.getRepeatCounts markerInfo).length :=
    fun _ _ _ => Nat.le_refl 4
  refine ⟨rfl, by decide, hcounts mismatchVertex, by decide, ?_, ?_⟩
  · exact (consensus_assertion_iff (sampleWriter true) mismatchVertex "" rfl (by decide)
      (hcounts mismatchVertex) (by decide)).1.mpr
      ⟨1, by decide, sampleCoverage AlignedBase.A 1, rfl, by decide⟩
  · refine (consensus_assertion_iff (sampleWriter true) (sampleVertex [2, 1, 3, 1]) "" rfl
      (by decide) (hcounts _) (by decide)).2 ?_
    intro p hp coverage hcov
    have hp4 : p < 4 := hp
    interval_cases p <;> (cases hcov; decide)

end Shasta

/-! ## The table of observed sequences of an edge -/

namespace Shasta

theorem concatEach_singleton_chars {α : Type} (xs : List α) (f : α → Char) :
    concatEach xs (fun x => (f x).toString) = String.mk (xs.map f) := by
  apply String.ext
  rw [concatEach_data]
  induction xs with
  | nil => rfl
  | cons x rest ih => rw [List.flatMap_cons, ih]; rfl

theorem sequenceString_eq (sequence : Sequence) :
    sequenceString sequence =
      if sequence.sequence = [] then toString sequence.overlappingBaseCount
      else String.mk (sequence.sequence.map Base.character) := by
  unfold sequenceString
  rw [concatEach_singleton_chars]
  cases sequence.sequence <;> simp

theorem intervalRowsText_enumFrom (w : Writer) (text : String) (n : Nat)
    (infos : List MarkerIntervalWithRepeatCounts) :
    intervalRowsText w text (decide (n = 0)) infos =
      concatEach (List.enumFrom n infos)
        (fun x => intervalRowText w text (decide (x.1 = 0)) x.2) := by
  induction infos generalizing n with
  | nil => rfl
  | cons info rest ih =>
    rw [List.enumFrom_cons, concatEach_cons]
    simp only [intervalRowsText]
    rw [← ih (n + 1)]
    simp

/-- C7. In the table of a detailed edge, for every observed sequence and its
supporting intervals, the `Seq` cell of the first interval's row shows the
sequence string (the letters of the bases, or the decimal number of
overlapping bases when there are no bases) unless it is longer than 100
characters, when the cell reads `Too long`; the `Seq` cell of every later row
reads `=`. -/
theorem seq_cell_of_variant_rows (w : Writer) (edge : LocalMarkerGraphEdge) (s : String)
    (hmode : w.detailed = true) (hcoverage : edge.coverage ≥ 1) :
    (∃ rest, (writeEdge w edge s).out =
      s ++ edgeDetailedHead w edge ++ concatEach edge.infos (variantRowsText w) ++ rest) ∧
    (∀ p ∈ edge.infos, ∃ shown : String,
      shown = (if p.1.sequence = [] then toString p.1.overlappingBaseCount
        else String.mk (p.1.sequence.map Base.character)) ∧
      variantRowsText w p =
        concatEach p.2.enum (fun x =>
          "<tr>" ++ edgeLinkCells w x.2.orientedReadId x.2.ordinals
            ++ "<td align=\"center\"><b>"
            ++ (if x.1 = 0 then (if shown.length > 100 then "Too long" else shown) else "=")
            ++ "</b></td>"
            ++ intervalRepeatCell shown x.2.repeatCounts
            ++ "</tr>")) := by
  have hpos : edge.coverage > 0 := hcoverage
  constructor
  · obtain ⟨t, ht⟩ := writeEdgeDetailed_head w edge s
    refine ⟨t, ?_⟩
    simp only [writeEdge, hpos, hmode, not_true_eq_false, if_false]
    exact ht
  · intro p _
    refine ⟨sequenceString p.1, sequenceString_eq p.1, ?_⟩
    unfold variantRowsText
    have h := intervalRowsText_enumFrom w (sequenceString p.1) 0 p.2
    simp only [decide_True] at h
    rw [h]
    apply concatEach_congr
    intro x _
    unfold intervalRowText seqCellText
    by_cases hx : x.1 = 0 <;> simp [hx]

theorem seq_cell_of_variant_rows_witness :
    (sampleWriter true).detailed = true ∧ (longSequenceEdge 150).coverage ≥ 1 ∧
    (longSequenceEdge 100).coverage ≥ 1 ∧
    concatEach (longSequenceEdge 150).infos (variantRowsText (sampleWriter true)) =
      "<tr>" ++ edgeLinkCells (sampleWriter true) ⟨5, 0⟩ (7, 8)
        ++ "<td align=\"center\"><b>Too long</b></td></tr>"
        ++ "<tr>" ++ edgeLinkCells (sampleWriter true) ⟨6, 1⟩ (12, 13)
        ++ "<td align=\"center\"><b>=</b></td></tr>" ∧
    concatEach (longSequenceEdge 100).infos (variantRowsText (sampleWriter true)) =
      "<tr>" ++ edgeLinkCells (sampleWriter true) ⟨5, 0⟩ (7, 8)
        ++ "<td align=\"center\"><b>" ++ String.mk (List.replicate 100 'A') ++ "</b></td></tr>"
        ++ "<tr>" ++ edgeLinkCells (sampleWriter true) ⟨6, 1⟩ (12, 13)
        ++ "<td align=\"center\"><b>=</b></td></tr>" := by
  refine ⟨rfl, by decide, by decide, ?_, ?_⟩
  · obtain ⟨shown, hshown, hrows⟩ :=
      (seq_cell_of_variant_rows (sampleWriter true) (longSequenceEdge 150) "" rfl
        (by decide)).2 _ (List.mem_cons_self _ _)
    have hvalue : shown = String.mk (List.replicate 150 'A') := by rw [hshown]; decide
    show concatEach [_] _ = _
    rw [concatEach_cons, concatEach_nil, String.append_empty, hrows, hvalue]
    decide
  · obtain ⟨shown, hshown, hrows⟩ :=
      (seq_cell_of_variant_rows (sampleWriter true) (longSequenceEdge 100) "" rfl
        (by decide)).2 _ (List.mem_cons_self _ _)
    have hvalue : shown = String.mk (List.replicate 100 'A') := by rw [hshown]; decide
    show concatEach [_] _ = _
    rw [concatEach_cons, concatEach_nil, String.append_empty, hrows, hvalue]
    decide

end Shasta

/-! ## The read navigation links -/

namespace Shasta

theorem exploreReadLink_start (readId strand : Nat) (ordinals : List Nat) :
    ∃ rest, (exploreReadLink readId strand ordinals).data =
      "exploreRead?readId=".data ++ rest := by
  simp only [exploreReadLink, String.append_assoc, String.data_append]
  exact ⟨_, rfl⟩

theorem unescapeAmp_readId_start (rest : String) :
    (unescapeAmp ("exploreRead?readId&amp;" ++ rest)).data =
      "exploreRead?readId&".data ++ unescapeAmpChars rest.data := by
  simp only [unescapeAmp, String.data_append]
  show unescapeAmpChars (['e', 'x', 'p', 'l', 'o', 'r', 'e', 'R', 'e', 'a', 'd', '?', 'r', 'e',
    'a', 'd', 'I', 'd', '&', 'a', 'm', 'p', ';'] ++ rest.data) = _
  simp [unescapeAmpChars]

/-- A link that opens with `exploreRead?readId&amp;` does not, once unescaped,
have the form `exploreRead?readId=<id>&strand=<0|1>...`. -/
theorem readId_amp_link_malformed (rest : String) (readId strand : Nat) (ordinals : List Nat) :
    unescapeAmp ("exploreRead?readId&amp;" ++ rest) ≠ exploreReadLink readId strand ordinals := by
  intro h
  obtain ⟨tail, htail⟩ := exploreReadLink_start readId strand ordinals
  have hdata := unescapeAmp_readId_start rest
  rw [h, htail] at hdata
  exact absurd (List.append_inj hdata rfl).1 (by decide)

end Shasta

namespace Shasta

/-- When every marker has at least `k` repeat counts, the detailed vertex
writer has written the head and one row for each marker, whether or not the
consensus loop then succeeds. -/
theorem writeVertexDetailed_marker_rows (w : Writer) (vertex : LocalMarkerGraphVertex)
    (s : String)
    (hcounts : ∀ markerInfo ∈ vertex.markerInfos,
      w.graph.k ≤ (w.graph.getRepeatCounts markerInfo).length) :
    ∃ t, (writeVertexDetailed w vertex s).out =
      s ++ vertexDetailedHead w vertex
        ++ concatEach vertex.markerInfos (fun markerInfo =>
            markerRowHead w markerInfo
              ++ concatRange w.graph.k (fun i =>
                  repeatCountText ((w.graph.getRepeatCounts markerInfo).getD i 0))
              ++ ("</b></td>" ++ "</tr>"))
        ++ t := by
  unfold writeVertexDetailed
  rw [andThen_put, forEach_put (writeMarkerRow w) _ vertex.markerInfos
    (fun markerInfo hmem s1 => writeMarkerRow_ok w markerInfo (hcounts markerInfo hmem) s1),
    andThen_put]
  cases vertexConsensus w vertex with
  | error f => exact raise_continues f _
  | ok consensus =>
    refine andThen_continues _ _ _ (put_continues _ _) (fun s2 => ?_)
    refine andThen_continues _ _ s2 (writeVertexRepeatCountRows_continues _ _ s2) (fun s3 => ?_)
    refine andThen_continues _ _ s3 (put_continues _ s3) (fun s4 => ?_)
    refine andThen_continues _ _ s4 (writeVertexCoverageCells_continues _ _ _ s4) (fun s5 => ?_)
    exact put_continues _ s5

/-- C8, the code at a failing input. The detailed render of a vertex writes,
for the read cell of its first marker (read 5, strand 0), the link
`exploreRead?readId&amp;5&amp;strand=0`: it has `&amp;` where the required form
has `=`.  The same holds for every read link of a vertex row and every link of
an edge row; the ordinal link of a vertex row has the required form. -/
theorem read_links_lack_equals_sign :
    (writeVertex (sampleWriter true) (sampleVertex [2, 1, 3, 1]) "").fault = none ∧
    (∃ rest, (writeVertex (sampleWriter true) (sampleVertex [2, 1, 3, 1]) "").out =
      "" ++ (vertexDetailedHead (sampleWriter true) (sampleVertex [2, 1, 3, 1])
        ++ ("<tr><td align=\"right\""
        ++ (" href=\"" ++ ("exploreRead?readId&amp;5&amp;strand=0" ++ ("\"" ++ rest)))))) ∧
    writeMarkerRow (sampleWriter true) ⟨3, ⟨5, 0⟩, 7⟩ "" =
      ⟨"<tr><td align=\"right\" href=\"exploreRead?readId&amp;5&amp;strand=0\"><font color=\"blue\"><b><u>5-0</u></b></font></td><td align=\"right\" href=\"exploreRead?readId=5&amp;strand=0&amp;highlightMarker=7\"><font color=\"blue\"><b><u>7</u></b></font></td><td align=\"right\"><b>30</b></td><td><b>2137</b></td></tr>",
        none⟩ ∧
    vertexReadHref ⟨3, ⟨5, 0⟩, 7⟩ = "exploreRead?readId&amp;5&amp;strand=0" ∧
    unescapeAmp (vertexReadHref ⟨3, ⟨5, 0⟩, 7⟩) = "exploreRead?readId&5&strand=0" ∧
    exploreReadLink 5 0 [] = "exploreRead?readId=5&strand=0" ∧
    unescapeAmp (vertexOrdinalHref ⟨3, ⟨5, 0⟩, 7⟩) = exploreReadLink 5 0 [7] ∧
    (∀ (markerInfo : MarkerInfo) (readId strand : Nat) (ordinals : List Nat),
      unescapeAmp (vertexReadHref markerInfo) ≠ exploreReadLink readId strand ordinals) ∧
    (∀ (orientedReadId : OrientedReadId) (readId strand : Nat) (ordinals : List Nat),
      unescapeAmp (edgeReadHref orientedReadId) ≠ exploreReadLink readId strand ordinals) ∧
    (∀ (orientedReadId : OrientedReadId) (bounds : Nat × Nat) (readId strand : Nat)
        (ordinals : List Nat),
      unescapeAmp (edgeOrdinalHref orientedReadId bounds)
        ≠ exploreReadLink readId strand ordinals) := by
  refine ⟨by decide, ?_, by decide, by decide, by decide, by decide, by decide, ?_, ?_, ?_⟩
  · obtain ⟨t, ht⟩ := writeVertexDetailed_marker_rows (sampleWriter true)
      (sampleVertex [2, 1, 3, 1]) "" (fun _ _ => Nat.le_refl 4)
    have hinfos : (sampleVertex [2, 1, 3, 1]).markerInfos
        = [⟨3, ⟨5, 0⟩, 7⟩, ⟨8, ⟨6, 1⟩, 12⟩] := rfl
    have hhref : vertexReadHref ⟨3, ⟨5, 0⟩, 7⟩ = "exploreRead?readId&amp;5&amp;strand=0" := by
      decide
    have hdetailed : writeVertex (sampleWriter true) (sampleVertex [2, 1, 3, 1]) ""
        = writeVertexDetailed (sampleWriter true) (sampleVertex [2, 1, 3, 1]) "" := rfl
    rw [hdetailed, ht, hinfos]
    simp only [concatEach_cons, markerRowHead, hhref, String.append_assoc]
    exact ⟨_, rfl⟩
  · intro markerInfo readId strand ordinals
    have h := readId_amp_link_malformed
      (toString markerInfo.orientedReadId.getReadId
        ++ "&amp;strand=" ++ toString markerInfo.orientedReadId.getStrand)
      readId strand ordinals
    simpa only [vertexReadHref, String.append_assoc] using h
  · intro orientedReadId readId strand ordinals
    have h := readId_amp_link_malformed
      (toString orientedReadId.getReadId ++ "&amp;strand=" ++ toString orientedReadId.getStrand)
      readId strand ordinals
    simpa only [edgeReadHref, String.append_assoc] using h
  · intro orientedReadId bounds readId strand ordinals
    have h := readId_amp_link_malformed
      (toString orientedReadId.getReadId ++ "&amp;strand=" ++ toString orientedReadId.getStrand
        ++ "&amp;highlightMarker=" ++ toString bounds.1
        ++ "&amp;highlightMarker=" ++ toString bounds.2)
      readId strand ordinals
    simpa only [edgeOrdinalHref, String.append_assoc] using h

end Shasta

/-! ## The order of marker intervals -/

namespace Shasta

theorem markerInterval_lt_iff (ltId : OrientedReadId → OrientedReadId → Bool)
    (hirrefl : ∀ x, ltId x x = false)
    (htrans : ∀ x y z, ltId x y = true → ltId y z = true → ltId x z = true)
    (htotal : ∀ x y, ltId x y = true ∨ x = y ∨ ltId y x = true)
    (a b : MarkerInterval) :
    MarkerInterval.lt ltId a b = true ↔
      (ltId a.orientedReadId b.orientedReadId = true ∨
        (a.orientedReadId = b.orientedReadId ∧ a.ordinals.1 < b.ordinals.1) ∨
        (a.orientedReadId = b.orientedReadId ∧ a.ordinals.1 = b.ordinals.1 ∧
          a.ordinals.2 < b.ordinals.2)) := by
  have hasymm : ∀ x y, ltId x y = true → ltId y x = true → False := by
    intro x y hxy hyx
    have := htrans x y x hxy hyx
    rw [hirrefl x] at this
    cases this
  unfold MarkerInterval.lt
  rcases htotal a.orientedReadId b.orientedReadId with hlt | heq | hgt
  · simp [hlt]
  · have hbb : ltId b.orientedReadId b.orientedReadId = false := hirrefl _
    simp only [heq, hbb, Bool.false_eq_true, if_false, false_or, true_and]
    by_cases h3 : a.ordinals.1 < b.ordinals.1
    · simp [h3]
    · by_cases h4 : b.ordinals.1 < a.ordinals.1
      · simp only [h3, h4, if_false, if_true, false_or]
        constructor
        · intro h; cases h
        · rintro ⟨h5, _⟩; omega
      · have h5 : a.ordinals.1 = b.ordinals.1 := by omega
        simp [h3, h4, h5]
  · have h1 : ltId a.orientedReadId b.orientedReadId = false := by
      cases h : ltId a.orientedReadId b.orientedReadId
      · rfl
      · exact absurd hgt (fun hg => hasymm _ _ h hg)
    have hne : a.orientedReadId ≠ b.orientedReadId := by
      intro heq
      rw [heq, hirrefl] at hgt
      cases hgt
    simp [h1, hgt, hne]

/-- C9. `MarkerInterval::operator<` is the lexicographic order on
(orientedReadId, ordinals[0], ordinals[1]); when the order of oriented read ids
is a strict total order, it is a strict total order on marker intervals: it is
irreflexive and transitive, and of `a < b`, `b < a` and equality of the three
fields exactly one holds. -/
theorem markerInterval_lt_strict_total (ltId : OrientedReadId → OrientedReadId → Bool)
    (hirrefl : ∀ x, ltId x x = false)
    (htrans : ∀ x y z, ltId x y = true → ltId y z = true → ltId x z = true)
    (htotal : ∀ x y, ltId x y = true ∨ x = y ∨ ltId y x = true) :
    (∀ a b : MarkerInterval, MarkerInterval.lt ltId a b = true ↔
      (ltId a.orientedReadId b.orientedReadId = true ∨
        (a.orientedReadId = b.orientedReadId ∧ a.ordinals.1 < b.ordinals.1) ∨
        (a.orientedReadId = b.orientedReadId ∧ a.ordinals.1 = b.ordinals.1 ∧
          a.ordinals.2 < b.ordinals.2))) ∧
    (∀ a : MarkerInterval, MarkerInterval.lt ltId a a = false) ∧
    (∀ a b c : MarkerInterval, MarkerInterval.lt ltId a b = true →
      MarkerInterval.lt ltId b c = true → MarkerInterval.lt ltId a c = true) ∧
    (∀ a b : MarkerInterval,
      (MarkerInterval.lt ltId a b = true ∧ MarkerInterval.lt ltId b a = false ∧
        ¬ (a.orientedReadId = b.orientedReadId ∧ a.ordinals.1 = b.ordinals.1 ∧
          a.ordinals.2 = b.ordinals.2)) ∨
      (MarkerInterval.lt ltId a b = false ∧ MarkerInterval.lt ltId b a = true ∧
        ¬ (a.orientedReadId = b.orientedReadId ∧ a.ordinals.1 = b.ordinals.1 ∧
          a.ordinals.2 = b.ordinals.2)) ∨
      (MarkerInterval.lt ltId a b = false ∧ MarkerInterval.lt ltId b a = false ∧
        a.orientedReadId = b.orientedReadId ∧ a.ordinals.1 = b.ordinals.1 ∧
          a.ordinals.2 = b.ordinals.2)) := by
  have hiff := markerInterval_lt_iff ltId hirrefl htrans htotal
  have hasymm : ∀ x y, ltId x y = true → ltId y x = true → False := by
    intro x y hxy hyx
    have := htrans x y x hxy hyx
    rw [hirrefl x] at this
    cases this
  have hfalse : ∀ a b : MarkerInterval, MarkerInterval.lt ltId a b = false ↔
      ¬ (ltId a.orientedReadId b.orientedReadId = true ∨
        (a.orientedReadId = b.orientedReadId ∧ a.ordinals.1 < b.ordinals.1) ∨
        (a.orientedReadId = b.orientedReadId ∧ a.ordinals.1 = b.ordinals.1 ∧
          a.ordinals.2 < b.ordinals.2)) := by
    intro a b
    rw [← hiff a b]
    simp
  refine ⟨hiff, ?_, ?_, ?_⟩
  · intro a
    rw [hfalse]
    rintro (h | ⟨_, h⟩ | ⟨_, _, h⟩)
    · rw [hirrefl] at h; cases h
    · omega
    · omega
  · intro a b c hab hbc
    rw [hiff] at hab hbc ⊢
    rcases hab with h1 | ⟨e1, h1⟩ | ⟨e1, f1, h1⟩
    · rcases hbc with h2 | ⟨e2, h2⟩ | ⟨e2, f2, h2⟩
      · exact Or.inl (htrans _ _ _ h1 h2)
      · exact Or.inl (e2 ▸ h1)
      · exact Or.inl (e2 ▸ h1)
    · rcases hbc with h2 | ⟨e2, h2⟩ | ⟨e2, f2, h2⟩
      · exact Or.inl (e1 ▸ h2)
      · exact Or.inr (Or.inl ⟨e1.trans e2, by omega⟩)
      · exact Or.inr (Or.inl ⟨e1.trans e2, by omega⟩)
    · rcases hbc with h2 | ⟨e2, h2⟩ | ⟨e2, f2, h2⟩
      · exact Or.inl (e1 ▸ h2)
      · exact Or.inr (Or.inl ⟨e1.trans e2, by omega⟩)
      · exact Or.inr (Or.inr ⟨e1.trans e2, by omega, by omega⟩)
  · intro a b
    rcases htotal a.orientedReadId b.orientedReadId with hlt | heq | hgt
    · left
      have hne : a.orientedReadId ≠ b.orientedReadId := by
        intro heq
        rw [heq, hirrefl] at hlt
        cases hlt
      refine ⟨(hiff a b).mpr (Or.inl hlt), (hfalse b a).mpr ?_, fun h => hne h.1⟩
      rintro (h | ⟨h, _⟩ | ⟨h, _⟩)
      · exact hasymm _ _ hlt h
      · exact hne h.symm
      · exact hne h.symm
    · have h1 : ltId a.orientedReadId b.orientedReadId = false := by rw [heq]; exact hirrefl _
      have h2 : ltId b.orientedReadId a.orientedReadId = false := by rw [heq]; exact hirrefl _
      rcases Nat.lt_trichotomy a.ordinals.1 b.ordinals.1 with h3 | h3 | h3
      · left
        refine ⟨(hiff a b).mpr (Or.inr (Or.inl ⟨heq, h3⟩)), (hfalse b a).mpr ?_,
          fun h => by omega⟩
        rintro (h | ⟨_, h⟩ | ⟨_, h, _⟩)
        · rw [h2] at h; cases h
        · omega
        · omega
      · rcases Nat.lt_trichotomy a.ordinals.2 b.ordinals.2 with h4 | h4 | h4
        · left
          refine ⟨(hiff a b).mpr (Or.inr (Or.inr ⟨heq, h3, h4⟩)), (hfalse b a).mpr ?_,
            fun h => by omega⟩
          rintro (h | ⟨_, h⟩ | ⟨_, _, h⟩)
          · rw [h2] at h; cases h
          · omega
          · omega
        · right; right
          refine ⟨(hfalse a b).mpr ?_, (hfalse b a).mpr ?_, heq, h3, h4⟩
          · rintro (h | ⟨_, h⟩ | ⟨_, _, h⟩)
            · rw [h1] at h; cases h
            · omega
            · omega
          · rintro (h | ⟨_, h⟩ | ⟨_, _, h⟩)
            · rw [h2] at h; cases h
            · omega
            · omega
        · right; left
          refine ⟨(hfalse a b).mpr ?_, (hiff b a).mpr (Or.inr (Or.inr ⟨heq.symm, h3.symm, h4⟩)),
            fun h => by omega⟩
          rintro (h | ⟨_, h⟩ | ⟨_, _, h⟩)
          · rw [h1] at h; cases h
          · omega
          · omega
      · right; left
        refine ⟨(hfalse a b).mpr ?_, (hiff b a).mpr (Or.inr (Or.inl ⟨heq.symm, h3⟩)),
          fun h => by omega⟩
        rintro (h | ⟨_, h⟩ | ⟨_, h, _⟩)
        · rw [h1] at h; cases h
        · omega
        · omega
    · right; left
      have hne : a.orientedReadId ≠ b.orientedReadId := by
        intro heq
        rw [heq, hirrefl] at hgt
        cases hgt
      refine ⟨(hfalse a b).mpr ?_, (hiff b a).mpr (Or.inl hgt), fun h => hne h.1⟩
      rintro (h | ⟨h, _⟩ | ⟨h, _⟩)
      · exact hasymm _ _ h hgt
      · exact hne h
      · exact hne h

theorem sampleLtId_irrefl (x : OrientedReadId) : sampleLtId x x = false := by
  simp [sampleLtId]

theorem sampleLtId_trans (x y z : OrientedReadId) (hxy : sampleLtId x y = true)
    (hyz : sampleLtId y z = true) : sampleLtId x z = true := by
  simp only [sampleLtId, decide_eq_true_eq] at *
  omega

theorem sampleLtId_total (x y : OrientedReadId) :
    sampleLtId x y = true ∨ x = y ∨ sampleLtId y x = true := by
  simp only [sampleLtId, decide_eq_true_eq]
  obtain ⟨rx, sx⟩ := x
  obtain ⟨ry, sy⟩ := y
  have hx := sx.isLt
  have hy := sy.isLt
  rcases Nat.lt_trichotomy (2 * rx + sx.val) (2 * ry + sy.val) with h | h | h
  · exact Or.inl h
  · right; left
    have h1 : rx = ry := by omega
    have h2 : sx = sy := Fin.ext (by omega)
    rw [h1, h2]
  · exact Or.inr (Or.inr h)

theorem markerInterval_lt_strict_total_witness :
    (∀ x, sampleLtId x x = false) ∧
    (∀ x y z, sampleLtId x y = true → sampleLtId y z = true → sampleLtId x z = true) ∧
    (∀ x y, sampleLtId x y = true ∨ x = y ∨ sampleLtId y x = true) ∧
    MarkerInterval.lt sampleLtId (MarkerInterval.make ⟨5, 0⟩ 7 8)
      (MarkerInterval.make ⟨5, 0⟩ 7 9) = true ∧
    MarkerInterval.lt sampleLtId (MarkerInterval.make ⟨5, 0⟩ 7 9)
      (MarkerInterval.make ⟨5, 1⟩ 2 3) = true ∧
    MarkerInterval.lt sampleLtId (MarkerInterval.make ⟨5, 0⟩ 7 8)
      (MarkerInterval.make ⟨5, 1⟩ 2 3) = true :=
  ⟨sampleLtId_irrefl, sampleLtId_trans, sampleLtId_total, by decide, by decide,
    (markerInterval_lt_strict_total sampleLtId sampleLtId_irrefl sampleLtId_trans
      sampleLtId_total).2.2.1 _ (MarkerInterval.make ⟨5, 0⟩ 7 9) _ (by decide) (by decide)⟩

end Shasta

/-! ## The coverage of a rendered edge -/

namespace Shasta

theorem edgeThickness_eq_max (scale : ℚ) (coverage : Nat) :
    edgeThickness scale coverage = scale * ((max coverage 1 : Nat) : ℚ) := by
  unfold edgeThickness
  by_cases h : coverage = 0
  · simp [h]
  · have hmax : max coverage 1 = coverage := Nat.max_eq_left (Nat.pos_of_ne_zero h)
    simp [h, hmax]

theorem writeEdge_ok_coverage (w : Writer) (edge : LocalMarkerGraphEdge) (s : String)
    (hok : (writeEdge w edge s).fault = none) : edge.coverage ≥ 1 := by
  by_cases hpos : edge.coverage > 0
  · exact hpos
  · simp [writeEdge, hpos, raise] at hok

end Shasta

/-! ## The style, label colour and layout attributes of an edge -/

namespace Shasta

end Shasta

/-! ## The colour of a detailed vertex -/

namespace Shasta

/-- C12, counterexample. The centre vertex of the sample graph (distance 0,
maxDistance 10) is written in detailed mode with fillcolor `#90ee90`, not
green. -/
theorem detailed_centre_not_green :
    (sampleWriter true).detailed = true ∧
    centreVertex.distance = 0 ∧ (sampleWriter true).maxDistance ≠ 0 ∧
    (∃ rest, (writeVertex (sampleWriter true) centreVertex "").out =
      "[ style=filled fillcolor=\"#90ee90\"" ++ rest) ∧
    ¬ (∃ rest, (writeVertex (sampleWriter true) centreVertex "").out =
      "[ style=filled fillcolor=\"green\"" ++ rest) := by
  have hhead : ∃ rest, (writeVertex (sampleWriter true) centreVertex "").out =
      "[ style=filled fillcolor=\"#90ee90\"" ++ rest := by
    obtain ⟨t, ht⟩ := writeVertexDetailed_head (sampleWriter true) centreVertex ""
    have hdetailed : writeVertex (sampleWriter true) centreVertex ""
        = writeVertexDetailed (sampleWriter true) centreVertex "" := rfl
    have hcolour : vertexColor (sampleWriter true) "green" centreVertex = "#90ee90" := by
      decide
    rw [hdetailed, ht]
    simp only [vertexDetailedHead, hcolour, String.append_assoc, String.empty_append]
    exact ⟨_, rfl⟩
  refine ⟨rfl, rfl, by decide, hhead, ?_⟩
  rintro ⟨rest2, h2⟩
  obtain ⟨rest1, h1⟩ := hhead
  have hdata := congrArg String.data (h1.symm.trans h2)
  rw [String.data_append, String.data_append] at hdata
  have hpre : "[ style=filled fillcolor=\"#".data ++ ("90ee90\"".data ++ rest1.data)
      = "[ style=filled fillcolor=\"g".data ++ ("reen\"".data ++ rest2.data) := hdata
  exact absurd (List.append_inj hpre rfl).1 (by decide)

end Shasta

namespace Shasta

/-- C12, as amended. In detailed mode, for a vertex with coverage at least 1,
the fillcolor written is cyan iff distance equals maxDistance, `#90ee90` (as in
compact mode) iff distance is 0 and differs from maxDistance, green iff
coverage is at least minCoverage and neither boundary condition holds, and red
otherwise; in particular every centre vertex (distance 0, maxDistance not 0) is
written with fillcolor `#90ee90`. -/
theorem detailed_vertex_colour_iff (w : Writer) (vertex : LocalMarkerGraphVertex)
    (s : String) (hmode : w.detailed = true) (hcoverage : vertex.markerInfos.length ≥ 1) :
    ∃ colour : String,
      (∃ rest, (writeVertex w vertex s).out =
        s ++ ("[" ++ " style=filled" ++ " fillcolor=\"" ++ colour ++ "\"" ++ rest)) ∧
      (colour = "cyan" ↔ vertex.distance = w.maxDistance) ∧
      (colour = "#90ee90" ↔ (vertex.distance = 0 ∧ vertex.distance ≠ w.maxDistance)) ∧
      (colour = "green" ↔
        (vertex.markerInfos.length ≥ w.minCoverage ∧ vertex.distance ≠ 0 ∧
          vertex.distance ≠ w.maxDistance)) ∧
      (colour = "red" ↔
        (vertex.markerInfos.length < w.minCoverage ∧ vertex.distance ≠ 0 ∧
          vertex.distance ≠ w.maxDistance)) ∧
      (vertex.distance = 0 → w.maxDistance ≠ 0 → colour = "#90ee90") := by
  have hpos : vertex.markerInfos.length > 0 := hcoverage
  refine ⟨vertexColor w "green" vertex, ?_, ?_⟩
  · obtain ⟨t, ht⟩ := writeVertexDetailed_head w vertex s
    simp only [writeVertex, hpos, hmode, not_true_eq_false, if_false]
    rw [ht]
    simp only [vertexDetailedHead, String.append_assoc]
    exact ⟨_, rfl⟩
  · simp only [vertexColor]
    by_cases h1 : vertex.distance = w.maxDistance
    · rw [if_pos h1]
      refine ⟨⟨fun _ => h1, fun _ => rfl⟩, ⟨fun h => absurd h (by decide), fun h => absurd h1 h.2⟩,
        ⟨fun h => absurd h (by decide), fun h => absurd h1 h.2.2⟩,
        ⟨fun h => absurd h (by decide), fun h => absurd h1 h.2.2⟩, ?_⟩
      intro h0 hmax
      exact absurd (h1.symm.trans h0) hmax
    · rw [if_neg h1]
      by_cases h2 : vertex.distance = 0
      · rw [if_pos h2]
        exact ⟨⟨fun h => absurd h (by decide), fun h => absurd h h1⟩,
          ⟨fun _ => ⟨h2, h1⟩, fun _ => rfl⟩,
          ⟨fun h => absurd h (by decide), fun h => absurd h2 h.2.1⟩,
          ⟨fun h => absurd h (by decide), fun h => absurd h2 h.2.1⟩, fun _ _ => rfl⟩
      · rw [if_neg h2]
        by_cases h3 : vertex.markerInfos.length ≥ w.minCoverage
        · rw [if_pos h3]
          exact ⟨⟨fun h => absurd h (by decide), fun h => absurd h h1⟩,
            ⟨fun h => absurd h (by decide), fun h => absurd h.1 h2⟩,
            ⟨fun _ => ⟨h3, h2, h1⟩, fun _ => rfl⟩,
            ⟨fun h => absurd h (by decide), fun h => absurd h3 (Nat.not_le.mpr h.1)⟩,
            fun h => absurd h h2⟩
        · rw [if_neg h3]
          exact ⟨⟨fun h => absurd h (by decide), fun h => absurd h h1⟩,
            ⟨fun h => absurd h (by decide), fun h => absurd h.1 h2⟩,
            ⟨fun h => absurd h (by decide), fun h => absurd h.1 h3⟩,
            ⟨fun _ => ⟨Nat.not_le.mp h3, h2, h1⟩, fun _ => rfl⟩,
            fun h => absurd h h2⟩

theorem detailed_vertex_colour_iff_witness :
    (sampleWriter true).detailed = true ∧ centreVertex.markerInfos.length ≥ 1 ∧
    ∃ rest, (writeVertex (sampleWriter true) centreVertex "").out =
      "" ++ ("[" ++ " style=filled" ++ " fillcolor=\"" ++ "#90ee90" ++ "\"" ++ rest) := by
  refine ⟨rfl, by decide, ?_⟩
  obtain ⟨colour, hout, _, _, _, _, hcentre⟩ :=
    detailed_vertex_colour_iff (sampleWriter true) centreVertex "" rfl (by decide)
  rw [hcentre rfl (by decide)] at hout
  exact hout

end Shasta

namespace Shasta

/-- C14. For a detailed edge rendered successfully, the label table's bgcolor
is green when the edge colour is black and otherwise equals the edge colour:
violet for spanning-tree edges, green for the other edges with coverage at
least minCoverage, red for the rest, and never black. -/
theorem label_background_colour (w : Writer) (edge : LocalMarkerGraphEdge) (s : String)
    (hmode : w.detailed = true) (hok : (writeEdge w edge s).fault = none) :
    ∃ colour background : String,
      (∃ attributes rest, (writeEdge w edge s).out =
        s ++ ("[" ++ attributes
          ++ " fillcolor=\"" ++ colour ++ "\""
          ++ " color=\"" ++ colour ++ "\""
          ++ " weight=" ++ toString edge.coverage
          ++ (if edge.isDagEdge = false then " constraint=false" else "")
          ++ " label=<<font color=\"black\">"
          ++ "<table"
          ++ " color=\"black\""
          ++ " bgcolor=\"" ++ background ++ "\""
          ++ rest)) ∧
      colour = edgeColor w edge ∧
      (colour = "black" → background = "green") ∧
      (colour ≠ "black" → background = colour) ∧
      (edge.isSpanningTreeEdge = true → background = "violet") ∧
      (edge.isSpanningTreeEdge = false → edge.coverage ≥ w.minCoverage →
        background = "green") ∧
      (edge.isSpanningTreeEdge = false → edge.coverage < w.minCoverage →
        background = "red") ∧
      background ≠ "black" := by
  have hpos : edge.coverage > 0 := writeEdge_ok_coverage w edge s hok
  refine ⟨edgeColor w edge, edgeLabelColor (edgeColor w edge), ?_, rfl, ?_, ?_, ?_, ?_, ?_, ?_⟩
  · obtain ⟨t, ht⟩ := writeEdgeDetailed_head w edge s
    simp only [writeEdge, hpos, hmode, not_true_eq_false, if_false]
    rw [ht]
    refine ⟨" tooltip=\"" ++ ("Coverage " ++ toString edge.coverage
        ++ ", consensus " ++ toString edge.consensus) ++ "\""
      ++ " labeltooltip=\"" ++ ("Coverage " ++ toString edge.coverage
        ++ ", consensus " ++ toString edge.consensus) ++ "\""
      ++ " penwidth="
      ++ w.floats.ofThickness (edgeThickness detailedThicknessScale edge.coverage)
      ++ edgeStyleText edge, ?_⟩
    have hdag : (if (!edge.isDagEdge) = true then " constraint=false" else "")
        = (if edge.isDagEdge = false then " constraint=false" else "") := by
      cases edge.isDagEdge <;> rfl
    simp only [edgeDetailedHead, hdag, String.append_assoc]
    exact ⟨_, rfl⟩
  · intro h
    simp [edgeLabelColor, h]
  · intro h
    simp [edgeLabelColor, h]
  · intro h
    simp [edgeLabelColor, edgeColor, h]
  · intro h1 h2
    simp [edgeLabelColor, edgeColor, h1, h2]
  · intro h1 h2
    simp [edgeLabelColor, edgeColor, h1, Nat.not_le.mpr h2]
  · unfold edgeLabelColor
    by_cases h : edgeColor w edge = "black"
    · rw [if_pos h]; decide
    · rw [if_neg h]; exact h

theorem label_background_colour_witness :
    (sampleWriter true).detailed = true ∧
    (writeEdge (sampleWriter true) (sampleEdge 3) "").fault = none ∧
    ∃ attributes rest, (writeEdge (sampleWriter true) (sampleEdge 3) "").out =
      "" ++ ("[" ++ attributes
        ++ " fillcolor=\"" ++ "black" ++ "\""
        ++ " color=\"" ++ "black" ++ "\""
        ++ " weight=" ++ toString (sampleEdge 3).coverage
        ++ (if (sampleEdge 3).isDagEdge = false then " constraint=false" else "")
        ++ " label=<<font color=\"black\">"
        ++ "<table"
        ++ " color=\"black\""
        ++ " bgcolor=\"" ++ "green" ++ "\""
        ++ rest) := by
  refine ⟨rfl, by decide, ?_⟩
  obtain ⟨colour, background, hout, hcolour, hblack, _⟩ :=
    label_background_colour (sampleWriter true) (sampleEdge 3) "" rfl (by decide)
  have hc : colour = "black" := by rw [hcolour]; decide
  rw [hblack hc, hc] at hout
  exact hout

end Shasta

/-! ## The repeat count cells of a vertex -/

namespace Shasta

theorem repeatCountText_data (repeatCount : Nat) :
    (repeatCountText repeatCount).data = [repeatCountChar repeatCount] := by
  unfold repeatCountText repeatCountChar
  by_cases h : repeatCount < 10
  · rw [if_pos h, if_pos h]
    exact (digit_text repeatCount h).1
  · rw [if_neg h, if_neg h]

theorem concatEach_chars_map {α : Type} (xs : List α) (f : α → String) (g : α → Char)
    (h : ∀ x ∈ xs, (f x).data = [g x]) :
    concatEach xs f = String.mk (xs.map g) := by
  apply String.ext
  rw [concatEach_data]
  induction xs with
  | nil => rfl
  | cons x rest ih =>
    rw [List.flatMap_cons, h x (List.mem_cons_self x rest),
      ih (fun y hy => h y (List.mem_cons_of_mem x hy))]
    rfl

theorem forEach_fault_none_mem {α : Type} (body : α → String → Result) (xs : List α)
    (s : String) (h : (forEach body xs s).fault = none) :
    ∀ x ∈ xs, ∃ s1, (body x s1).fault = none := by
  induction xs generalizing s with
  | nil => intro x hx; exact absurd hx (List.not_mem_nil x)
  | cons y rest ih =>
    intro x hx
    simp only [forEach] at h
    obtain ⟨h1, h2⟩ := andThen_fault_none _ _ h
    rcases List.mem_cons.mp hx with rfl | hx
    · exact ⟨s, h1⟩
    · exact ih _ h2 x hx

theorem writeMarkerRepeatCounts_bound (k : Nat) (counts : List Nat) (s : String)
    (h : (writeMarkerRepeatCounts k counts s).fault = none) : k ≤ counts.length := by
  by_contra hlt
  have hmem : counts.length ∈ List.range k := List.mem_range.mpr (Nat.lt_of_not_le hlt)
  obtain ⟨s1, hs1⟩ := forEach_fault_none_mem _ _ s h counts.length hmem
  simp [List.getElem?_eq_none (Nat.le_refl counts.length), raise] at hs1

theorem writeMarkerRow_bound (w : Writer) (markerInfo : MarkerInfo) (s : String)
    (h : (writeMarkerRow w markerInfo s).fault = none) :
    w.graph.k ≤ (w.graph.getRepeatCounts markerInfo).length := by
  unfold writeMarkerRow at h
  rw [andThen_put] at h
  exact writeMarkerRepeatCounts_bound _ _ _ (andThen_fault_none _ _ h).1

theorem writeVertex_ok_detailed (w : Writer) (vertex : LocalMarkerGraphVertex) (s : String)
    (hmode : w.detailed = true) (hok : (writeVertex w vertex s).fault = none) :
    writeVertex w vertex s = writeVertexDetailed w vertex s := by
  unfold writeVertex at hok ⊢
  by_cases hpos : vertex.markerInfos.length > 0
  · simp [hpos, hmode]
  · simp [hpos, raise] at hok

/-- C13. Repeat counts are written one character per position, the decimal
digit of a count below 10 and a star for a count of 10 or more.  For a vertex
rendered successfully in detailed mode, the Repeat cell of each marker row and
the `Repeat consensus` cell have exactly `k` characters, the i-th being the
character of that row's repeat count at position i (for the consensus row, of
the consensus repeat count at position i). -/
theorem repeat_cells_one_character_each (w : Writer) (vertex : LocalMarkerGraphVertex)
    (s : String) (hmode : w.detailed = true)
    (hok : (writeVertex w vertex s).fault = none) :
    (∀ c, c < 10 →
      repeatCountChar c = Char.ofNat (48 + c) ∧ (toString c).data = [repeatCountChar c]) ∧
    (∀ c, c ≥ 10 → repeatCountChar c = '*') ∧
    (∀ markerInfo ∈ vertex.markerInfos,
      w.graph.k ≤ (w.graph.getRepeatCounts markerInfo).length) ∧
    (∃ rest, (writeVertex w vertex s).out =
      s ++ vertexDetailedHead w vertex
        ++ concatEach vertex.markerInfos (fun markerInfo =>
            markerRowHead w markerInfo
              ++ String.mk ((List.range w.graph.k).map (fun i =>
                  repeatCountChar ((w.graph.getRepeatCounts markerInfo).getD i 0)))
              ++ ("</b></td>" ++ "</tr>"))
        ++ ("<tr><td colspan=\"3\" align=\"left\"><b>Repeat consensus</b></td>"
          ++ "<td><b>"
          ++ String.mk ((List.range w.graph.k).map (fun i =>
              repeatCountChar (vertexRepeatCount w vertex i)))
          ++ "</b></td></tr>")
        ++ rest) ∧
    (∀ markerInfo : MarkerInfo,
      (String.mk ((List.range w.graph.k).map (fun i =>
        repeatCountChar ((w.graph.getRepeatCounts markerInfo).getD i 0)))).length
        = w.graph.k) ∧
    (String.mk ((List.range w.graph.k).map (fun i =>
      repeatCountChar (vertexRepeatCount w vertex i)))).length = w.graph.k := by
  have hlen : ∀ f : Nat → Char, (String.mk ((List.range w.graph.k).map f)).length
      = w.graph.k := by
    intro f
    show ((List.range w.graph.k).map f).length = w.graph.k
    simp
  have hdetailed := writeVertex_ok_detailed w vertex s hmode hok
  rw [hdetailed] at hok ⊢
  obtain ⟨consensus, markerRows, repeatRows, consensusCells, hcons, hrows, hout⟩ :=
    writeVertexDetailed_success w vertex s hok
  have hbound : ∀ markerInfo ∈ vertex.markerInfos,
      w.graph.k ≤ (w.graph.getRepeatCounts markerInfo).length := by
    intro markerInfo hmem
    have hfault : (forEach (writeMarkerRow w) vertex.markerInfos
        (s ++ vertexDetailedHead w vertex)).fault = none := by rw [hrows]
    obtain ⟨s1, hs1⟩ := forEach_fault_none_mem _ _ _ hfault markerInfo hmem
    exact writeMarkerRow_bound w markerInfo s1 hs1
  refine ⟨?_, ?_, hbound, ?_, fun _ => hlen _, hlen _⟩
  · intro c hc
    have h := repeatCountText_data c
    simp only [repeatCountText, if_pos hc] at h
    exact ⟨by simp [repeatCountChar, hc], h⟩
  · intro c hc
    simp [repeatCountChar, Nat.not_lt.mpr hc]
  · have hput := forEach_put (writeMarkerRow w) _ vertex.markerInfos
      (fun markerInfo hmem s1 => writeMarkerRow_ok w markerInfo (hbound markerInfo hmem) s1)
      (s ++ vertexDetailedHead w vertex)
    rw [hput] at hrows
    have hrowsOut : s ++ vertexDetailedHead w vertex ++ markerRows
        = s ++ vertexDetailedHead w vertex
          ++ concatEach vertex.markerInfos (fun markerInfo =>
              markerRowHead w markerInfo
                ++ concatRange w.graph.k (fun i =>
                    repeatCountText ((w.graph.getRepeatCounts markerInfo).getD i 0))
                ++ ("</b></td>" ++ "</tr>")) :=
      (congrArg Result.out hrows).symm
    have hcell : ∀ counts : List Nat,
        concatRange w.graph.k (fun i => repeatCountText (counts.getD i 0))
          = String.mk ((List.range w.graph.k).map (fun i =>
              repeatCountChar (counts.getD i 0))) := by
      intro counts
      rw [concatRange_eq]
      exact concatEach_chars_map _ _ _ (fun i _ => repeatCountText_data _)
    have hconsensusCell : repeatConsensusCell w.graph.k consensus
        = String.mk ((List.range w.graph.k).map (fun i =>
            repeatCountChar (vertexRepeatCount w vertex i))) := by
      unfold repeatConsensusCell
      rw [concatRange_eq]
      apply concatEach_chars_map
      intro i hi
      rw [vertexConsensus_repeatCount w vertex consensus hcons i (List.mem_range.mp hi)]
      exact repeatCountText_data _
    rw [hout, hrowsOut, hconsensusCell]
    simp only [hcell]
    refine ⟨repeatRows
      ++ ("<tr><td colspan=\"3\" align=\"left\"><b>Coverage for repeat consensus</b></td>"
        ++ "<td><b>")
      ++ consensusCells
      ++ ("</b></td></tr>"
        ++ "<tr><td colspan=\"3\" align=\"left\"><b>Raw consensus</b></td>"
        ++ "<td align=\"left\"><b>"
        ++ rawConsensusCell w.graph.k (w.graph.getKmer vertex) consensus
        ++ "</b></td></tr>"
        ++ "</table></font>>"
        ++ "]"), ?_⟩
    simp only [String.append_assoc]

theorem repeat_cells_one_character_each_witness :
    (sampleWriter true).detailed = true ∧
    (writeVertex (sampleWriter true) (sampleVertex [2, 1, 3, 12]) "").fault = none ∧
    String.mk ((List.range (sampleWriter true).graph.k).map (fun i =>
      repeatCountChar (((sampleWriter true).graph.getRepeatCounts ⟨8, ⟨6, 1⟩, 12⟩).getD i 0)))
      = "213*" ∧
    String.mk ((List.range (sampleWriter true).graph.k).map (fun i =>
      repeatCountChar (vertexRepeatCount (sampleWriter true) (sampleVertex [2, 1, 3, 12]) i)))
      = "213*" ∧
    ∀ markerInfo ∈ (sampleVertex [2, 1, 3, 12]).markerInfos,
      (sampleWriter true).graph.k
        ≤ ((sampleWriter true).graph.getRepeatCounts markerInfo).length :=
  ⟨rfl, by decide, by decide, by decide,
    (repeat_cells_one_character_each (sampleWriter true) (sampleVertex [2, 1, 3, 12]) "" rfl
      (by decide)).2.2.1⟩

end Shasta

/-! ## The constructor of marker intervals -/

namespace Shasta

/-- C16, counterexample. The constructor stores the ordinals 5 and 3 as they
are given, and the second is smaller than the first. -/
theorem markerInterval_unordered_counterexample :
    (MarkerInterval.make ⟨5, 0⟩ 5 3).ordinals = (5, 3) ∧
    ¬ ((MarkerInterval.make ⟨5, 0⟩ 5 3).ordinals.2 ≥ (MarkerInterval.make ⟨5, 0⟩ 5 3).ordinals.1) := by
  decide

/-- C16, as amended. The constructor stores the oriented read id and the two
ordinals unchanged and performs no check; the interval it builds has
ordinals[1] at least ordinals[0] when the caller passes ordinal1 at least
ordinal0. -/
theorem markerInterval_make_ordered (orientedReadId : OrientedReadId)
    (ordinal0 ordinal1 : Nat) (h : ordinal1 ≥ ordinal0) :
    (MarkerInterval.make orientedReadId ordinal0 ordinal1).orientedReadId = orientedReadId ∧
    (MarkerInterval.make orientedReadId ordinal0 ordinal1).ordinals.1 = ordinal0 ∧
    (MarkerInterval.make orientedReadId ordinal0 ordinal1).ordinals.2 = ordinal1 ∧
    (MarkerInterval.make orientedReadId ordinal0 ordinal1).ordinals.2
      ≥ (MarkerInterval.make orientedReadId ordinal0 ordinal1).ordinals.1 :=
  ⟨rfl, rfl, rfl, h⟩

theorem markerInterval_make_ordered_witness :
    (8 : Nat) ≥ 7 ∧
    (MarkerInterval.make ⟨5, 0⟩ 7 8).ordinals = (7, 8) ∧
    (MarkerInterval.make ⟨5, 0⟩ 7 8).ordinals.2 ≥ (MarkerInterval.make ⟨5, 0⟩ 7 8).ordinals.1 :=
  ⟨by decide, rfl, (markerInterval_make_ordered ⟨5, 0⟩ 7 8 (by decide)).2.2.2⟩

end Shasta

/-! ## The thresholds only choose colours -/

namespace Shasta

theorem fixed_put (t : String) : WritesFixedText (put t) := ⟨t, none, fun _ => rfl⟩

theorem fixed_raise (f : Fault) : WritesFixedText (raise f) :=
  ⟨"", some f, fun s => by rw [String.append_empty]; rfl⟩

theorem fixed_skip : WritesFixedText (fun s => (⟨s, none⟩ : Result)) :=
  ⟨"", none, fun s => by rw [String.append_empty]⟩

theorem fixed_andThen (f g : String → Result) (hf : WritesFixedText f)
    (hg : WritesFixedText g) : WritesFixedText (fun s => (f s).andThen g) := by
  obtain ⟨t1, fault1, h1⟩ := hf
  obtain ⟨t2, fault2, h2⟩ := hg
  cases fault1 with
  | none =>
    refine ⟨t1 ++ t2, fault2, fun s => ?_⟩
    simp only [h1 s, Result.andThen, h2, String.append_assoc]
  | some fault =>
    refine ⟨t1, some fault, fun s => ?_⟩
    simp only [h1 s, Result.andThen]

theorem fixed_forEach {α : Type} (body : α → String → Result)
    (hbody : ∀ x, WritesFixedText (body x)) (xs : List α) :
    WritesFixedText (forEach body xs) := by
  induction xs with
  | nil => exact fixed_skip
  | cons x rest ih => exact fixed_andThen (body x) (forEach body rest) (hbody x) ih

theorem fixed_writeMarkerRow (w : Writer) (markerInfo : MarkerInfo) :
    WritesFixedText (writeMarkerRow w markerInfo) := by
  have hdef : writeMarkerRow w markerInfo = fun s =>
      (put (markerRowHead w markerInfo) s).andThen fun s =>
      (writeMarkerRepeatCounts w.graph.k (w.graph.getRepeatCounts markerInfo) s).andThen fun s =>
      put ("</b></td>" ++ "</tr>") s := rfl
  rw [hdef]
  refine fixed_andThen (put _) _ (fixed_put _) ?_
  refine fixed_andThen (writeMarkerRepeatCounts _ _) _ ?_ (fixed_put _)
  refine fixed_forEach _ (fun i => ?_) _
  cases h : (w.graph.getRepeatCounts markerInfo)[i]? with
  | none => simpa only [h] using fixed_raise Fault.outOfRange
  | some c => simpa only [h] using fixed_put (repeatCountText c)

theorem fixed_writeVertexCoverageCells (w : Writer) (vertex : LocalMarkerGraphVertex)
    (repeatCountAt : Nat → Nat) :
    WritesFixedText (writeVertexCoverageCells w vertex repeatCountAt) := by
  refine fixed_forEach _ (fun i => ?_) _
  cases h : vertex.coverages[i]? with
  | none => simpa only [h] using fixed_raise Fault.outOfRange
  | some c => simpa only [h] using fixed_put _

theorem fixed_writeVertexRepeatCountRows (w : Writer) (vertex : LocalMarkerGraphVertex) :
    WritesFixedText (writeVertexRepeatCountRows w vertex) := by
  refine fixed_forEach _ (fun repeatCount => ?_) _
  refine fixed_andThen (put _) _ (fixed_put _) ?_
  exact fixed_andThen (writeVertexCoverageCells _ _ _) _
    (fixed_writeVertexCoverageCells _ _ _) (fixed_put _)

theorem vertexConsensusLoop_withThresholds (w : Writer) (minCoverage : Nat)
    (maxDistance : Int) (vertex : LocalMarkerGraphVertex) (positions : List Nat)
    (acc : List Consensus) :
    vertexConsensusLoop (w.withThresholds minCoverage maxDistance) vertex positions acc
      = vertexConsensusLoop w vertex positions acc := by
  induction positions generalizing acc with
  | nil => rfl
  | cons p rest ih =>
    unfold vertexConsensusLoop
    cases vertex.coverages[p]? with
    | none => rfl
    | some coverage =>
      simp only []
      rw [ih]
      rfl

theorem vertexConsensus_withThresholds (w : Writer) (minCoverage : Nat)
    (maxDistance : Int) (vertex : LocalMarkerGraphVertex) :
    vertexConsensus (w.withThresholds minCoverage maxDistance) vertex
      = vertexConsensus w vertex :=
  vertexConsensusLoop_withThresholds w minCoverage maxDistance vertex _ _

/-- The detailed vertex writer writes its head and then a text and an outcome
that do not depend on the thresholds. -/
theorem writeVertexDetailed_fixed (w : Writer) (vertex : LocalMarkerGraphVertex) :
    ∃ text fault, ∀ (minCoverage : Nat) (maxDistance : Int) (s : String),
      writeVertexDetailed (w.withThresholds minCoverage maxDistance) vertex s =
        ⟨s ++ vertexDetailedHead (w.withThresholds minCoverage maxDistance) vertex ++ text,
          fault⟩ := by
  have htail : WritesFixedText (fun s =>
      (forEach (writeMarkerRow w) vertex.markerInfos s).andThen fun s =>
      match vertexConsensus w vertex with
      | Except.error f => raise f s
      | Except.ok consensus =>
        (put ("<tr><td colspan=\"3\" align=\"left\"><b>Repeat consensus</b></td>"
          ++ "<td><b>"
          ++ repeatConsensusCell w.graph.k consensus
          ++ "</b></td></tr>") s).andThen fun s =>
        (writeVertexRepeatCountRows w vertex s).andThen fun s =>
        (put ("<tr><td colspan=\"3\" align=\"left\"><b>Coverage for repeat consensus</b></td>"
          ++ "<td><b>") s).andThen fun s =>
        (writeVertexCoverageCells w vertex
          (fun position => (consensusAt consensus position).repeatCount) s).andThen fun s =>
        put ("</b></td></tr>"
          ++ "<tr><td colspan=\"3\" align=\"left\"><b>Raw consensus</b></td>"
          ++ "<td align=\"left\"><b>"
          ++ rawConsensusCell w.graph.k (w.graph.getKmer vertex) consensus
          ++ "</b></td></tr>"
          ++ "</table></font>>"
          ++ "]") s) := by
    refine fixed_andThen _ _ (fixed_forEach _ (fixed_writeMarkerRow w) _) ?_
    cases vertexConsensus w vertex with
    | error f => exact fixed_raise f
    | ok consensus =>
      refine fixed_andThen (put _) _ (fixed_put _) ?_
      refine fixed_andThen _ _ (fixed_writeVertexRepeatCountRows w vertex) ?_
      refine fixed_andThen (put _) _ (fixed_put _) ?_
      exact fixed_andThen _ _ (fixed_writeVertexCoverageCells w vertex _) (fixed_put _)
  obtain ⟨text, fault, h⟩ := htail
  refine ⟨text, fault, fun minCoverage maxDistance s => ?_⟩
  unfold writeVertexDetailed
  rw [vertexConsensus_withThresholds]
  exact h (s ++ vertexDetailedHead (w.withThresholds minCoverage maxDistance) vertex)

end Shasta

namespace Shasta

theorem fixed_writeAlignmentRepeatCounts (repeatCounts : List Nat)
    (alignmentRow : List AlignedBase) (position : Nat) :
    WritesFixedText (writeAlignmentRepeatCounts repeatCounts alignmentRow position) := by
  induction alignmentRow generalizing position with
  | nil => exact fixed_skip
  | cons base rest ih =>
    by_cases hgap : base.isGap = true
    · have hdef : writeAlignmentRepeatCounts repeatCounts (base :: rest) position = fun s =>
          (put "-" s).andThen (writeAlignmentRepeatCounts repeatCounts rest position) := by
        funext s
        simp [writeAlignmentRepeatCounts, hgap]
      rw [hdef]
      exact fixed_andThen (put _) _ (fixed_put _) (ih position)
    · cases hcount : repeatCounts[position]? with
      | none =>
        have hdef : writeAlignmentRepeatCounts repeatCounts (base :: rest) position
            = raise Fault.outOfRange := by
          funext s
          simp [writeAlignmentRepeatCounts, hgap, hcount]
        rw [hdef]
        exact fixed_raise _
      | some repeatCount =>
        have hdef : writeAlignmentRepeatCounts repeatCounts (base :: rest) position = fun s =>
            (put (repeatCountText repeatCount) s).andThen
              (writeAlignmentRepeatCounts repeatCounts rest (position + 1)) := by
          funext s
          simp [writeAlignmentRepeatCounts, hgap, hcount]
        rw [hdef]
        exact fixed_andThen (put _) _ (fixed_put _) (ih (position + 1))

theorem fixed_writeAlignmentRow (w : Writer) (edge : LocalMarkerGraphEdge) (i : Nat) :
    WritesFixedText (writeAlignmentRow w edge i) := by
  cases hinfo : edge.alignmentInfos[i]? with
  | none =>
    have hdef : writeAlignmentRow w edge i = raise Fault.outOfRange := by
      funext s
      simp [writeAlignmentRow, hinfo]
    rw [hdef]
    exact fixed_raise _
  | some alignmentInfo =>
    cases hrow : edge.seqanAlignment[i]? with
    | none =>
      have hdef : writeAlignmentRow w edge i = fun s =>
          (put ("<tr>" ++ edgeLinkCells w alignmentInfo.orientedReadId alignmentInfo.ordinals)
            s).andThen (raise Fault.outOfRange) := by
        funext s
        simp [writeAlignmentRow, hinfo, hrow]
      rw [hdef]
      exact fixed_andThen (put _) _ (fixed_put _) (fixed_raise _)
    | some alignmentRow =>
      have hdef : writeAlignmentRow w edge i = fun s =>
          (put ("<tr>" ++ edgeLinkCells w alignmentInfo.orientedReadId alignmentInfo.ordinals)
            s).andThen fun s =>
          (put ("<td><b>" ++ alignmentRowText alignmentRow ++ "</b></td>"
            ++ "<td><b>") s).andThen fun s =>
          (writeAlignmentRepeatCounts alignmentInfo.repeatCounts alignmentRow 0 s).andThen
          fun s => put ("</b></td>" ++ "</tr>") s := by
        funext s
        simp [writeAlignmentRow, hinfo, hrow]
      rw [hdef]
      refine fixed_andThen (put _) _ (fixed_put _) ?_
      refine fixed_andThen (put _) _ (fixed_put _) ?_
      exact fixed_andThen _ _ (fixed_writeAlignmentRepeatCounts _ _ _) (fixed_put _)

theorem fixed_writeEdgeAlignment (w : Writer) (edge : LocalMarkerGraphEdge) :
    WritesFixedText (writeEdgeAlignment w edge) := by
  by_cases hcomputed : edge.seqanAlignmentWasComputed = true
  · have hdef : writeEdgeAlignment w edge = fun s =>
        (put ("<tr><td colspan=\"" ++ toString (5 : Nat)
          ++ "\"><b>SeqAn alignment</b></td></tr>") s).andThen fun s =>
        (forRange edge.alignmentInfos.length (writeAlignmentRow w edge) s).andThen fun s =>
        put (edgeConsensusRowsText w edge (edgeConsensus w edge)) s := by
      funext s
      simp [writeEdgeAlignment, hcomputed]
    rw [hdef]
    refine fixed_andThen (put _) _ (fixed_put _) ?_
    exact fixed_andThen _ _ (fixed_forEach _ (fixed_writeAlignmentRow w edge) _) (fixed_put _)
  · have hdef : writeEdgeAlignment w edge = fun s => (⟨s, none⟩ : Result) := by
      funext s
      simp [writeEdgeAlignment, hcomputed]
    rw [hdef]
    exact fixed_skip

theorem intervalRowsText_withThresholds (w : Writer) (minCoverage : Nat) (maxDistance : Int)
    (text : String) (isFirst : Bool) (infos : List MarkerIntervalWithRepeatCounts) :
    intervalRowsText (w.withThresholds minCoverage maxDistance) text isFirst infos
      = intervalRowsText w text isFirst infos := by
  induction infos generalizing isFirst with
  | nil => rfl
  | cons info rest ih =>
    simp only [intervalRowsText]
    rw [ih]
    rfl

theorem writeAlignmentRow_withThresholds (w : Writer) (minCoverage : Nat)
    (maxDistance : Int) (edge : LocalMarkerGraphEdge) :
    writeAlignmentRow (w.withThresholds minCoverage maxDistance) edge
      = writeAlignmentRow w edge := rfl

theorem edgeConsensus_withThresholds (w : Writer) (minCoverage : Nat)
    (maxDistance : Int) (edge : LocalMarkerGraphEdge) :
    edgeConsensus (w.withThresholds minCoverage maxDistance) edge
      = edgeConsensus w edge := rfl

theorem edgeConsensusRowsText_withThresholds (w : Writer) (minCoverage : Nat)
    (maxDistance : Int) (edge : LocalMarkerGraphEdge) (consensus : List Consensus) :
    edgeConsensusRowsText (w.withThresholds minCoverage maxDistance) edge consensus
      = edgeConsensusRowsText w edge consensus := rfl

theorem writeEdgeAlignment_withThresholds (w : Writer) (minCoverage : Nat)
    (maxDistance : Int) (edge : LocalMarkerGraphEdge) (s : String) :
    writeEdgeAlignment (w.withThresholds minCoverage maxDistance) edge s
      = writeEdgeAlignment w edge s := by
  unfold writeEdgeAlignment
  rw [writeAlignmentRow_withThresholds, edgeConsensus_withThresholds,
    edgeConsensusRowsText_withThresholds]

/-- The detailed edge writer writes its head and then a text and an outcome
that do not depend on the thresholds. -/
theorem writeEdgeDetailed_fixed (w : Writer) (edge : LocalMarkerGraphEdge) :
    ∃ text fault, ∀ (minCoverage : Nat) (maxDistance : Int) (s : String),
      writeEdgeDetailed (w.withThresholds minCoverage maxDistance) edge s =
        ⟨s ++ edgeDetailedHead (w.withThresholds minCoverage maxDistance) edge ++ text,
          fault⟩ := by
  have htail : WritesFixedText (fun s =>
      (put (concatEach edge.infos (variantRowsText w)) s).andThen fun s =>
      (writeEdgeAlignment w edge s).andThen fun s =>
      put ("</table></font>> decorate=true" ++ "]") s) := by
    refine fixed_andThen (put _) _ (fixed_put _) ?_
    exact fixed_andThen _ _ (fixed_writeEdgeAlignment w edge) (fixed_put _)
  obtain ⟨text, fault, h⟩ := htail
  refine ⟨text, fault, fun minCoverage maxDistance s => ?_⟩
  have hrows : concatEach edge.infos (variantRowsText (w.withThresholds minCoverage maxDistance))
      = concatEach edge.infos (variantRowsText w) :=
    concatEach_congr _ _ _ (fun p _ => intervalRowsText_withThresholds w _ _ _ _ _)
  unfold writeEdgeDetailed
  rw [andThen_put, hrows]
  simp only [writeEdgeAlignment_withThresholds]
  exact h (s ++ edgeDetailedHead (w.withThresholds minCoverage maxDistance) edge)

end Shasta

namespace Shasta

theorem result_ext (a b : Result) (hout : a.out = b.out) (hfault : a.fault = b.fault) :
    a = b := by
  cases a; cases b; simp only at hout hfault; rw [hout, hfault]

/-- C17. The thresholds minCoverage and maxDistance influence colouring only.
For a vertex and an edge, in either mode and for either value of showVertexId,
whether the render fails does not depend on the thresholds; the text written is
fixed apart from the colour written as fillcolor and color (and, for a
detailed edge, the label bgcolor derived from it); so two settings that select
the same colour give identical renders. -/
theorem thresholds_affect_colour_only (w : Writer) (vertex : LocalMarkerGraphVertex)
    (edge : LocalMarkerGraphEdge) (s : String) :
    (∃ (fault : Option Fault) (before after : String),
      ∀ (minCoverage : Nat) (maxDistance : Int),
        (writeVertex (w.withThresholds minCoverage maxDistance) vertex s).fault = fault ∧
        (vertex.markerInfos.length = 0 →
          (writeVertex (w.withThresholds minCoverage maxDistance) vertex s).out = s) ∧
        (vertex.markerInfos.length ≥ 1 → w.detailed = false →
          (writeVertex (w.withThresholds minCoverage maxDistance) vertex s).out =
            s ++ (before
              ++ " fillcolor=\""
              ++ vertexColor (w.withThresholds minCoverage maxDistance) "black" vertex
              ++ "\" color=\""
              ++ vertexColor (w.withThresholds minCoverage maxDistance) "black" vertex
              ++ "\"" ++ after)) ∧
        (vertex.markerInfos.length ≥ 1 → w.detailed = true →
          (writeVertex (w.withThresholds minCoverage maxDistance) vertex s).out =
            s ++ ("[" ++ " style=filled"
              ++ " fillcolor=\""
              ++ vertexColor (w.withThresholds minCoverage maxDistance) "green" vertex
              ++ "\"" ++ after))) ∧
    (∃ (fault : Option Fault) (before between after : String),
      ∀ (minCoverage : Nat) (maxDistance : Int),
        (writeEdge (w.withThresholds minCoverage maxDistance) edge s).fault = fault ∧
        (edge.coverage = 0 →
          (writeEdge (w.withThresholds minCoverage maxDistance) edge s).out = s) ∧
        (edge.coverage ≥ 1 → w.detailed = false →
          (writeEdge (w.withThresholds minCoverage maxDistance) edge s).out =
            s ++ (before
              ++ " fillcolor=\""
              ++ edgeColor (w.withThresholds minCoverage maxDistance) edge ++ "\""
              ++ " color=\""
              ++ edgeColor (w.withThresholds minCoverage maxDistance) edge ++ "\""
              ++ after)) ∧
        (edge.coverage ≥ 1 → w.detailed = true →
          (writeEdge (w.withThresholds minCoverage maxDistance) edge s).out =
            s ++ (before
              ++ " fillcolor=\""
              ++ edgeColor (w.withThresholds minCoverage maxDistance) edge ++ "\""
              ++ " color=\""
              ++ edgeColor (w.withThresholds minCoverage maxDistance) edge ++ "\""
              ++ between
              ++ " bgcolor=\""
              ++ edgeLabelColor (edgeColor (w.withThresholds minCoverage maxDistance) edge)
              ++ "\"" ++ after))) ∧
    (∀ (minCoverage minCoverage2 : Nat) (maxDistance maxDistance2 : Int),
      vertexColor (w.withThresholds minCoverage maxDistance)
          (if w.detailed = true then "green" else "black") vertex
        = vertexColor (w.withThresholds minCoverage2 maxDistance2)
          (if w.detailed = true then "green" else "black") vertex →
      writeVertex (w.withThresholds minCoverage maxDistance) vertex s
        = writeVertex (w.withThresholds minCoverage2 maxDistance2) vertex s) ∧
    (∀ (minCoverage minCoverage2 : Nat) (maxDistance maxDistance2 : Int),
      edgeColor (w.withThresholds minCoverage maxDistance) edge
        = edgeColor (w.withThresholds minCoverage2 maxDistance2) edge →
      writeEdge (w.withThresholds minCoverage maxDistance) edge s
        = writeEdge (w.withThresholds minCoverage2 maxDistance2) edge s) := by
  -- the vertex writer
  have hvertex : ∃ (fault : Option Fault) (before after : String),
      ∀ (minCoverage : Nat) (maxDistance : Int),
        (writeVertex (w.withThresholds minCoverage maxDistance) vertex s).fault = fault ∧
        (vertex.markerInfos.length = 0 →
          (writeVertex (w.withThresholds minCoverage maxDistance) vertex s).out = s) ∧
        (vertex.markerInfos.length ≥ 1 → w.detailed = false →
          (writeVertex (w.withThresholds minCoverage maxDistance) vertex s).out =
            s ++ (before
              ++ " fillcolor=\""
              ++ vertexColor (w.withThresholds minCoverage maxDistance) "black" vertex
              ++ "\" color=\""
              ++ vertexColor (w.withThresholds minCoverage maxDistance) "black" vertex
              ++ "\"" ++ after)) ∧
        (vertex.markerInfos.length ≥ 1 → w.detailed = true →
          (writeVertex (w.withThresholds minCoverage maxDistance) vertex s).out =
            s ++ ("[" ++ " style=filled"
              ++ " fillcolor=\""
              ++ vertexColor (w.withThresholds minCoverage maxDistance) "green" vertex
              ++ "\"" ++ after)) := by
    by_cases hpos : vertex.markerInfos.length > 0
    · have hne : vertex.markerInfos.length ≠ 0 := Nat.pos_iff_ne_zero.mp hpos
      by_cases hmode : w.detailed = true
      · obtain ⟨text, fault, h⟩ := writeVertexDetailed_fixed w vertex
        have hw : ∀ minCoverage maxDistance,
            writeVertex (w.withThresholds minCoverage maxDistance) vertex s
              = ⟨s ++ vertexDetailedHead (w.withThresholds minCoverage maxDistance) vertex
                  ++ text, fault⟩ := by
          intro minCoverage maxDistance
          rw [← h minCoverage maxDistance s]
          have hmode2 : (w.withThresholds minCoverage maxDistance).detailed = true := hmode
          simp [writeVertex, hpos, hmode2]
        refine ⟨fault, "",
          " id=vertex" ++ toString vertex.vertexId
            ++ " tooltip=\""
            ++ vertexTooltipStart w vertex
            ++ toString vertex.markerInfos.length ++ ", distance " ++ toString vertex.distance
            ++ ", rank " ++ toString vertex.rank ++ "\""
            ++ " label=<<font><table border=\"0\">"
            ++ (if w.showVertexId then
                  "<tr><td colspan=\"" ++ toString (4 : Nat) ++ "\"><b>"
                    ++ "Vertex " ++ toString vertex.vertexId
                    ++ "</b></td></tr>"
                else "")
            ++ "<tr><td colspan=\"" ++ toString (4 : Nat) ++ "\"><b>"
            ++ kmerText (w.graph.getKmer vertex) w.graph.k
            ++ "</b></td></tr>"
            ++ "<tr><td colspan=\"" ++ toString (4 : Nat) ++ "\"><b>"
            ++ "Coverage " ++ toString vertex.markerInfos.length
            ++ "</b></td></tr>"
            ++ "<tr><td colspan=\"" ++ toString (4 : Nat) ++ "\" "
            ++ " href=\"\""
            ++ " id=\"vertexDistance" ++ toString vertex.vertexId
            ++ "\" tooltip=\"Click to recenter graph here\">"
            ++ "<font color=\"blue\"><b><u>Distance " ++ toString vertex.distance
            ++ "</u></b></font></td></tr>"
            ++ "<tr><td colspan=\"" ++ toString (4 : Nat) ++ "\">"
            ++ "<b>Rank " ++ toString vertex.rank
            ++ "</b></td></tr>"
            ++ "<tr><td><b>Read</b></td><td><b>Ord</b></td><td><b>Pos</b></td>"
            ++ "<td><b>Repeat</b></td>"
            ++ "</tr>"
            ++ text, fun minCoverage maxDistance => ?_⟩
        rw [hw]
        refine ⟨rfl, fun h0 => absurd h0 hne, fun _ hm => ?_, fun _ _ => ?_⟩
        · rw [hmode] at hm; cases hm
        · simp only [vertexDetailedHead, Writer.withThresholds, vertexTooltipStart,
            String.append_assoc]
      · have hmode2 : w.detailed = false := by
          cases hd : w.detailed
          · rfl
          · exact absurd hd hmode
        refine ⟨none,
          "[" ++ "id=vertex" ++ toString vertex.vertexId
            ++ " tooltip=\"" ++ vertexTooltipStart w vertex
            ++ toString vertex.markerInfos.length ++ ", distance " ++ toString vertex.distance
            ++ ", rank " ++ toString vertex.rank
            ++ ", click to recenter graph here, right click for detail\""
            ++ " width=\"" ++ w.floats.vertexWidth vertex.markerInfos.length ++ "\"",
          "]", fun minCoverage maxDistance => ?_⟩
        have hw : writeVertex (w.withThresholds minCoverage maxDistance) vertex s
            = writeVertexCompact (w.withThresholds minCoverage maxDistance) vertex s := by
          have hm : (w.withThresholds minCoverage maxDistance).detailed = false := hmode2
          simp [writeVertex, hpos, hm]
        rw [hw]
        refine ⟨rfl, fun h0 => absurd h0 hne, fun _ _ => ?_, fun _ hm => ?_⟩
        · simp only [writeVertexCompact, put, Writer.withThresholds, vertexTooltipStart,
            String.append_assoc]
        · rw [hmode2] at hm; cases hm
    · have hzero : vertex.markerInfos.length = 0 := Nat.eq_zero_of_not_pos hpos
      refine ⟨some Fault.assertion, "", "", fun minCoverage maxDistance => ?_⟩
      have hw : writeVertex (w.withThresholds minCoverage maxDistance) vertex s
          = ⟨s, some Fault.assertion⟩ := by
        simp [writeVertex, hzero, raise]
      rw [hw]
      exact ⟨rfl, fun _ => rfl, fun h1 => absurd hzero (by omega),
        fun h1 => absurd hzero (by omega)⟩
  -- the edge writer
  have hedge : ∃ (fault : Option Fault) (before between after : String),
      ∀ (minCoverage : Nat) (maxDistance : Int),
        (writeEdge (w.withThresholds minCoverage maxDistance) edge s).fault = fault ∧
        (edge.coverage = 0 →
          (writeEdge (w.withThresholds minCoverage maxDistance) edge s).out = s) ∧
        (edge.coverage ≥ 1 → w.detailed = false →
          (writeEdge (w.withThresholds minCoverage maxDistance) edge s).out =
            s ++ (before
              ++ " fillcolor=\""
              ++ edgeColor (w.withThresholds minCoverage maxDistance) edge ++ "\""
              ++ " color=\""
              ++ edgeColor (w.withThresholds minCoverage maxDistance) edge ++ "\""
              ++ after)) ∧
        (edge.coverage ≥ 1 → w.detailed = true →
          (writeEdge (w.withThresholds minCoverage maxDistance) edge s).out =
            s ++ (before
              ++ " fillcolor=\""
              ++ edgeColor (w.withThresholds minCoverage maxDistance) edge ++ "\""
              ++ " color=\""
              ++ edgeColor (w.withThresholds minCoverage maxDistance) edge ++ "\""
              ++ between
              ++ " bgcolor=\""
              ++ edgeLabelColor (edgeColor (w.withThresholds minCoverage maxDistance) edge)
              ++ "\"" ++ after)) := by
    by_cases hpos : edge.coverage > 0
    · have hne : edge.coverage ≠ 0 := Nat.pos_iff_ne_zero.mp hpos
      by_cases hmode : w.detailed = true
      · obtain ⟨text, fault, h⟩ := writeEdgeDetailed_fixed w edge
        have hw : ∀ minCoverage maxDistance,
            writeEdge (w.withThresholds minCoverage maxDistance) edge s
              = ⟨s ++ edgeDetailedHead (w.withThresholds minCoverage maxDistance) edge
                  ++ text, fault⟩ := by
          intro minCoverage maxDistance
          rw [← h minCoverage maxDistance s]
          have hmode2 : (w.withThresholds minCoverage maxDistance).detailed = true := hmode
          simp [writeEdge, hpos, hmode2]
        refine ⟨fault,
          "["
            ++ " tooltip=\"" ++ ("Coverage " ++ toString edge.coverage
              ++ ", consensus " ++ toString edge.consensus) ++ "\""
            ++ " labeltooltip=\"" ++ ("Coverage " ++ toString edge.coverage
              ++ ", consensus " ++ toString edge.consensus) ++ "\""
            ++ " penwidth="
            ++ w.floats.ofThickness (edgeThickness detailedThicknessScale edge.coverage)
            ++ edgeStyleText edge,
          " weight=" ++ toString edge.coverage
            ++ (if !edge.isDagEdge then " constraint=false" else "")
            ++ " label=<<font color=\"black\">"
            ++ "<table"
            ++ " color=\"black\"",
          " border=\"0\""
            ++ " cellborder=\"1\""
            ++ " cellspacing=\"1\""
            ++ ">"
            ++ (if w.showVertexId && (edge.edgeId != w.graph.invalidEdgeId) then
                  "<tr><td colspan=\"" ++ toString (5 : Nat) ++ "\"><b>Edge "
                    ++ toString edge.edgeId ++ "</b></td></tr>"
                else "")
            ++ (if w.showVertexId && (edge.assemblyEdgeId != w.graph.invalidAssemblyEdgeId) then
                  "<tr><td colspan=\"" ++ toString (5 : Nat) ++ "\"><b>Position "
                    ++ toString edge.positionInAssemblyEdge
                    ++ " in assembly graph edge " ++ toString edge.assemblyEdgeId
                    ++ "</b></td></tr>"
                else "")
            ++ "<tr><td colspan=\"" ++ toString (5 : Nat) ++ "\"><b>Coverage "
            ++ toString edge.coverage ++ "</b></td></tr>"
            ++ "<tr><td colspan=\"" ++ toString (5 : Nat) ++ "\"><b>Consensus "
            ++ toString edge.consensus ++ "</b></td></tr>"
            ++ "<tr>"
            ++ "<td align=\"center\"><b>Read</b></td>"
            ++ "<td align=\"center\"><b>Ord0</b></td>"
            ++ "<td align=\"center\"><b>Ord1</b></td>"
            ++ "<td align=\"center\"><b>Seq</b></td>"
            ++ "<td align=\"center\"><b>Repeat</b></td>"
            ++ "</tr>"
            ++ text, fun minCoverage maxDistance => ?_⟩
        rw [hw]
        refine ⟨rfl, fun h0 => absurd h0 hne, fun _ hm => ?_, fun _ _ => ?_⟩
        · rw [hmode] at hm; cases hm
        · simp only [edgeDetailedHead, Writer.withThresholds, String.append_assoc]
      · have hmode2 : w.detailed = false := by
          cases hd : w.detailed
          · rfl
          · exact absurd hd hmode
        refine ⟨none,
          "[" ++ "tooltip=\"Coverage " ++ toString edge.coverage
            ++ ", consensus " ++ toString edge.consensus ++ "\"",
          "",
          " penwidth="
            ++ w.floats.ofThickness (edgeThickness compactThicknessScale edge.coverage)
            ++ edgeStyleText edge
            ++ " weight=" ++ toString edge.coverage
            ++ "]", fun minCoverage maxDistance => ?_⟩
        have hw : writeEdge (w.withThresholds minCoverage maxDistance) edge s
            = writeEdgeCompact (w.withThresholds minCoverage maxDistance) edge s := by
          have hm : (w.withThresholds minCoverage maxDistance).detailed = false := hmode2
          simp [writeEdge, hpos, hm]
        rw [hw]
        refine ⟨rfl, fun h0 => absurd h0 hne, fun _ _ => ?_, fun _ hm => ?_⟩
        · simp only [writeEdgeCompact, put, Writer.withThresholds, String.append_assoc]
        · rw [hmode2] at hm; cases hm
    · have hzero : edge.coverage = 0 := Nat.eq_zero_of_not_pos hpos
      refine ⟨some Fault.assertion, "", "", "", fun minCoverage maxDistance => ?_⟩
      have hw : writeEdge (w.withThresholds minCoverage maxDistance) edge s
          = ⟨s, some Fault.assertion⟩ := by
        simp [writeEdge, hzero, raise]
      rw [hw]
      exact ⟨rfl, fun _ => rfl, fun h1 => absurd hzero (by omega),
        fun h1 => absurd hzero (by omega)⟩
  refine ⟨hvertex, hedge, ?_, ?_⟩
  · intro minCoverage minCoverage2 maxDistance maxDistance2 hcolour
    obtain ⟨fault, before, after, h⟩ := hvertex
    obtain ⟨hf1, hz1, hc1, hd1⟩ := h minCoverage maxDistance
    obtain ⟨hf2, hz2, hc2, hd2⟩ := h minCoverage2 maxDistance2
    apply result_ext _ _ _ (hf1.trans hf2.symm)
    by_cases hpos : vertex.markerInfos.length ≥ 1
    · by_cases hmode : w.detailed = true
      · rw [hd1 hpos hmode, hd2 hpos hmode]
        rw [if_pos hmode] at hcolour
        rw [hcolour]
      · have hmode2 : w.detailed = false := by
          cases hd : w.detailed
          · rfl
          · exact absurd hd hmode
        rw [hc1 hpos hmode2, hc2 hpos hmode2]
        rw [if_neg hmode] at hcolour
        rw [hcolour]
    · have hzero : vertex.markerInfos.length = 0 := by omega
      rw [hz1 hzero, hz2 hzero]
  · intro minCoverage minCoverage2 maxDistance maxDistance2 hcolour
    obtain ⟨fault, before, between, after, h⟩ := hedge
    obtain ⟨hf1, hz1, hc1, hd1⟩ := h minCoverage maxDistance
    obtain ⟨hf2, hz2, hc2, hd2⟩ := h minCoverage2 maxDistance2
    apply result_ext _ _ _ (hf1.trans hf2.symm)
    by_cases hpos : edge.coverage ≥ 1
    · by_cases hmode : w.detailed = true
      · rw [hd1 hpos hmode, hd2 hpos hmode, hcolour]
      · have hmode2 : w.detailed = false := by
          cases hd : w.detailed
          · rfl
          · exact absurd hd hmode
        rw [hc1 hpos hmode2, hc2 hpos hmode2, hcolour]
    · have hzero : edge.coverage = 0 := by omega
      rw [hz1 hzero, hz2 hzero]

end Shasta

/-! ## The raw consensus rows of an edge -/

namespace Shasta

theorem edgeConsensus_fold (caller : Coverage → Consensus) (coverages : List Coverage)
    (m : Nat) (acc : List Consensus) :
    ((List.range m).foldl
      (fun consensus position =>
        match coverages[position]? with
        | none => consensus
        | some coverage => consensus.set position (caller coverage)) acc).length = acc.length ∧
    ∀ j, ((List.range m).foldl
      (fun consensus position =>
        match coverages[position]? with
        | none => consensus
        | some coverage => consensus.set position (caller coverage)) acc)[j]? =
      if j < m ∧ j < acc.length ∧ j < coverages.length then
        (coverages[j]?).map caller
      else acc[j]? := by
  induction m with
  | zero => simp
  | succ m ih =>
    obtain ⟨hlen, hget⟩ := ih
    rw [List.range_succ, List.foldl_append]
    simp only [List.foldl_cons, List.foldl_nil]
    cases hcov : coverages[m]? with
    | none =>
      have hge : coverages.length ≤ m := by
        by_contra hlt
        rw [List.getElem?_eq_getElem (Nat.lt_of_not_le hlt)] at hcov
        cases hcov
      refine ⟨hlen, fun j => ?_⟩
      simp only []
      rw [hget j]
      by_cases h1 : j < m ∧ j < acc.length ∧ j < coverages.length
      · rw [if_pos h1, if_pos ⟨by omega, h1.2.1, h1.2.2⟩]
      · rw [if_neg h1, if_neg (by omega)]
    | some coverage =>
      have hlt : m < coverages.length := by
        by_contra hge
        rw [List.getElem?_eq_none (Nat.le_of_not_lt hge)] at hcov
        cases hcov
      simp only []
      refine ⟨by rw [List.length_set, hlen], fun j => ?_⟩
      rw [List.getElem?_set, hlen]
      by_cases hmj : m = j
      · subst hmj
        rw [if_pos rfl]
        by_cases hacc : m < acc.length
        · rw [if_pos hacc, if_pos ⟨by omega, hacc, hlt⟩, hcov]
          rfl
        · rw [if_neg hacc, if_neg (by omega)]
          exact (List.getElem?_eq_none (Nat.le_of_not_lt hacc)).symm
      · rw [if_neg hmj, hget j]
        by_cases h1 : j < m ∧ j < acc.length ∧ j < coverages.length
        · rw [if_pos h1, if_pos ⟨by omega, h1.2.1, h1.2.2⟩]
        · rw [if_neg h1, if_neg (by omega)]

/-- The consensus of an edge is the consensus caller's answer for each column,
in order. -/
theorem edgeConsensus_eq_map (w : Writer) (edge : LocalMarkerGraphEdge) :
    edgeConsensus w edge = edge.coverages.map w.graph.consensusCaller := by
  apply List.ext_getElem?
  intro j
  have hfold := (edgeConsensus_fold w.graph.consensusCaller edge.coverages
    edge.coverages.length (List.replicate edge.coverages.length default)).2 j
  rw [List.getElem?_map]
  refine Eq.trans hfold ?_
  by_cases hj : j < edge.coverages.length
  · rw [if_pos ⟨hj, by simpa using hj, hj⟩]
  · rw [if_neg (fun h => hj h.1), List.getElem?_eq_none (by simpa using Nat.le_of_not_lt hj),
      List.getElem?_eq_none (Nat.le_of_not_lt hj)]
    rfl

/-- A loop over the indices of a list whose body depends on the element only is
the loop over the elements. -/
theorem concatRange_index {α : Type} (xs : List α) (F : Nat → String) (G : α → String)
    (h : ∀ i x, xs[i]? = some x → F i = G x) :
    concatRange xs.length F = concatEach xs G := by
  induction xs using List.reverseRecOn with
  | nil => rfl
  | append_singleton ys y ih =>
    rw [List.length_append, List.length_singleton, concatRange_succ, concatEach_append,
      concatEach_cons, concatEach_nil, String.append_empty]
    have hy : F ys.length = G y := h ys.length y (by simp)
    rw [hy, ih (fun i x hix => h i x (by
      have hlt : i < ys.length := (List.getElem?_eq_some.mp hix).1
      rw [List.getElem?_append_left hlt]
      exact hix))]

end Shasta

namespace Shasta

theorem writeEdge_ok_detailed (w : Writer) (edge : LocalMarkerGraphEdge) (s : String)
    (hmode : w.detailed = true) (hok : (writeEdge w edge s).fault = none) :
    writeEdge w edge s = writeEdgeDetailed w edge s := by
  have hpos : edge.coverage > 0 := writeEdge_ok_coverage w edge s hok
  simp [writeEdge, hpos, hmode]

/-- A successful alignment part of a detailed edge: the header row, the rows of
the aligned reads and the consensus rows. -/
theorem writeEdgeAlignment_success (w : Writer) (edge : LocalMarkerGraphEdge) (s : String)
    (hcomputed : edge.seqanAlignmentWasComputed = true)
    (h : (writeEdgeAlignment w edge s).fault = none) :
    ∃ alignmentRows, (writeEdgeAlignment w edge s).out =
      s ++ ("<tr><td colspan=\"" ++ toString (5 : Nat)
          ++ "\"><b>SeqAn alignment</b></td></tr>")
        ++ alignmentRows
        ++ edgeConsensusRowsText w edge (edgeConsensus w edge) := by
  unfold writeEdgeAlignment at h ⊢
  simp only [hcomputed, if_true] at h ⊢
  rw [andThen_put] at h ⊢
  obtain ⟨_, e1⟩ := andThen_success _ _ h
  rw [e1]
  obtain ⟨t, ht⟩ := forRange_continues edge.alignmentInfos.length _
    (writeAlignmentRow_continues w edge)
    (s ++ ("<tr><td colspan=\"" ++ toString (5 : Nat)
      ++ "\"><b>SeqAn alignment</b></td></tr>"))
  exact ⟨t, by simp only [put]; rw [ht]⟩

/-- The consensus rows of an edge end with the `Consensus (raw)` row and the
`Consensus (raw) coverage` row. -/
theorem edgeConsensusRowsText_tail (w : Writer) (edge : LocalMarkerGraphEdge)
    (consensus : List Consensus) :
    ∃ before, edgeConsensusRowsText w edge consensus =
      before
        ++ "<tr><td colspan=\"3\" align=\"left\"><b>Consensus (raw)</b></td>"
        ++ "<td colspan=\"2\"><b>"
        ++ concatRange consensus.length (fun position =>
            if !(consensusAt consensus position).base.isGap then
              concatRange (consensusAt consensus position).repeatCount
                (fun _ => (consensusAt consensus position).base.character.toString)
            else "")
        ++ "</b></td>"
        ++ "</tr>"
        ++ "<tr><td colspan=\"3\" align=\"left\"><b>Consensus (raw) coverage</b></td>"
        ++ "<td colspan=\"2\"><b>"
        ++ edgeCoverageCells edge consensus (fun coverage c =>
            if !c.base.isGap then
              concatRange c.repeatCount
                (fun _ => (coverage.coverageCharacterAt c.base c.repeatCount).toString)
            else "")
        ++ "</b></td>"
        ++ "</tr>" :=
  ⟨_, rfl⟩

theorem expandColumns_cons (column : Consensus × Char) (rest : List (Consensus × Char)) :
    (expandColumns (column :: rest)).data =
      (if column.1.base.isGap then [] else List.replicate column.1.repeatCount column.2)
        ++ (expandColumns rest).data := rfl

theorem expandColumns_map {α : Type} (xs : List α) (column : α → Consensus × Char) :
    concatEach xs (fun x =>
        if !(column x).1.base.isGap then
          concatRange (column x).1.repeatCount (fun _ => (column x).2.toString)
        else "")
      = expandColumns (xs.map column) := by
  apply String.ext
  rw [concatEach_data]
  induction xs with
  | nil => rfl
  | cons x rest ih =>
    rw [List.flatMap_cons, List.map_cons, expandColumns_cons, ih]
    congr 1
    cases (column x).1.base.isGap
    · simp [concatRange_const_data]
    · simp

theorem expandColumns_length (columns : List (Consensus × Char)) :
    (expandColumns columns).length =
      (columns.map (fun column =>
        if column.1.base.isGap then 0 else column.1.repeatCount)).sum := by
  induction columns with
  | nil => rfl
  | cons column rest ih =>
    have h : (expandColumns (column :: rest)).length
        = (expandColumns (column :: rest)).data.length := rfl
    have h2 : (expandColumns rest).data.length = (expandColumns rest).length := rfl
    rw [h, expandColumns_cons, List.length_append, h2, ih, List.map_cons, List.sum_cons]
    cases column.1.base.isGap <;> simp

end Shasta

namespace Shasta

/-- C19. For a detailed edge with a computed alignment that is rendered
successfully, the table ends with the `Consensus (raw)` row, whose cell is the
concatenation over the alignment columns, in order, of the consensus base
repeated its consensus repeat count times (nothing for a gap column), and the
`Consensus (raw) coverage` row, whose cell is the same expansion with each base
replaced by the column's coverage glyph for the consensus base and repeat
count.  The two cells have the same length, the sum of the consensus repeat
counts over the columns that are not gaps. -/
theorem edge_raw_consensus_cells (w : Writer) (edge : LocalMarkerGraphEdge) (s : String)
    (hmode : w.detailed = true) (hcomputed : edge.seqanAlignmentWasComputed = true)
    (hok : (writeEdge w edge s).fault = none) :
    (∃ before, (writeEdge w edge s).out =
      s ++ before
        ++ "<tr><td colspan=\"3\" align=\"left\"><b>Consensus (raw)</b></td>"
        ++ "<td colspan=\"2\"><b>"
        ++ expandColumns (edge.coverages.map (fun coverage =>
            (w.graph.consensusCaller coverage,
              (w.graph.consensusCaller coverage).base.character)))
        ++ "</b></td>"
        ++ "</tr>"
        ++ "<tr><td colspan=\"3\" align=\"left\"><b>Consensus (raw) coverage</b></td>"
        ++ "<td colspan=\"2\"><b>"
        ++ expandColumns (edge.coverages.map (fun coverage =>
            (w.graph.consensusCaller coverage,
              coverage.coverageCharacterAt (w.graph.consensusCaller coverage).base
                (w.graph.consensusCaller coverage).repeatCount)))
        ++ "</b></td>"
        ++ "</tr>"
        ++ ("</table></font>> decorate=true" ++ "]")) ∧
    (expandColumns (edge.coverages.map (fun coverage =>
        (w.graph.consensusCaller coverage,
          (w.graph.consensusCaller coverage).base.character)))).length
      = ((edge.coverages.map w.graph.consensusCaller).map (fun c =>
          if c.base.isGap then 0 else c.repeatCount)).sum ∧
    (expandColumns (edge.coverages.map (fun coverage =>
        (w.graph.consensusCaller coverage,
          coverage.coverageCharacterAt (w.graph.consensusCaller coverage).base
            (w.graph.consensusCaller coverage).repeatCount)))).length
      = ((edge.coverages.map w.graph.consensusCaller).map (fun c =>
          if c.base.isGap then 0 else c.repeatCount)).sum := by
  refine ⟨?_, ?_, ?_⟩
  · have hdetailed := writeEdge_ok_detailed w edge s hmode hok
    rw [hdetailed] at hok ⊢
    unfold writeEdgeDetailed at hok ⊢
    rw [andThen_put, andThen_put] at hok ⊢
    obtain ⟨h1, e1⟩ := andThen_success _ _ hok
    rw [e1]
    obtain ⟨alignmentRows, hrows⟩ := writeEdgeAlignment_success w edge _ hcomputed h1
    obtain ⟨before, htail⟩ := edgeConsensusRowsText_tail w edge (edgeConsensus w edge)
    have hraw : concatRange (edgeConsensus w edge).length (fun position =>
          if !(consensusAt (edgeConsensus w edge) position).base.isGap then
            concatRange (consensusAt (edgeConsensus w edge) position).repeatCount
              (fun _ => (consensusAt (edgeConsensus w edge) position).base.character.toString)
          else "")
        = expandColumns (edge.coverages.map (fun coverage =>
            (w.graph.consensusCaller coverage,
              (w.graph.consensusCaller coverage).base.character))) := by
      rw [concatRange_index (edgeConsensus w edge) _ (fun c =>
          if !c.base.isGap then concatRange c.repeatCount (fun _ => c.base.character.toString)
          else "") (fun i c hic => by
            have hat : consensusAt (edgeConsensus w edge) i = c := by
              simp [consensusAt, List.getD_eq_getElem?_getD, hic]
            rw [hat]),
        expandColumns_map (edgeConsensus w edge) (fun c => (c, c.base.character)),
        edgeConsensus_eq_map, List.map_map]
      rfl
    have hcoverage : edgeCoverageCells edge (edgeConsensus w edge) (fun coverage c =>
          if !c.base.isGap then
            concatRange c.repeatCount
              (fun _ => (coverage.coverageCharacterAt c.base c.repeatCount).toString)
          else "")
        = expandColumns (edge.coverages.map (fun coverage =>
            (w.graph.consensusCaller coverage,
              coverage.coverageCharacterAt (w.graph.consensusCaller coverage).base
                (w.graph.consensusCaller coverage).repeatCount))) := by
      unfold edgeCoverageCells
      rw [edgeConsensus_eq_map, List.length_map,
        concatRange_index edge.coverages _ (fun coverage =>
          if !(w.graph.consensusCaller coverage).base.isGap then
            concatRange (w.graph.consensusCaller coverage).repeatCount
              (fun _ => (coverage.coverageCharacterAt (w.graph.consensusCaller coverage).base
                (w.graph.consensusCaller coverage).repeatCount).toString)
          else "") (fun i coverage hic => by
            have hat : consensusAt (edge.coverages.map w.graph.consensusCaller) i
                = w.graph.consensusCaller coverage := by
              simp [consensusAt, List.getD_eq_getElem?_getD, List.getElem?_map, hic]
            simp only [hic, hat]),
        expandColumns_map edge.coverages (fun coverage =>
          (w.graph.consensusCaller coverage,
            coverage.coverageCharacterAt (w.graph.consensusCaller coverage).base
              (w.graph.consensusCaller coverage).repeatCount))]
    rw [hraw, hcoverage] at htail
    refine ⟨edgeDetailedHead w edge ++ concatEach edge.infos (variantRowsText w)
      ++ ("<tr><td colspan=\"" ++ toString (5 : Nat)
        ++ "\"><b>SeqAn alignment</b></td></tr>")
      ++ alignmentRows ++ before, ?_⟩
    simp only [put]
    rw [hrows, htail]
    simp only [String.append_assoc]
  · rw [expandColumns_length, List.map_map, List.map_map]
    rfl
  · rw [expandColumns_length, List.map_map, List.map_map]
    rfl

theorem edge_raw_consensus_cells_witness :
    (sampleWriter true).detailed = true ∧ alignedEdge.seqanAlignmentWasComputed = true ∧
    (writeEdge (sampleWriter true) alignedEdge "").fault = none ∧
    ∃ before, (writeEdge (sampleWriter true) alignedEdge "").out =
      "" ++ before
        ++ "<tr><td colspan=\"3\" align=\"left\"><b>Consensus (raw)</b></td>"
        ++ "<td colspan=\"2\"><b>"
        ++ "AACCC"
        ++ "</b></td>"
        ++ "</tr>"
        ++ "<tr><td colspan=\"3\" align=\"left\"><b>Consensus (raw) coverage</b></td>"
        ++ "<td colspan=\"2\"><b>"
        ++ "11111"
        ++ "</b></td>"
        ++ "</tr>"
        ++ ("</table></font>> decorate=true" ++ "]") := by
  refine ⟨rfl, rfl, by decide, ?_⟩
  have h := (edge_raw_consensus_cells (sampleWriter true) alignedEdge "" rfl rfl
    (by decide)).1
  have hraw : expandColumns (alignedEdge.coverages.map (fun coverage =>
      ((sampleWriter true).graph.consensusCaller coverage,
        ((sampleWriter true).graph.consensusCaller coverage).base.character)))
      = "AACCC" := by decide
  have hcoverage : expandColumns (alignedEdge.coverages.map (fun coverage =>
      ((sampleWriter true).graph.consensusCaller coverage,
        coverage.coverageCharacterAt ((sampleWriter true).graph.consensusCaller coverage).base
          ((sampleWriter true).graph.consensusCaller coverage).repeatCount)))
      = "11111" := by decide
  rw [hraw, hcoverage] at h
  exact h

end Shasta

/-! ## The Repeat cell of an interval row -/

namespace Shasta

end Shasta

/-! ## The repeat count cell of an aligned read -/

namespace Shasta

theorem nonGapsBefore_zero (alignmentRow : List AlignedBase) :
    nonGapsBefore alignmentRow 0 = 0 := by
  simp [nonGapsBefore]

theorem nonGapsBefore_cons_succ (base : AlignedBase) (rest : List AlignedBase) (j : Nat) :
    nonGapsBefore (base :: rest) (j + 1)
      = (if base.isGap then 0 else 1) + nonGapsBefore rest j := by
  unfold nonGapsBefore
  rw [List.take_succ_cons]
  cases h : base.isGap
  · rw [List.filter_cons_of_pos (by simp [h])]
    simp
    omega
  · rw [List.filter_cons_of_neg (by simp [h])]
    simp

theorem string_mk_cons_of_data (text : String) (c : Char) (rest : List Char)
    (h : text.data = [c]) : text ++ String.mk rest = String.mk (c :: rest) := by
  apply String.ext
  rw [String.data_append, h]
  rfl

/-- The loop over the columns of an alignment row, started at `position`,
succeeds when the repeat counts from `position` on are at least as many as the
columns that are not gaps, and writes one character per column. -/
theorem writeAlignmentRepeatCounts_ok (repeatCounts : List Nat)
    (alignmentRow : List AlignedBase) (position : Nat) (s : String)
    (hbound : position + (alignmentRow.filter (fun base => !base.isGap)).length
      ≤ repeatCounts.length) :
    writeAlignmentRepeatCounts repeatCounts alignmentRow position s =
      ⟨s ++ String.mk ((List.range alignmentRow.length).map (fun j =>
        if (alignmentRow.getD j AlignedBase.gap).isGap then '-'
        else repeatCountChar
          (repeatCounts.getD (position + nonGapsBefore alignmentRow j) 0))), none⟩ := by
  induction alignmentRow generalizing position s with
  | nil =>
    simp only [writeAlignmentRepeatCounts, List.length_nil, List.range_zero, List.map_nil]
    rw [show String.mk [] = "" from rfl, String.append_empty]
  | cons base rest ih =>
    rw [List.length_cons, List.range_succ_eq_map, List.map_cons, List.map_map]
    unfold writeAlignmentRepeatCounts
    cases hgap : base.isGap
    · -- the column is a base: its repeat count is read at `position`
      have hfilter : (List.filter (fun base => !base.isGap) (base :: rest)).length
          = (List.filter (fun base => !base.isGap) rest).length + 1 := by
        rw [List.filter_cons_of_pos (by simp [hgap])]
        rfl
      rw [hfilter] at hbound
      have hlt : position < repeatCounts.length := by omega
      have hcount : repeatCounts[position]? = some (repeatCounts.getD position 0) := by
        rw [List.getD_eq_getElem?_getD, List.getElem?_eq_getElem hlt]
        rfl
      simp only [Bool.false_eq_true, if_false, hcount]
      rw [andThen_put, ih (position + 1) _ (by omega), String.append_assoc,
        string_mk_cons_of_data _ _ _ (repeatCountText_data _)]
      congr 3
      simp [hgap, nonGapsBefore_zero]
      intro j _
      rw [nonGapsBefore_cons_succ, hgap]
      simp only [Bool.false_eq_true, if_false, Nat.add_assoc]
    · -- the column is a gap
      have hfilter : (List.filter (fun base => !base.isGap) (base :: rest)).length
          = (List.filter (fun base => !base.isGap) rest).length := by
        rw [List.filter_cons_of_neg (by simp [hgap])]
      rw [hfilter] at hbound
      simp only [if_true]
      rw [andThen_put, ih position _ hbound, String.append_assoc,
        string_mk_cons_of_data "-" '-' _ rfl]
      congr 3
      simp [hgap]
      intro j _
      rw [nonGapsBefore_cons_succ, hgap]
      simp only [if_true, Nat.zero_add]

end Shasta

namespace Shasta

theorem repeatCountChar_ne_dash (repeatCount : Nat) : repeatCountChar repeatCount ≠ '-' := by
  unfold repeatCountChar
  by_cases h : repeatCount < 10
  · rw [if_pos h]
    revert repeatCount
    decide
  · rw [if_neg h]
    decide

theorem nonGapsBefore_lt (alignmentRow : List AlignedBase) (j : Nat)
    (hj : j < alignmentRow.length) (hbase : alignmentRow[j].isGap = false) :
    nonGapsBefore alignmentRow j
      < (alignmentRow.filter (fun base => !base.isGap)).length := by
  have hsub : ((alignmentRow.take (j + 1)).filter (fun base => !base.isGap)).length
      ≤ (alignmentRow.filter (fun base => !base.isGap)).length :=
    ((List.take_sublist (j + 1) alignmentRow).filter _).length_le
  have htake : ((alignmentRow.take (j + 1)).filter (fun base => !base.isGap)).length
      = nonGapsBefore alignmentRow j + 1 := by
    unfold nonGapsBefore
    rw [List.take_succ, List.getElem?_eq_getElem hj, List.filter_append]
    simp [hbase]
  omega

theorem forEach_append {α : Type} (body : α → String → Result) (xs ys : List α)
    (s : String) :
    forEach body (xs ++ ys) s = (forEach body xs s).andThen (forEach body ys) := by
  induction xs generalizing s with
  | nil => rfl
  | cons x rest ih =>
    simp only [List.cons_append, forEach]
    cases hbody : body x s with
    | mk out fault =>
      cases fault with
      | none => exact ih out
      | some f => rfl

theorem forRange_succ (n : Nat) (body : Nat → String → Result) (s : String) :
    forRange (n + 1) body s = (forRange n body s).andThen (body n) := by
  unfold forRange
  rw [List.range_succ, forEach_append]
  congr 1
  funext t
  simp only [forEach]
  cases body n t with
  | mk out fault =>
    cases fault <;> rfl

/-- The row of an aligned read whose repeat counts are at least as many as the
columns of its alignment row that are not gaps: the loop over the columns reads
no count out of range, and the cell holds the character of each column. -/
theorem writeAlignmentRow_ok (w : Writer) (edge : LocalMarkerGraphEdge) (i : Nat)
    (s : String) (alignmentInfo : AlignmentInfo) (alignmentRow : List AlignedBase)
    (hinfo : edge.alignmentInfos[i]? = some alignmentInfo)
    (hrow : edge.seqanAlignment[i]? = some alignmentRow)
    (hbound : (alignmentRow.filter (fun base => !base.isGap)).length
      ≤ alignmentInfo.repeatCounts.length) :
    writeAlignmentRow w edge i s =
      ⟨s ++ ("<tr>" ++ edgeLinkCells w alignmentInfo.orientedReadId alignmentInfo.ordinals
        ++ "<td><b>" ++ alignmentRowText alignmentRow ++ "</b></td>" ++ "<td><b>"
        ++ alignmentCountCell alignmentInfo.repeatCounts alignmentRow
        ++ "</b></td>" ++ "</tr>"), none⟩ := by
  unfold writeAlignmentRow
  simp only [hinfo, hrow]
  rw [andThen_put, andThen_put,
    writeAlignmentRepeatCounts_ok _ _ 0 _ (by simpa using hbound)]
  simp only [Result.andThen, put, Nat.zero_add, alignmentCountCell, String.append_assoc]

/-- The rows of the first `n` aligned reads, when each of them has its
alignment row and enough repeat counts: one write of their texts. -/
theorem alignmentRows_prefix (w : Writer) (edge : LocalMarkerGraphEdge) (n : Nat)
    (hinfos : n ≤ edge.alignmentInfos.length) (hrows : n ≤ edge.seqanAlignment.length)
    (hbound : ∀ p ∈ (edge.alignmentInfos.zip edge.seqanAlignment).take n,
      (p.2.filter (fun base => !base.isGap)).length ≤ p.1.repeatCounts.length)
    (s : String) :
    forRange n (writeAlignmentRow w edge) s =
      ⟨s ++ concatEach ((edge.alignmentInfos.zip edge.seqanAlignment).take n) (fun p =>
        "<tr>" ++ edgeLinkCells w p.1.orientedReadId p.1.ordinals
          ++ "<td><b>" ++ alignmentRowText p.2 ++ "</b></td>" ++ "<td><b>"
          ++ alignmentCountCell p.1.repeatCounts p.2
          ++ "</b></td>" ++ "</tr>"), none⟩ := by
  induction n with
  | zero =>
    simp only [List.take_zero, concatEach_nil, String.append_empty]
    rfl
  | succ n ih =>
    have hn1 : n < edge.alignmentInfos.length := hinfos
    have hn2 : n < edge.seqanAlignment.length := hrows
    have hzip : (edge.alignmentInfos.zip edge.seqanAlignment)[n]?
        = some (edge.alignmentInfos[n], edge.seqanAlignment[n]) := by
      rw [List.getElem?_zip_eq_some]
      exact ⟨List.getElem?_eq_getElem hn1, List.getElem?_eq_getElem hn2⟩
    have htake : (edge.alignmentInfos.zip edge.seqanAlignment).take (n + 1)
        = (edge.alignmentInfos.zip edge.seqanAlignment).take n
          ++ [(edge.alignmentInfos[n], edge.seqanAlignment[n])] := by
      rw [List.take_succ, hzip]
      rfl
    rw [htake] at hbound ⊢
    rw [forRange_succ, ih (Nat.le_of_lt hn1) (Nat.le_of_lt hn2)
      (fun p hp => hbound p (List.mem_append_left _ hp)), andThen_ok,
      writeAlignmentRow_ok w edge n _ _ _ (List.getElem?_eq_getElem hn1)
        (List.getElem?_eq_getElem hn2)
        (hbound _ (List.mem_append_right _ (List.mem_singleton_self _))),
      concatEach_append, concatEach_cons, concatEach_nil, String.append_empty,
      String.append_assoc]

/-- C21. In the text of a detailed edge with a computed alignment, for an
aligned read whose recorded repeat counts are at least as many as the columns
of its alignment row that are not gaps (the reads before it likewise, so that
the writer reaches its row): the row of the read follows the rows of the reads
before it, written without any index out of bounds; its repeat count cell has
exactly one character per column of the alignment row, the character of a
column is `-` exactly when the column is a gap, and the character of the m-th
column that is not a gap is the digit or star of `repeatCounts[m]`.  When every
aligned read has its alignment row and enough repeat counts, the edge is
rendered successfully and its text is given in full. -/
theorem alignment_repeat_count_cell (w : Writer) (edge : LocalMarkerGraphEdge) (i : Nat)
    (s : String) (alignmentInfo : AlignmentInfo) (alignmentRow : List AlignedBase)
    (hmode : w.detailed = true) (hcoverage : edge.coverage ≥ 1)
    (hcomputed : edge.seqanAlignmentWasComputed = true)
    (hinfo : edge.alignmentInfos[i]? = some alignmentInfo)
    (hrow : edge.seqanAlignment[i]? = some alignmentRow)
    (hbound : (alignmentRow.filter (fun base => !base.isGap)).length
      ≤ alignmentInfo.repeatCounts.length)
    (hbefore : ∀ p ∈ (edge.alignmentInfos.zip edge.seqanAlignment).take i,
      (p.2.filter (fun base => !base.isGap)).length ≤ p.1.repeatCounts.length) :
    ∃ cell : String,
      (∃ rest, (writeEdge w edge s).out =
        s ++ edgeDetailedHead w edge ++ concatEach edge.infos (variantRowsText w)
          ++ ("<tr><td colspan=\"" ++ toString (5 : Nat)
            ++ "\"><b>SeqAn alignment</b></td></tr>")
          ++ concatEach ((edge.alignmentInfos.zip edge.seqanAlignment).take i) (fun p =>
            "<tr>" ++ edgeLinkCells w p.1.orientedReadId p.1.ordinals
              ++ "<td><b>" ++ alignmentRowText p.2 ++ "</b></td>" ++ "<td><b>"
              ++ alignmentCountCell p.1.repeatCounts p.2
              ++ "</b></td>" ++ "</tr>")
          ++ ("<tr>" ++ edgeLinkCells w alignmentInfo.orientedReadId alignmentInfo.ordinals
            ++ "<td><b>" ++ alignmentRowText alignmentRow ++ "</b></td>" ++ "<td><b>"
            ++ cell
            ++ "</b></td>" ++ "</tr>")
          ++ rest) ∧
      (edge.alignmentInfos.length ≤ edge.seqanAlignment.length →
        (∀ p ∈ edge.alignmentInfos.zip edge.seqanAlignment,
          (p.2.filter (fun base => !base.isGap)).length ≤ p.1.repeatCounts.length) →
        writeEdge w edge s =
          ⟨s ++ edgeDetailedHead w edge ++ concatEach edge.infos (variantRowsText w)
            ++ ("<tr><td colspan=\"" ++ toString (5 : Nat)
              ++ "\"><b>SeqAn alignment</b></td></tr>")
            ++ concatEach (edge.alignmentInfos.zip edge.seqanAlignment) (fun p =>
              "<tr>" ++ edgeLinkCells w p.1.orientedReadId p.1.ordinals
                ++ "<td><b>" ++ alignmentRowText p.2 ++ "</b></td>" ++ "<td><b>"
                ++ alignmentCountCell p.1.repeatCounts p.2
                ++ "</b></td>" ++ "</tr>")
            ++ edgeConsensusRowsText w edge (edgeConsensus w edge)
            ++ ("</table></font>> decorate=true" ++ "]"), none⟩) ∧
      cell = alignmentCountCell alignmentInfo.repeatCounts alignmentRow ∧
      cell.length = alignmentRow.length ∧
      ∀ (j : Nat) (hj : j < alignmentRow.length),
        (alignmentRow[j].isGap = true → cell.data[j]? = some '-') ∧
        (alignmentRow[j].isGap = false →
          ∃ repeatCount,
            alignmentInfo.repeatCounts[nonGapsBefore alignmentRow j]? = some repeatCount ∧
            cell.data[j]? = some (repeatCountChar repeatCount) ∧
            (repeatCount < 10 → (toString repeatCount).data = [repeatCountChar repeatCount]) ∧
            (repeatCount ≥ 10 → repeatCountChar repeatCount = '*')) ∧
        (cell.data[j]? = some '-' ↔ alignmentRow[j].isGap = true) := by
  have hpos : edge.coverage > 0 := hcoverage
  have hi1 : i < edge.alignmentInfos.length := (List.getElem?_eq_some.mp hinfo).1
  have hi2 : i < edge.seqanAlignment.length := (List.getElem?_eq_some.mp hrow).1
  have hwrite : ∀ t, writeEdge w edge t =
      ((forRange edge.alignmentInfos.length (writeAlignmentRow w edge)
        (t ++ edgeDetailedHead w edge ++ concatEach edge.infos (variantRowsText w)
          ++ ("<tr><td colspan=\"" ++ toString (5 : Nat)
            ++ "\"><b>SeqAn alignment</b></td></tr>"))).andThen fun s =>
        put (edgeConsensusRowsText w edge (edgeConsensus w edge)) s).andThen fun s =>
        put ("</table></font>> decorate=true" ++ "]") s := by
    intro t
    simp only [writeEdge, hpos, hmode, not_true_eq_false, if_false, writeEdgeDetailed,
      writeEdgeAlignment, hcomputed, if_true]
    rw [andThen_put, andThen_put, andThen_put]
  have hcell : ∀ (j : Nat) (hj : j < alignmentRow.length),
      (alignmentCountCell alignmentInfo.repeatCounts alignmentRow).data[j]? =
        some (if alignmentRow[j].isGap then '-'
          else repeatCountChar
            (alignmentInfo.repeatCounts.getD (nonGapsBefore alignmentRow j) 0)) := by
    intro j hj
    unfold alignmentCountCell
    simp [List.getElem?_map, List.getElem?_range hj, List.getD_eq_getElem?_getD,
      List.getElem?_eq_getElem hj]
  refine ⟨alignmentCountCell alignmentInfo.repeatCounts alignmentRow, ?_, ?_, rfl, ?_, ?_⟩
  · -- the rows up to the read, then the rest of the text
    have hzip : (edge.alignmentInfos.zip edge.seqanAlignment)[i]?
        = some (alignmentInfo, alignmentRow) := by
      rw [List.getElem?_zip_eq_some]
      exact ⟨hinfo, hrow⟩
    have htake : (edge.alignmentInfos.zip edge.seqanAlignment).take (i + 1)
        = (edge.alignmentInfos.zip edge.seqanAlignment).take i
          ++ [(alignmentInfo, alignmentRow)] := by
      rw [List.take_succ, hzip]
      rfl
    have hrows := alignmentRows_prefix w edge (i + 1) hi1 hi2 (by
      rw [htake]
      intro p hp
      rcases List.mem_append.mp hp with h | h
      · exact hbefore p h
      · rw [List.mem_singleton.mp h]
        exact hbound)
    have hsplit : edge.alignmentInfos.length
        = (i + 1) + (edge.alignmentInfos.length - (i + 1)) := by omega
    rw [hwrite]
    unfold forRange at hrows ⊢
    rw [hsplit, List.range_add, forEach_append, hrows, andThen_ok, htake, concatEach_append,
      concatEach_cons, concatEach_nil, String.append_empty]
    obtain ⟨rest, hrest⟩ := andThen_continues
      ((forEach (writeAlignmentRow w edge)
        (List.map (fun x => i + 1 + x) (List.range (edge.alignmentInfos.length - (i + 1))))
        (s ++ edgeDetailedHead w edge ++ concatEach edge.infos (variantRowsText w)
          ++ ("<tr><td colspan=\"" ++ toString (5 : Nat)
            ++ "\"><b>SeqAn alignment</b></td></tr>")
          ++ (concatEach ((edge.alignmentInfos.zip edge.seqanAlignment).take i) (fun p =>
            "<tr>" ++ edgeLinkCells w p.1.orientedReadId p.1.ordinals
              ++ "<td><b>" ++ alignmentRowText p.2 ++ "</b></td>" ++ "<td><b>"
              ++ alignmentCountCell p.1.repeatCounts p.2
              ++ "</b></td>" ++ "</tr>")
            ++ ("<tr>" ++ edgeLinkCells w alignmentInfo.orientedReadId alignmentInfo.ordinals
              ++ "<td><b>" ++ alignmentRowText alignmentRow ++ "</b></td>" ++ "<td><b>"
              ++ alignmentCountCell alignmentInfo.repeatCounts alignmentRow
              ++ "</b></td>" ++ "</tr>")))).andThen fun s =>
        put (edgeConsensusRowsText w edge (edgeConsensus w edge)) s)
      (fun s => put ("</table></font>> decorate=true" ++ "]") s) _
      (andThen_continues _ _ _
        (forEach_continues _ (writeAlignmentRow_continues w edge) _ _)
        (fun s1 => put_continues _ s1))
      (fun s1 => put_continues _ s1)
    refine ⟨rest, ?_⟩
    rw [hrest]
    simp only [String.append_assoc]
  · -- every read has its row and enough repeat counts
    intro hlength hall
    have htake : (edge.alignmentInfos.zip edge.seqanAlignment).take
        edge.alignmentInfos.length = edge.alignmentInfos.zip edge.seqanAlignment := by
      apply List.take_of_length_le
      rw [List.length_zip]
      exact Nat.min_le_left _ _
    have hrows := alignmentRows_prefix w edge edge.alignmentInfos.length (Nat.le_refl _)
      hlength (by rw [htake]; exact hall)
    rw [hwrite, hrows, andThen_ok, andThen_put, htake]
    rfl
  · show ((List.range alignmentRow.length).map _).length = _
    simp
  · intro j hj
    have hj2 := hcell j hj
    refine ⟨?_, ?_, ?_⟩
    · intro hgap
      rw [hj2, if_pos hgap]
    · intro hbase
      have hlt : nonGapsBefore alignmentRow j < alignmentInfo.repeatCounts.length :=
        Nat.lt_of_lt_of_le (nonGapsBefore_lt alignmentRow j hj hbase) hbound
      refine ⟨alignmentInfo.repeatCounts[nonGapsBefore alignmentRow j],
        List.getElem?_eq_getElem hlt, ?_, ?_, ?_⟩
      · rw [hj2, if_neg (by simp [hbase]), List.getD_eq_getElem?_getD,
          List.getElem?_eq_getElem hlt]
        rfl
      · intro hsmall
        have h := repeatCountText_data
          alignmentInfo.repeatCounts[nonGapsBefore alignmentRow j]
        simp only [repeatCountText, if_pos hsmall] at h
        exact h
      · intro hlarge
        simp [repeatCountChar, Nat.not_lt.mpr hlarge]
    · rw [hj2]
      cases hgap : alignmentRow[j].isGap
      · simp only [Bool.false_eq_true, if_false, Option.some.injEq]
        exact ⟨fun h => absurd h (repeatCountChar_ne_dash _), fun h => by cases h⟩
      · simp

theorem alignment_repeat_count_cell_witness :
    (sampleWriter true).detailed = true ∧ alignedEdge.coverage ≥ 1 ∧
    alignedEdge.seqanAlignmentWasComputed = true ∧
    alignedEdge.alignmentInfos[1]? = some ⟨⟨6, 1⟩, (12, 13), [2, 1, 12]⟩ ∧
    alignedEdge.seqanAlignment[1]? = some [AlignedBase.A, AlignedBase.G, AlignedBase.C] ∧
    ([AlignedBase.A, AlignedBase.G, AlignedBase.C].filter (fun base => !base.isGap)).length
      ≤ [2, 1, 12].length ∧
    (∀ p ∈ (alignedEdge.alignmentInfos.zip alignedEdge.seqanAlignment).take 1,
      (p.2.filter (fun base => !base.isGap)).length ≤ p.1.repeatCounts.length) ∧
    (writeEdge (sampleWriter true) alignedEdge "").fault = none ∧
    ∃ rest, (writeEdge (sampleWriter true) alignedEdge "").out =
      "" ++ edgeDetailedHead (sampleWriter true) alignedEdge
        ++ concatEach alignedEdge.infos (variantRowsText (sampleWriter true))
        ++ "<tr><td colspan=\"5\"><b>SeqAn alignment</b></td></tr>"
        ++ ("<tr>" ++ edgeLinkCells (sampleWriter true) ⟨5, 0⟩ (7, 8)
          ++ "<td><b>A-C</b></td><td><b>2-3</b></td></tr>")
        ++ ("<tr>" ++ edgeLinkCells (sampleWriter true) ⟨6, 1⟩ (12, 13)
          ++ "<td><b>AGC</b></td><td><b>21*</b></td></tr>")
        ++ rest := by
  have hbefore : ∀ p ∈ (alignedEdge.alignmentInfos.zip alignedEdge.seqanAlignment).take 1,
      (p.2.filter (fun base => !base.isGap)).length ≤ p.1.repeatCounts.length := by
    decide
  have hall : ∀ p ∈ alignedEdge.alignmentInfos.zip alignedEdge.seqanAlignment,
      (p.2.filter (fun base => !base.isGap)).length ≤ p.1.repeatCounts.length := by
    decide
  obtain ⟨cell, ⟨rest, hout⟩, hfull, hcell, _⟩ :=
    alignment_repeat_count_cell (sampleWriter true) alignedEdge 1 ""
      ⟨⟨6, 1⟩, (12, 13), [2, 1, 12]⟩ [AlignedBase.A, AlignedBase.G, AlignedBase.C]
      rfl (by decide) rfl rfl rfl (by decide) hbefore
  refine ⟨rfl, by decide, rfl, rfl, rfl, by decide, hbefore, ?_, rest, hout.trans ?_⟩
  · rw [hfull (by decide) hall]
  · subst hcell
    congr 1

end Shasta

/-! ## A consensus mismatch stops the vertex writer midway -/

namespace Shasta

theorem vertexConsensusLoop_append_error (w : Writer) (vertex : LocalMarkerGraphVertex)
    (first later : List Nat) (acc : List Consensus) (f : Fault)
    (h : vertexConsensusLoop w vertex first acc = Except.error f) :
    vertexConsensusLoop w vertex (first ++ later) acc = Except.error f := by
  induction first generalizing acc with
  | nil => simp [vertexConsensusLoop] at h
  | cons p rest ih =>
    rw [List.cons_append]
    unfold vertexConsensusLoop at h ⊢
    cases hcov : vertex.coverages[p]? with
    | none =>
      simp only [hcov] at h ⊢
      exact h
    | some coverage =>
      simp only [hcov] at h ⊢
      by_cases hbase : (w.graph.consensusCaller coverage).base
          = AlignedBase.ofBase (w.graph.getKmer vertex p)
      · rw [if_pos hbase] at h ⊢
        exact ih _ h
      · rw [if_neg hbase] at h ⊢
        exact h

/-- A position below `k` whose consensus base differs from the base of the
k-mer makes the consensus loop fail its assertion. -/
theorem vertexConsensus_mismatch (w : Writer) (vertex : LocalMarkerGraphVertex)
    (p : Nat) (hp : p < w.graph.k) (coverage : Coverage)
    (hcov : vertex.coverages[p]? = some coverage)
    (hne : (w.graph.consensusCaller coverage).base
      ≠ AlignedBase.ofBase (w.graph.getKmer vertex p)) :
    vertexConsensus w vertex = Except.error Fault.assertion := by
  have hplt : p < vertex.coverages.length := (List.getElem?_eq_some.mp hcov).1
  have hsplit : List.range w.graph.k
      = List.range (p + 1) ++ List.map (fun x => p + 1 + x) (List.range (w.graph.k - (p + 1))) := by
    rw [← List.range_add]
    congr 1
    omega
  unfold vertexConsensus
  rw [hsplit]
  apply vertexConsensusLoop_append_error
  rcases vertexConsensusLoop_cases w vertex (List.range (p + 1))
      (List.replicate w.graph.k default)
      (fun q hq => by have := List.mem_range.mp hq; omega) with ⟨hall, _⟩ | ⟨_, herr⟩
  · exact absurd (hall p (List.mem_range.mpr (Nat.lt_succ_self p)) coverage hcov) hne
  · exact herr

theorem string_append_length_lt (s t : String) (h : 0 < t.length) :
    s.length < (s ++ t).length := by
  rw [String.length_append]
  omega

end Shasta

namespace Shasta

/-- C22. A consensus mismatch failure of the detailed vertex writer is not
atomic.  For a vertex with coverage at least 1 (whose markers have their `k`
repeat counts) and with a position whose consensus base differs from the base
of the k-mer, the render fails with an invariant violation after it has written
the opening bracket, the colour, id and tooltip attributes, the header rows of
the table and one row for each marker, and nothing else: the text written is
not empty, ends with the last marker row, and has neither the
`Repeat consensus` row nor the closing bracket after it. -/
theorem consensus_failure_not_atomic (w : Writer) (vertex : LocalMarkerGraphVertex)
    (s : String) (hmode : w.detailed = true) (hcoverage : vertex.markerInfos.length ≥ 1)
    (hcounts : ∀ markerInfo ∈ vertex.markerInfos,
      w.graph.k ≤ (w.graph.getRepeatCounts markerInfo).length)
    (hmismatch : ∃ p, p < w.graph.k ∧ ∃ coverage, vertex.coverages[p]? = some coverage ∧
      (w.graph.consensusCaller coverage).base
        ≠ AlignedBase.ofBase (w.graph.getKmer vertex p)) :
    writeVertex w vertex s =
      ⟨s ++ vertexDetailedHead w vertex
        ++ concatEach vertex.markerInfos (fun markerInfo =>
            markerRowHead w markerInfo
              ++ String.mk ((List.range w.graph.k).map (fun i =>
                  repeatCountChar ((w.graph.getRepeatCounts markerInfo).getD i 0)))
              ++ ("</b></td>" ++ "</tr>")),
        some Fault.assertion⟩ ∧
    (∃ rest, vertexDetailedHead w vertex =
      "[" ++ (" style=filled"
        ++ (" fillcolor=\"" ++ (vertexColor w "green" vertex ++ ("\""
        ++ (" id=vertex" ++ (toString vertex.vertexId ++ (" tooltip=\"" ++ rest)))))))) ∧
    s.length < (writeVertex w vertex s).out.length ∧
    (∃ before, (writeVertex w vertex s).out = before ++ "</b></td></tr>") ∧
    ¬ (∃ before, (writeVertex w vertex s).out = before ++ "]") := by
  have hpos : vertex.markerInfos.length > 0 := hcoverage
  obtain ⟨p, hp, coverage, hcov, hne⟩ := hmismatch
  have hcons := vertexConsensus_mismatch w vertex p hp coverage hcov hne
  have hcell : ∀ counts : List Nat,
      concatRange w.graph.k (fun i => repeatCountText (counts.getD i 0))
        = String.mk ((List.range w.graph.k).map (fun i =>
            repeatCountChar (counts.getD i 0))) := by
    intro counts
    rw [concatRange_eq]
    exact concatEach_chars_map _ _ _ (fun i _ => repeatCountText_data _)
  have hwrite : writeVertex w vertex s =
      ⟨s ++ vertexDetailedHead w vertex
        ++ concatEach vertex.markerInfos (fun markerInfo =>
            markerRowHead w markerInfo
              ++ String.mk ((List.range w.graph.k).map (fun i =>
                  repeatCountChar ((w.graph.getRepeatCounts markerInfo).getD i 0)))
              ++ ("</b></td>" ++ "</tr>")),
        some Fault.assertion⟩ := by
    have hdetailed : writeVertex w vertex s = writeVertexDetailed w vertex s := by
      simp [writeVertex, hpos, hmode]
    rw [hdetailed]
    unfold writeVertexDetailed
    rw [andThen_put, forEach_put (writeMarkerRow w) _ vertex.markerInfos
      (fun markerInfo hmem s1 => writeMarkerRow_ok w markerInfo (hcounts markerInfo hmem) s1),
      andThen_put, hcons]
    simp only [raise, hcell]
  have hhead : ∃ rest, vertexDetailedHead w vertex =
      "[" ++ (" style=filled"
        ++ (" fillcolor=\"" ++ (vertexColor w "green" vertex ++ ("\""
        ++ (" id=vertex" ++ (toString vertex.vertexId ++ (" tooltip=\"" ++ rest))))))) := by
    simp only [vertexDetailedHead, String.append_assoc]
    exact ⟨_, rfl⟩
  have hend : ∃ before, (writeVertex w vertex s).out = before ++ "</b></td></tr>" := by
    rw [hwrite]
    rcases List.eq_nil_or_concat vertex.markerInfos with hnil | ⟨init, last, hlast⟩
    · rw [hnil] at hpos
      exact absurd hpos (by decide)
    · rw [hlast, List.concat_eq_append, concatEach_append, concatEach_cons, concatEach_nil,
        String.append_empty]
      refine ⟨s ++ vertexDetailedHead w vertex
        ++ concatEach init (fun markerInfo =>
            markerRowHead w markerInfo
              ++ String.mk ((List.range w.graph.k).map (fun i =>
                  repeatCountChar ((w.graph.getRepeatCounts markerInfo).getD i 0)))
              ++ ("</b></td>" ++ "</tr>"))
        ++ markerRowHead w last
        ++ String.mk ((List.range w.graph.k).map (fun i =>
            repeatCountChar ((w.graph.getRepeatCounts last).getD i 0))), ?_⟩
      have hlit : ("</b></td>" ++ "</tr>" : String) = "</b></td></tr>" := by decide
      simp only [hlit, String.append_assoc]
  refine ⟨hwrite, hhead, ?_, hend, ?_⟩
  · obtain ⟨rest, hrest⟩ := hhead
    rw [hwrite]
    simp only [String.append_assoc]
    apply string_append_length_lt
    rw [hrest, String.length_append, String.length_append]
    have hone : ("[" : String).length = 1 := by decide
    omega
  · rintro ⟨before2, h2⟩
    obtain ⟨before1, h1⟩ := hend
    have hdata := congrArg String.data (h1.symm.trans h2)
    have hsplit : ("</b></td></tr>" : String) = "</b></td></tr" ++ ">" := by decide
    rw [hsplit, ← String.append_assoc, String.data_append, String.data_append] at hdata
    exact absurd (List.append_inj_right' hdata rfl) (by decide)

theorem consensus_failure_not_atomic_witness :
    (sampleWriter true).detailed = true ∧ mismatchVertex.markerInfos.length ≥ 1 ∧
    (∀ markerInfo ∈ mismatchVertex.markerInfos,
      (sampleWriter true).graph.k
        ≤ ((sampleWriter true).graph.getRepeatCounts markerInfo).length) ∧
    (∃ p, p < (sampleWriter true).graph.k ∧ ∃ coverage,
      mismatchVertex.coverages[p]? = some coverage ∧
      ((sampleWriter true).graph.consensusCaller coverage).base
        ≠ AlignedBase.ofBase ((sampleWriter true).graph.getKmer mismatchVertex p)) ∧
    writeVertex (sampleWriter true) mismatchVertex "" =
      ⟨"[ style=filled fillcolor=\"red\" id=vertex18 tooltip=\"Vertex 18, coverage 1, distance 3, rank 5\" label=<<font><table border=\"0\"><tr><td colspan=\"4\"><b>Vertex 18</b></td></tr><tr><td colspan=\"4\"><b>ACGT</b></td></tr><tr><td colspan=\"4\"><b>Coverage 1</b></td></tr><tr><td colspan=\"4\"  href=\"\" id=\"vertexDistance18\" tooltip=\"Click to recenter graph here\"><font color=\"blue\"><b><u>Distance 3</u></b></font></td></tr><tr><td colspan=\"4\"><b>Rank 5</b></td></tr><tr><td><b>Read</b></td><td><b>Ord</b></td><td><b>Pos</b></td><td><b>Repeat</b></td></tr><tr><td align=\"right\" href=\"exploreRead?readId&amp;5&amp;strand=0\"><font color=\"blue\"><b><u>5-0</u></b></font></td><td align=\"right\" href=\"exploreRead?readId=5&amp;strand=0&amp;highlightMarker=7\"><font color=\"blue\"><b><u>7</u></b></font></td><td align=\"right\"><b>30</b></td><td><b>2137</b></td></tr>",
        some Fault.assertion⟩ := by
  have hcounts : ∀ markerInfo ∈ mismatchVertex.markerInfos,
      (sampleWriter true).graph.k
        ≤ ((sampleWriter true).graph.getRepeatCounts markerInfo).length :=
    fun _ _ => Nat.le_refl 4
  have hmismatch : ∃ p, p < (sampleWriter true).graph.k ∧ ∃ coverage,
      mismatchVertex.coverages[p]? = some coverage ∧
      ((sampleWriter true).graph.consensusCaller coverage).base
        ≠ AlignedBase.ofBase ((sampleWriter true).graph.getKmer mismatchVertex p) :=
    ⟨1, by decide, sampleCoverage AlignedBase.A 1, rfl, by decide⟩
  refine ⟨rfl, by decide, hcounts, hmismatch, ?_⟩
  rw [(consensus_failure_not_atomic (sampleWriter true) mismatchVertex "" rfl (by decide)
    hcounts hmismatch).1]
  decide

end Shasta

/-! ## The thickness fallback -/

namespace Shasta

/-- C23. The fallback `coverage == 0 ? 1 : coverage` of the thickness is never
taken.  The entry assertion stops the edge writer, with nothing written,
exactly when the coverage is 0; whenever the writer gets past it, in either
mode, the coverage is at least 1, `max(coverage, 1)` is the coverage, and the
thickness written as penwidth is `0.2 * coverage` (compact) or
`0.5 * coverage` (detailed); this holds in particular for every edge rendered
successfully. -/
theorem thickness_fallback_unreachable (w : Writer) (edge : LocalMarkerGraphEdge)
    (s : String) :
    (edge.coverage = 0 ↔ writeEdge w edge s = ⟨s, some Fault.assertion⟩) ∧
    ((writeEdge w edge s).fault = none → edge.coverage ≥ 1) ∧
    (edge.coverage ≥ 1 →
      (if edge.coverage = 0 then 1 else edge.coverage) = edge.coverage ∧
      max edge.coverage 1 = edge.coverage ∧
      edgeThickness compactThicknessScale edge.coverage = (0.2 : ℚ) * (edge.coverage : ℚ) ∧
      edgeThickness detailedThicknessScale edge.coverage = (0.5 : ℚ) * (edge.coverage : ℚ) ∧
      (w.detailed = false →
        writeEdge w edge s =
          ⟨s ++ ("["
            ++ "tooltip=\"Coverage " ++ toString edge.coverage
            ++ ", consensus " ++ toString edge.consensus ++ "\""
            ++ " fillcolor=\"" ++ edgeColor w edge ++ "\""
            ++ " color=\"" ++ edgeColor w edge ++ "\""
            ++ " penwidth="
            ++ w.floats.ofThickness ((0.2 : ℚ) * (edge.coverage : ℚ))
            ++ edgeStyleText edge
            ++ " weight=" ++ toString edge.coverage
            ++ "]"), none⟩) ∧
      (w.detailed = true →
        ∃ rest, (writeEdge w edge s).out =
          s ++ ("["
            ++ " tooltip=\"" ++ ("Coverage " ++ toString edge.coverage
              ++ ", consensus " ++ toString edge.consensus) ++ "\""
            ++ " labeltooltip=\"" ++ ("Coverage " ++ toString edge.coverage
              ++ ", consensus " ++ toString edge.consensus) ++ "\""
            ++ " penwidth="
            ++ w.floats.ofThickness ((0.5 : ℚ) * (edge.coverage : ℚ))
            ++ rest))) := by
  have hfacts : edge.coverage ≥ 1 →
      (if edge.coverage = 0 then 1 else edge.coverage) = edge.coverage ∧
      max edge.coverage 1 = edge.coverage ∧
      edgeThickness compactThicknessScale edge.coverage = (0.2 : ℚ) * (edge.coverage : ℚ) ∧
      edgeThickness detailedThicknessScale edge.coverage
        = (0.5 : ℚ) * (edge.coverage : ℚ) := by
    intro hcoverage
    have hne : edge.coverage ≠ 0 := by omega
    have hmax : max edge.coverage 1 = edge.coverage := Nat.max_eq_left hcoverage
    refine ⟨by rw [if_neg hne], hmax, ?_, ?_⟩
    · rw [edgeThickness_eq_max, hmax]
      unfold compactThicknessScale
      norm_num
    · rw [edgeThickness_eq_max, hmax]
      unfold detailedThicknessScale
      norm_num
  refine ⟨⟨?_, ?_⟩, writeEdge_ok_coverage w edge s, ?_⟩
  · intro hzero
    simp [writeEdge, hzero, raise]
  · intro hfail
    by_contra hne
    have hpos : edge.coverage > 0 := Nat.pos_of_ne_zero hne
    by_cases hmode : w.detailed = true
    · obtain ⟨t, ht⟩ := writeEdgeDetailed_head w edge s
      have hdetailed : writeEdge w edge s = writeEdgeDetailed w edge s := by
        simp [writeEdge, hpos, hmode]
      rw [← hdetailed, hfail] at ht
      have hlen := congrArg String.length ht
      have hhead : ∃ rest, edgeDetailedHead w edge = "[" ++ rest := by
        simp only [edgeDetailedHead, String.append_assoc]
        exact ⟨_, rfl⟩
      obtain ⟨rest, hrest⟩ := hhead
      have hone : ("[" : String).length = 1 := by decide
      simp only [hrest, String.length_append, hone] at hlen
      omega
    · have hcompact : (writeEdge w edge s).fault = none := by
        simp [writeEdge, hpos, hmode, writeEdgeCompact, put]
      rw [hfail] at hcompact
      cases hcompact
  · intro hcoverage
    have hpos : edge.coverage > 0 := hcoverage
    obtain ⟨h1, h2, hcompact, hdetailed⟩ := hfacts hcoverage
    refine ⟨h1, h2, hcompact, hdetailed, ?_, ?_⟩
    · intro hmode
      rw [← hcompact]
      simp [writeEdge, hpos, hmode, writeEdgeCompact, put]
    · intro hmode
      obtain ⟨t, ht⟩ := writeEdgeDetailed_head w edge s
      simp only [writeEdge, hpos, hmode, not_true_eq_false, if_false]
      rw [ht, ← hdetailed]
      simp only [edgeDetailedHead, String.append_assoc]
      exact ⟨_, rfl⟩

theorem thickness_fallback_unreachable_witness :
    (writeEdge (sampleWriter false) (sampleEdge 3) "").fault = none ∧
    (sampleEdge 3).coverage ≥ 1 ∧
    edgeThickness compactThicknessScale (sampleEdge 3).coverage = 3 / 5 ∧
    edgeThickness detailedThicknessScale (sampleEdge 3).coverage = 3 / 2 ∧
    writeEdge (sampleWriter false) (sampleEdge 0) "" = ⟨"", some Fault.assertion⟩ := by
  have hok : (writeEdge (sampleWriter false) (sampleEdge 3) "").fault = none := by decide
  have h := thickness_fallback_unreachable (sampleWriter false) (sampleEdge 3) ""
  have hcoverage := h.2.1 hok
  obtain ⟨_, _, hcompact, hdetailed, _⟩ := h.2.2 hcoverage
  refine ⟨hok, hcoverage, ?_, ?_, ?_⟩
  · rw [hcompact]
    show (0.2 : ℚ) * ((3 : Nat) : ℚ) = 3 / 5
    norm_num
  · rw [hdetailed]
    show (0.5 : ℚ) * ((3 : Nat) : ℚ) = 3 / 2
    norm_num
  · exact (thickness_fallback_unreachable (sampleWriter false) (sampleEdge 0) "").1.mp rfl

end Shasta
